import Mathlib

/-!
Verification of the `lcrr-tree` spatial index (an R-tree-family structure)
against its natural-language specification.  The Rust sources under
`src/tree/` are shallowly embedded: pure MBR algebra becomes pure Lean
functions, the mutable `ObjSpace` becomes explicit state passing, and Rust
recursion whose termination depends on tree well-formedness is given an
explicit fuel argument (theorems show the chosen fuel suffices on
well-formed states).  The generic coordinate type of the source is instantiated
with exact integers (`Int`), payload objects with `Nat`.
-/

namespace LCRR

/-! The source is generic over a coordinate type (`num::Num + PartialOrd`);
the embedding instantiates it with the exact ordered integers `Int`. -/

/-- Source `src/tree/mbr.rs`: `struct Bounds with min and max fields`. -/
structure Bounds where
  min : Int
  max : Int
deriving DecidableEq, Repr

/-- Source `Bounds::is_in_bound`: `self.min <= *value && *value <= self.max`. -/
def Bounds.is_in_bound (b : Bounds) (value : Int) : Bool :=
  decide (b.min ≤ value) && decide (value ≤ b.max)

/-- Source `Bounds::length`: `self.max - self.min`. -/
def Bounds.length (b : Bounds) : Int :=
  b.max - b.min

/-- Well-formed bounds (`Bounds::new` debug-asserts `min <= max`). -/
def Bounds.wf (b : Bounds) : Bool :=
  decide (b.min ≤ b.max)

/-- Source `src/tree/mbr.rs`: `struct MBR, a vector of Bounds`.
The undefined sentinel (`MBR::undefined`) is the empty bounds list. -/
structure MBR where
  bounds : List Bounds
deriving DecidableEq, Repr

/-- Source `MBR::undefined`: the empty bounds list. -/
def MBR.undefined : MBR :=
  ⟨[]⟩

/-- Source `MBR::is_undefined`. -/
def MBR.is_undefined (m : MBR) : Bool :=
  m.bounds.isEmpty

/-- Source `MBR::dimension`: the number of axes (`0` for the sentinel). -/
def MBR.dimension (m : MBR) : Nat :=
  m.bounds.length

/-- Source `MBR::bounds(axis_index)`; Rust indexing panics out of range, the
embedding returns a default (theorems only use in-range axes). -/
def MBR.boundsAt (m : MBR) (axis_index : Nat) : Bounds :=
  m.bounds.getD axis_index ⟨0, 0⟩

/-- Source `MBR::volume`: the first axis length (or zero for the sentinel)
folded with multiplication over the remaining axis lengths. -/
def MBR.volume (m : MBR) : Int :=
  match m.bounds with
  | [] => 0
  | b :: rest => rest.foldl (fun acc bounds => acc * bounds.length) b.length

/-- Well-formed MBR of dimension `d`: non-empty is implied by `0 < d`,
every axis has `min ≤ max` (the invariant of every non-sentinel
construction). -/
def MBR.wfDim (m : MBR) (d : Nat) : Bool :=
  decide (m.bounds.length = d) && m.bounds.all Bounds.wf

/-- Source `intersects`: counts the axes (over the zip of the two bounds
lists) on which one side's `min` or `max` lies within the other side's
bounds, and compares the count with the smaller dimension.  The Rust
function first short-circuits when `lhs` and `rhs` are the same reference;
no call site in the tree passes the same object twice, so the value-level
embedding is the non-shortcut path. -/
def intersects (lhs rhs : MBR) : Bool :=
  let min_dim := Nat.min lhs.dimension rhs.dimension
  let intersected_axis :=
    (lhs.bounds.zip rhs.bounds).countP fun p =>
      p.1.is_in_bound p.2.min || p.1.is_in_bound p.2.max || p.2.is_in_bound p.1.min
  decide (intersected_axis = min_dim)

/-- Source `extend_bounds`: pads `src_bounds` up to the length of
`target_bounds` with the inverted overall bounds `(max, min)` of
`target_bounds` (intentionally invalid; `common_mbr` repairs them). -/
def extend_bounds (src_bounds target_bounds : List Bounds) : List Bounds :=
  match target_bounds with
  | [] => src_bounds
  | b0 :: _ =>
    let p := target_bounds.foldl
      (fun (p : Int × Int) b =>
        (if b.min < p.1 then b.min else p.1, if b.max > p.2 then b.max else p.2))
      (b0.min, b0.max)
    src_bounds ++ List.replicate (target_bounds.length - src_bounds.length) ⟨p.2, p.1⟩

/-- Per-axis merge used by `common_mbr`: `(min of mins, max of maxes)`,
written with the source's strict comparisons. -/
def merge_bounds (lhs rhs : List Bounds) : List Bounds :=
  (lhs.zip rhs).map fun p =>
    ⟨if p.1.min < p.2.min then p.1.min else p.2.min,
     if p.1.max > p.2.max then p.1.max else p.2.max⟩

/-- Source `common_mbr`: equal dimensions merge directly; otherwise the
shorter side is padded by `extend_bounds` first.  (The Rust reference
short-circuit for identical references returns `lhs.clone()`, which agrees
with the merge of equal values.) -/
def common_mbr (lhs rhs : MBR) : MBR :=
  if lhs.dimension = rhs.dimension then
    ⟨merge_bounds lhs.bounds rhs.bounds⟩
  else if lhs.dimension < rhs.dimension then
    ⟨merge_bounds (extend_bounds lhs.bounds rhs.bounds) rhs.bounds⟩
  else
    ⟨merge_bounds lhs.bounds (extend_bounds rhs.bounds lhs.bounds)⟩

/-- Source `common_mbr_from_iter`: fold of `common_mbr` starting from the
undefined sentinel. -/
def common_mbr_from_iter (l : List MBR) : MBR :=
  l.foldl common_mbr MBR.undefined

/-- Source `mbr_delta`: `volume(common_mbr(src, addition)) - volume(src)`. -/
def mbr_delta (src addition : MBR) : Int :=
  (common_mbr src addition).volume - src.volume

/-! Basic facts about the MBR algebra. -/

theorem foldl_mul_eq (a : Int) (l : List Int) : l.foldl (· * ·) a = a * l.prod := by
  induction l generalizing a with
  | nil => simp
  | cons x xs ih => simp [ih, mul_assoc]

theorem volume_eq_prod (m : MBR) (h : m.bounds ≠ []) :
    m.volume = (m.bounds.map Bounds.length).prod := by
  match m, h with
  | ⟨b :: rest⟩, _ =>
    show (rest.foldl (fun acc bounds => acc * bounds.length) b.length) = _
    rw [List.map_cons, List.prod_cons, ← List.foldl_map Bounds.length (· * ·), foldl_mul_eq]

theorem prod_nonneg_of_mem (l : List Int) (h : ∀ x ∈ l, 0 ≤ x) : 0 ≤ l.prod := by
  induction l with
  | nil => simp
  | cons x xs ih =>
    simp only [List.prod_cons]
    exact mul_nonneg (h x (by simp)) (ih fun y hy => h y (List.mem_cons_of_mem _ hy))

theorem forall2_left_nonneg (xs ys : List Int)
    (h : List.Forall₂ (fun x y => 0 ≤ x ∧ x ≤ y) xs ys) : ∀ z ∈ xs, 0 ≤ z := by
  induction h with
  | nil => intro z hz; cases hz
  | @cons x y xs ys hxy _ ih =>
    intro z hz
    rcases List.mem_cons.mp hz with rfl | hz
    · exact hxy.1
    · exact ih z hz

theorem prod_le_prod_forall2 (xs ys : List Int)
    (h : List.Forall₂ (fun x y => 0 ≤ x ∧ x ≤ y) xs ys) : xs.prod ≤ ys.prod := by
  induction h with
  | nil => simp
  | @cons x y xs ys hxy htl ih =>
    simp only [List.prod_cons]
    have hxs : 0 ≤ xs.prod := prod_nonneg_of_mem xs (forall2_left_nonneg xs ys htl)
    have hy0 : 0 ≤ y := le_trans hxy.1 hxy.2
    exact mul_le_mul hxy.2 ih hxs hy0

theorem merge_bounds_length (xs ys : List Bounds) :
    (merge_bounds xs ys).length = Nat.min xs.length ys.length := by
  simp [merge_bounds]

theorem merge_bounds_forall2 (xs ys : List Bounds) (hlen : xs.length = ys.length)
    (hx : ∀ b ∈ xs, b.wf = true) :
    List.Forall₂ (fun x y => 0 ≤ x ∧ x ≤ y) (xs.map Bounds.length)
      ((merge_bounds xs ys).map Bounds.length) := by
  induction xs generalizing ys with
  | nil => simp [merge_bounds]
  | cons x xs ih =>
    cases ys with
    | nil => simp at hlen
    | cons y ys =>
      show List.Forall₂ _ (_ :: _) (_ :: _)
      refine List.Forall₂.cons ?_ (ih ys (by simpa using hlen)
        (fun b hb => hx b (List.mem_cons_of_mem _ hb)))
      have hxwf : x.min ≤ x.max := by
        have := hx x (List.mem_cons_self _ _)
        simpa [Bounds.wf] using this
      simp only [Bounds.length]
      constructor
      · omega
      · split <;> split <;> omega

theorem forall2_of_all_wf (xs ys : List Bounds) (hlen : xs.length = ys.length)
    (hx : ∀ b ∈ xs, b.wf = true) :
    (xs.map Bounds.length).prod ≤ ((merge_bounds xs ys).map Bounds.length).prod :=
  prod_le_prod_forall2 _ _ (merge_bounds_forall2 xs ys hlen hx)

/-! Symmetry of the per-axis intersection test. -/

theorem axis_intersect_symm (a b : Bounds) (ha : a.wf = true) (hb : b.wf = true) :
    (a.is_in_bound b.min || a.is_in_bound b.max || b.is_in_bound a.min) =
    (b.is_in_bound a.min || b.is_in_bound a.max || a.is_in_bound b.min) := by
  simp only [Bounds.wf, decide_eq_true_eq] at ha hb
  rw [Bool.eq_iff_iff]
  simp only [Bounds.is_in_bound, Bool.or_eq_true, Bool.and_eq_true, decide_eq_true_eq]
  omega

theorem countP_zip_symm (xs ys : List Bounds)
    (hx : ∀ u ∈ xs, u.wf = true) (hy : ∀ u ∈ ys, u.wf = true) :
    (xs.zip ys).countP
      (fun p => p.1.is_in_bound p.2.min || p.1.is_in_bound p.2.max || p.2.is_in_bound p.1.min)
    = (ys.zip xs).countP
      (fun p => p.1.is_in_bound p.2.min || p.1.is_in_bound p.2.max || p.2.is_in_bound p.1.min) := by
  induction xs generalizing ys with
  | nil => cases ys <;> simp
  | cons x xs ih =>
    cases ys with
    | nil => simp
    | cons y ys =>
      simp only [List.zip_cons_cons, List.countP_cons]
      rw [ih ys (fun u hu => hx u (List.mem_cons_of_mem _ hu))
            (fun u hu => hy u (List.mem_cons_of_mem _ hu)),
          axis_intersect_symm x y (hx x (List.mem_cons_self _ _)) (hy y (List.mem_cons_self _ _))]

/-! Facts about `extend_bounds` and the sentinel identity of `common_mbr`. -/

theorem extend_fold_spec (l : List Bounds) (init : Int × Int) :
    (l.foldl (fun (p : Int × Int) b =>
        (if b.min < p.1 then b.min else p.1, if b.max > p.2 then b.max else p.2)) init).1 ≤ init.1
  ∧ init.2 ≤ (l.foldl (fun (p : Int × Int) b =>
        (if b.min < p.1 then b.min else p.1, if b.max > p.2 then b.max else p.2)) init).2
  ∧ ∀ b ∈ l,
      (l.foldl (fun (p : Int × Int) b =>
        (if b.min < p.1 then b.min else p.1, if b.max > p.2 then b.max else p.2)) init).1 ≤ b.min
    ∧ b.max ≤ (l.foldl (fun (p : Int × Int) b =>
        (if b.min < p.1 then b.min else p.1, if b.max > p.2 then b.max else p.2)) init).2 := by
  induction l generalizing init with
  | nil => exact ⟨le_refl _, le_refl _, fun b hb => absurd hb (List.not_mem_nil b)⟩
  | cons c cs ih =>
    simp only [List.foldl_cons]
    obtain ⟨h1, h2, h3⟩ := ih (if c.min < init.1 then c.min else init.1,
      if c.max > init.2 then c.max else init.2)
    refine ⟨le_trans h1 (by dsimp only; split <;> omega),
      le_trans (by dsimp only; split <;> omega) h2, ?_⟩
    intro b hb
    rcases List.mem_cons.mp hb with rfl | hb
    · exact ⟨le_trans h1 (by dsimp only; split <;> omega),
        le_trans (by dsimp only; split <;> omega) h2⟩
    · exact h3 b hb

theorem merge_replicate_right (l : List Bounds) (c : Bounds) (n : Nat) (hn : l.length ≤ n)
    (h : ∀ b ∈ l, b.min ≤ c.min ∧ c.max ≤ b.max) :
    merge_bounds l (List.replicate n c) = l := by
  induction l generalizing n with
  | nil => simp [merge_bounds]
  | cons b bs ih =>
    cases n with
    | zero => simp at hn
    | succ n =>
      obtain ⟨h1, h2⟩ := h b (List.mem_cons_self _ _)
      obtain ⟨bmin, bmax⟩ := b
      simp only [List.replicate_succ, merge_bounds, List.zip_cons_cons, List.map_cons,
        List.cons.injEq]
      refine ⟨?_, ?_⟩
      · dsimp only at h1 h2
        simp only [Bounds.mk.injEq]
        refine ⟨?_, ?_⟩ <;> split <;> omega
      · have := ih n (by simpa using hn) (fun u hu => h u (List.mem_cons_of_mem _ hu))
        simpa [merge_bounds] using this

theorem merge_replicate_left (l : List Bounds) (c : Bounds) (n : Nat) (hn : l.length ≤ n)
    (h : ∀ b ∈ l, b.min ≤ c.min ∧ c.max ≤ b.max) :
    merge_bounds (List.replicate n c) l = l := by
  induction l generalizing n with
  | nil => simp [merge_bounds]
  | cons b bs ih =>
    cases n with
    | zero => simp at hn
    | succ n =>
      obtain ⟨h1, h2⟩ := h b (List.mem_cons_self _ _)
      obtain ⟨bmin, bmax⟩ := b
      simp only [List.replicate_succ, merge_bounds, List.zip_cons_cons, List.map_cons,
        List.cons.injEq]
      refine ⟨?_, ?_⟩
      · dsimp only at h1 h2
        simp only [Bounds.mk.injEq]
        refine ⟨?_, ?_⟩ <;> split <;> omega
      · have := ih n (by simpa using hn) (fun u hu => h u (List.mem_cons_of_mem _ hu))
        simpa [merge_bounds] using this

theorem extend_bounds_nil_spec (b0 : Bounds) (rest : List Bounds) :
    ∃ c : Bounds, extend_bounds [] (b0 :: rest) = List.replicate (b0 :: rest).length c ∧
      ∀ b ∈ b0 :: rest, b.wf = true → b.min ≤ c.min ∧ c.max ≤ b.max := by
  obtain ⟨h1, h2, h3⟩ := extend_fold_spec (b0 :: rest) (b0.min, b0.max)
  refine ⟨_, rfl, ?_⟩
  intro b hb hbwf
  have hw : b.min ≤ b.max := by simpa [Bounds.wf] using hbwf
  obtain ⟨hlo, hhi⟩ := h3 b hb
  exact ⟨le_trans hw hhi, le_trans hlo hw⟩

/-- C7: `common_mbr` treats the undefined sentinel as the identity.  For
every well-formed MBR `m` (non-empty bounds list, per-axis `min ≤ max`),
`common_mbr m undefined = m` and `common_mbr undefined m = m`, and
`common_mbr undefined undefined` is the sentinel again. -/
theorem claim_C7_common_mbr_undefined_identity (m : MBR) (d : Nat) (hd : 0 < d)
    (hm : m.wfDim d = true) :
    common_mbr m MBR.undefined = m ∧ common_mbr MBR.undefined m = m ∧
      common_mbr MBR.undefined MBR.undefined = MBR.undefined := by
  obtain ⟨l⟩ := m
  simp only [MBR.wfDim, Bool.and_eq_true, decide_eq_true_eq, List.all_eq_true] at hm
  obtain ⟨hlen, hwf⟩ := hm
  have hne : l ≠ [] := by
    intro h
    rw [h] at hlen
    simp at hlen
    omega
  match l, hne with
  | b0 :: rest, _ =>
    obtain ⟨c, hc, hcond⟩ := extend_bounds_nil_spec b0 rest
    have hmerge_r : merge_bounds (b0 :: rest) (extend_bounds [] (b0 :: rest)) = b0 :: rest := by
      rw [hc]
      exact merge_replicate_right _ c _ (le_refl _)
        (fun b hb => hcond b hb (hwf b hb))
    have hmerge_l : merge_bounds (extend_bounds [] (b0 :: rest)) (b0 :: rest) = b0 :: rest := by
      rw [hc]
      exact merge_replicate_left _ c _ (le_refl _)
        (fun b hb => hcond b hb (hwf b hb))
    refine ⟨?_, ?_, by decide⟩
    · show common_mbr ⟨b0 :: rest⟩ ⟨[]⟩ = ⟨b0 :: rest⟩
      rw [common_mbr]
      rw [if_neg (by simp [MBR.dimension]), if_neg (by simp [MBR.dimension])]
      exact congrArg MBR.mk hmerge_r
    · show common_mbr ⟨[]⟩ ⟨b0 :: rest⟩ = ⟨b0 :: rest⟩
      rw [common_mbr]
      rw [if_neg (by simp [MBR.dimension]), if_pos (by simp [MBR.dimension])]
      exact congrArg MBR.mk hmerge_l

/-- Witness for C7, instantiated at the two-dimensional MBR
`X = [0; 10], Y = [-3; 8]`. -/
theorem claim_C7_witness :
    (0 < 2 ∧ (MBR.mk [⟨0, 10⟩, ⟨-3, 8⟩]).wfDim 2 = true) ∧
      common_mbr ⟨[⟨0, 10⟩, ⟨-3, 8⟩]⟩ MBR.undefined = ⟨[⟨0, 10⟩, ⟨-3, 8⟩]⟩ ∧
      common_mbr MBR.undefined ⟨[⟨0, 10⟩, ⟨-3, 8⟩]⟩ = ⟨[⟨0, 10⟩, ⟨-3, 8⟩]⟩ ∧
      common_mbr MBR.undefined MBR.undefined = MBR.undefined :=
  ⟨⟨by decide, by decide⟩,
    claim_C7_common_mbr_undefined_identity ⟨[⟨0, 10⟩, ⟨-3, 8⟩]⟩ 2 (by decide) (by decide)⟩

/-- C9: for every two MBRs `src` and `add` of equal dimension whose
per-axis bounds satisfy `min ≤ max`, `mbr_delta src add` is nonnegative:
absorbing `add` into `src` can only grow the volume. -/
theorem claim_C9_mbr_delta_nonneg (src addition : MBR) (d : Nat)
    (hs : src.wfDim d = true) (ha : addition.wfDim d = true) :
    0 ≤ mbr_delta src addition := by
  obtain ⟨sb⟩ := src
  obtain ⟨ab⟩ := addition
  simp only [MBR.wfDim, Bool.and_eq_true, decide_eq_true_eq, List.all_eq_true] at hs ha
  have hdim : (MBR.mk sb).dimension = (MBR.mk ab).dimension := by
    simp [MBR.dimension, hs.1, ha.1]
  rw [mbr_delta, common_mbr, if_pos hdim]
  cases d with
  | zero =>
    have hsb : sb = [] := List.length_eq_zero.mp hs.1
    have hab : ab = [] := List.length_eq_zero.mp ha.1
    subst hsb hab
    decide
  | succ n =>
    have hsb : sb ≠ [] := by
      intro h
      rw [h] at hs
      simp at hs
    have hmb : merge_bounds sb ab ≠ [] := by
      have := merge_bounds_length sb ab
      intro h
      rw [h] at this
      simp [hs.1, ha.1] at this
    rw [sub_nonneg, volume_eq_prod ⟨sb⟩ hsb, volume_eq_prod ⟨merge_bounds sb ab⟩ hmb]
    exact forall2_of_all_wf sb ab (by rw [hs.1, ha.1]) hs.2

/-- Witness for C9, instantiated at `X = [0; 10], Y = [-3; 8]` and
`X = [-5; 4], Y = [-7; -1]`. -/
theorem claim_C9_witness :
    ((MBR.mk [⟨0, 10⟩, ⟨-3, 8⟩]).wfDim 2 = true ∧
      (MBR.mk [⟨-5, 4⟩, ⟨-7, -1⟩]).wfDim 2 = true) ∧
      0 ≤ mbr_delta ⟨[⟨0, 10⟩, ⟨-3, 8⟩]⟩ ⟨[⟨-5, 4⟩, ⟨-7, -1⟩]⟩ :=
  ⟨⟨by decide, by decide⟩,
    claim_C9_mbr_delta_nonneg ⟨[⟨0, 10⟩, ⟨-3, 8⟩]⟩ ⟨[⟨-5, 4⟩, ⟨-7, -1⟩]⟩ 2
      (by decide) (by decide)⟩

/-- C10: `intersects` is symmetric on equal-dimension well-formed MBRs. -/
theorem claim_C10_intersects_comm (a b : MBR) (d : Nat)
    (ha : a.wfDim d = true) (hb : b.wfDim d = true) :
    intersects a b = intersects b a := by
  obtain ⟨xs⟩ := a
  obtain ⟨ys⟩ := b
  simp only [MBR.wfDim, Bool.and_eq_true, decide_eq_true_eq, List.all_eq_true] at ha hb
  simp only [intersects, MBR.dimension]
  rw [countP_zip_symm xs ys ha.2 hb.2, decide_eq_decide, ha.1, hb.1]

/-- Witness for C10, instantiated at `X = [0; 10], Y = [-3; 8]` and
`X = [-5; 4], Y = [-7; -1]`. -/
theorem claim_C10_witness :
    ((MBR.mk [⟨0, 10⟩, ⟨-3, 8⟩]).wfDim 2 = true ∧
      (MBR.mk [⟨-5, 4⟩, ⟨-7, -1⟩]).wfDim 2 = true) ∧
      intersects ⟨[⟨0, 10⟩, ⟨-3, 8⟩]⟩ ⟨[⟨-5, 4⟩, ⟨-7, -1⟩]⟩ =
        intersects ⟨[⟨-5, 4⟩, ⟨-7, -1⟩]⟩ ⟨[⟨0, 10⟩, ⟨-3, 8⟩]⟩ :=
  ⟨⟨by decide, by decide⟩,
    claim_C10_intersects_comm ⟨[⟨0, 10⟩, ⟨-3, 8⟩]⟩ ⟨[⟨-5, 4⟩, ⟨-7, -1⟩]⟩ 2
      (by decide) (by decide)⟩

/-! The record/node/arena data model, from `src/tree/node.rs` and
`src/tree/obj_space.rs`. -/

/-- Source `src/tree/node.rs`: `enum RecordId` — tagged index into one of
the two arenas. -/
inductive RecordId where
  | root
  | internal (id : Nat)
  | leaf (id : Nat)
  | data (id : Nat)
deriving DecidableEq, Repr

/-- Source `enum RecordIdKind`. -/
inductive RecordIdKind where
  | internal
  | leaf
deriving DecidableEq, Repr

/-- Source `RecordId::as_node_id`; Rust panics on `Root`, the embedding
returns `0` there (theorems never take the node id of `Root`). -/
def RecordId.as_node_id : RecordId → Nat
  | .root => 0
  | .internal id => id
  | .leaf id => id
  | .data id => id

/-- Source `RecordId::from_node_id`. -/
def RecordId.from_node_id (id : Nat) : RecordIdKind → RecordId
  | .internal => .internal id
  | .leaf => .leaf id

/-- Source `RecordId::kind`; Rust panics on `Root` and `Data`, the
embedding returns `leaf` there (theorems only query internal/leaf ids). -/
def RecordId.kind : RecordId → RecordIdKind
  | .internal _ => .internal
  | _ => .leaf

/-- Source `RecordId::set_kind`: re-tag keeping the index. -/
def RecordId.set_kind (r : RecordId) (kind : RecordIdKind) : RecordId :=
  RecordId.from_node_id r.as_node_id kind

/-- Source `struct Node` instantiated at `PayloadT = Vec<RecordId>`
(internal/leaf nodes): parent pointer, covering MBR, child list. -/
structure InternalNode where
  parent_id : RecordId
  mbr : MBR
  payload : List RecordId
deriving DecidableEq, Repr

/-- Source `struct Node` instantiated at an opaque payload (data nodes);
the object type is fixed to `Nat` (payloads are opaque to the engine). -/
structure DataNode where
  parent_id : RecordId
  mbr : MBR
  payload : Nat
deriving DecidableEq, Repr

instance : Inhabited InternalNode := ⟨⟨RecordId.root, MBR.undefined, []⟩⟩

instance : Inhabited DataNode := ⟨⟨RecordId.root, MBR.undefined, 0⟩⟩

/-- Modelled from the spec: the data arena `id_storage::ShrinkableStorage`
is an external collaborator (out of scope per spec section 1).  Per the
spec it supports `insert → id`, `get(id)`, `free` parking ids in a
freelist with id reuse disabled until compaction, `restore` undoing the
parking, `shrink()` building a dense copy of the live slots, and a count
(`volume`) that does not include freed ids.  The model is the slot list in
allocation order plus the freed-id list; a freed slot keeps its contents
until `shrink` (ids stay stable, reuse is disabled). -/
structure ShrinkableStorage where
  items : List DataNode
  freed : List Nat
deriving DecidableEq, Repr

/-- Arena `insert`: append at the next id. -/
def ShrinkableStorage.insert (s : ShrinkableStorage) (node : DataNode) :
    ShrinkableStorage × Nat :=
  (⟨s.items ++ [node], s.freed⟩, s.items.length)

/-- Arena `get`; Rust panics out of range, the embedding returns a default
(theorems only access allocated ids). -/
def ShrinkableStorage.get (s : ShrinkableStorage) (id : Nat) : DataNode :=
  s.items.getD id default

/-- Arena slot update (the `get_mut` write-back). -/
def ShrinkableStorage.set (s : ShrinkableStorage) (id : Nat) (node : DataNode) :
    ShrinkableStorage :=
  ⟨s.items.set id node, s.freed⟩

/-- Arena `free_ids`: park ids in the freelist (contents stay in place). -/
def ShrinkableStorage.free_ids (s : ShrinkableStorage) (ids : List Nat) :
    ShrinkableStorage :=
  ⟨s.items, s.freed ++ ids⟩

/-- Arena `restore_freed`: undo all parking. -/
def ShrinkableStorage.restore_freed (s : ShrinkableStorage) : ShrinkableStorage :=
  ⟨s.items, []⟩

/-- Liveness: allocated and not parked in the freelist. -/
def ShrinkableStorage.is_live (s : ShrinkableStorage) (id : Nat) : Bool :=
  decide (id < s.items.length) && !(s.freed.contains id)

/-- Arena `volume`: the number of live slots (freed ids are not counted). -/
def ShrinkableStorage.volume (s : ShrinkableStorage) : Nat :=
  (List.range s.items.length).countP fun i => !(s.freed.contains i)

/-- Ids of the live slots in allocation order (the arena's id iterator). -/
def ShrinkableStorage.iter_ids (s : ShrinkableStorage) : List Nat :=
  (List.range s.items.length).filter fun i => !(s.freed.contains i)

/-- Arena `shrink`: dense copy of the live slots, freelist cleared. -/
def ShrinkableStorage.shrink (s : ShrinkableStorage) : ShrinkableStorage :=
  ⟨(s.iter_ids).map s.get, []⟩

/-- Arena emptiness (`is_empty`): no slot was ever allocated.  (The crate's
exact behaviour on an arena whose every slot is freed is not in the
repository; the model takes the slot vector's emptiness.) -/
def ShrinkableStorage.isEmpty (s : ShrinkableStorage) : Bool :=
  s.items.isEmpty

/-- Source `src/tree/obj_space.rs`: `struct ObjSpace` — the two arenas
(plain `Vec` for internal nodes, slab for data nodes) and the fixed
configuration, plus the current root id. -/
structure ObjSpace where
  nodes : List InternalNode
  data_nodes : ShrinkableStorage
  dimension : Nat
  min_records : Nat
  max_records : Nat
  root_id : RecordId
deriving DecidableEq, Repr

/-- Configuration asserted by `ObjSpace::with_data_nodes`:
`dimension > 0`, `min_records >= 2`,
`min_records <= ceil(max_records / 2)`. -/
def params_ok (dimension min_records max_records : Nat) : Bool :=
  decide (0 < dimension) && decide (2 ≤ min_records) &&
    decide (min_records ≤ (max_records + 1) / 2)

/-- Source `ObjSpace::make_node` / `make_node_with_mbr`: push a fresh node
(parent `Root`) and return its tagged id. -/
def ObjSpace.make_node_with_mbr (o : ObjSpace) (kind : RecordIdKind) (mbr : MBR) :
    ObjSpace × RecordId :=
  ({ o with nodes := o.nodes ++ [⟨RecordId.root, mbr, []⟩] },
    RecordId.from_node_id o.nodes.length kind)

def ObjSpace.make_node (o : ObjSpace) (kind : RecordIdKind) : ObjSpace × RecordId :=
  o.make_node_with_mbr kind MBR.undefined

/-- Source `ObjSpace::with_data_nodes`: empty internal arena, then a single
empty leaf allocated and set as root. -/
def ObjSpace.with_data_nodes (dimension min_records max_records : Nat)
    (data_nodes : ShrinkableStorage) : ObjSpace :=
  let o : ObjSpace := ⟨[], data_nodes, dimension, min_records, max_records, RecordId.root⟩
  let p := o.make_node RecordIdKind.leaf
  { p.1 with root_id := p.2 }

/-- Source `ObjSpace::new`. -/
def ObjSpace.new (dimension min_records max_records : Nat) : ObjSpace :=
  ObjSpace.with_data_nodes dimension min_records max_records ⟨[], []⟩

/-- Source `ObjSpace::clear_tree_structure`: wipe the internal arena and
re-allocate an empty leaf root. -/
def ObjSpace.clear_tree_structure (o : ObjSpace) : ObjSpace :=
  let o' := { o with nodes := ([] : List InternalNode) }
  let p := o'.make_node RecordIdKind.leaf
  { p.1 with root_id := p.2 }

/-- Source `ObjSpace::make_data_node`. -/
def ObjSpace.make_data_node (o : ObjSpace) (object : Nat) (mbr : MBR) :
    ObjSpace × Nat :=
  let p := o.data_nodes.insert ⟨RecordId.root, mbr, object⟩
  ({ o with data_nodes := p.1 }, p.2)

/-- Source `ObjSpace::get_node`; Rust indexes the internal arena (panics
out of range or on a data id under debug assertions), the embedding
returns a default node. -/
def ObjSpace.get_node (o : ObjSpace) (id : RecordId) : InternalNode :=
  o.nodes.getD id.as_node_id default

/-- Source `ObjSpace::get_data`. -/
def ObjSpace.get_data (o : ObjSpace) (id : Nat) : DataNode :=
  o.data_nodes.get id

/-- Source `ObjSpace::get_mbr`: data ids read the data arena, all other
ids the internal arena. -/
def ObjSpace.get_mbr (o : ObjSpace) (id : RecordId) : MBR :=
  match id with
  | .data i => (o.get_data i).mbr
  | _ => (o.get_node id).mbr

/-- Source `ObjSpace::set_mbr`. -/
def ObjSpace.set_mbr (o : ObjSpace) (id : RecordId) (mbr : MBR) : ObjSpace :=
  match id with
  | .data i => { o with data_nodes := o.data_nodes.set i ({ o.data_nodes.get i with mbr := mbr }) }
  | _ => { o with nodes := o.nodes.set id.as_node_id ({ o.get_node id with mbr := mbr }) }

/-- Source `ObjSpace::set_parent_info`. -/
def ObjSpace.set_parent_info (o : ObjSpace) (id parent_id : RecordId) : ObjSpace :=
  match id with
  | .data i =>
    { o with data_nodes := o.data_nodes.set i ({ o.data_nodes.get i with parent_id := parent_id }) }
  | _ => { o with nodes := o.nodes.set id.as_node_id ({ o.get_node id with parent_id := parent_id }) }

/-- Source `ObjSpace::add_child`: push the child id and extend the
parent's MBR (first child replaces the MBR, later children are merged by
`common_mbr`). -/
def ObjSpace.add_child (o : ObjSpace) (id child_id : RecordId) : ObjSpace :=
  let child_mbr := o.get_mbr child_id
  let node := o.get_node id
  let payload' := node.payload ++ [child_id]
  let new_parent_mbr := if payload'.length = 1 then child_mbr else common_mbr node.mbr child_mbr
  { o with nodes := o.nodes.set id.as_node_id ({ node with payload := payload', mbr := new_parent_mbr }) }

/-- Source `ObjSpace::add_child_raw`: push only, no MBR adjustment. -/
def ObjSpace.add_child_raw (o : ObjSpace) (id child_id : RecordId) : ObjSpace :=
  let node := o.get_node id
  let node' := { node with payload := node.payload ++ [child_id] }
  { o with nodes := o.nodes.set id.as_node_id node' }

/-- Source `ObjSpace::data_num`. -/
def ObjSpace.data_num (o : ObjSpace) : Nat :=
  o.data_nodes.volume

/-- Source `ObjSpace::is_empty`. -/
def ObjSpace.is_empty (o : ObjSpace) : Bool :=
  o.data_nodes.isEmpty

/-- Source `ObjSpace::iter_data_ids`: live data ids tagged `Data`. -/
def ObjSpace.iter_data_ids (o : ObjSpace) : List RecordId :=
  o.data_nodes.iter_ids.map RecordId.data

/-- Source `ObjSpace::mark_as_removed`. -/
def ObjSpace.mark_as_removed (o : ObjSpace) (data_ids : List Nat) : ObjSpace :=
  { o with data_nodes := o.data_nodes.free_ids data_ids }

/-- Source `ObjSpace::restore_removed`. -/
def ObjSpace.restore_removed (o : ObjSpace) : ObjSpace :=
  { o with data_nodes := o.data_nodes.restore_freed }

/-- Source `ObjSpace::clone_shrinked`: fresh space over the shrunk data
arena. -/
def ObjSpace.clone_shrinked (o : ObjSpace) : ObjSpace :=
  ObjSpace.with_data_nodes o.dimension o.min_records o.max_records o.data_nodes.shrink

/-! Search (`LRTree::search_helper` / `LRTree::search`) and the tree
well-formedness invariant it relies on (spec section 8: coverage, child
homogeneity).  Rust recursion over child ids gets an explicit fuel; the
well-formedness predicate at fuel `f` asserts the subtree is well formed
with depth below `f`, which is what the Rust recursion assumes. -/

/-- Coverage, weakened to per-axis containment (spec section 8 states the
stronger `N.mbr = common_mbr of children`; containment is what search
correctness needs and is implied by it). -/
def mbr_contains (sup sub : MBR) : Bool :=
  decide (sup.dimension = sub.dimension) &&
    (sup.bounds.zip sub.bounds).all fun p =>
      decide (p.1.min ≤ p.2.min) && decide (p.2.max ≤ p.1.max)

/-- Source `LRTree::search_helper`: at a leaf, emit the data children
whose MBR intersects the area; otherwise recurse into the children whose
MBR intersects the area.  The `is_empty` early return is checked on entry
of every call, as in the source. -/
def search_helper (o : ObjSpace) (area : MBR) : Nat → RecordId → List RecordId
  | 0, _ => []
  | fuel+1, node_id =>
    if o.is_empty then []
    else
      match node_id with
      | .leaf _ =>
        (o.get_node node_id).payload.filter fun child_id =>
          intersects (o.get_mbr child_id) area
      | _ =>
        ((o.get_node node_id).payload.filter fun child_id =>
          intersects (o.get_mbr child_id) area).flatMap
          fun child_id => search_helper o area fuel child_id

/-- Source `LRTree::search`: run `search_helper` from the root and emit
the raw node ids.  Fuel `nodes.length + 1` bounds the depth of every tree
whose well-formedness holds at that fuel. -/
def search (o : ObjSpace) (area : MBR) : List Nat :=
  (search_helper o area (o.nodes.length + 1) o.root_id).map RecordId.as_node_id

/-- All data ids bound in the subtree, in traversal order (the unfiltered
skeleton of `search_helper`). -/
def collect_data (o : ObjSpace) : Nat → RecordId → List RecordId
  | 0, _ => []
  | fuel+1, node_id =>
    match node_id with
    | .leaf _ => (o.get_node node_id).payload
    | _ => (o.get_node node_id).payload.flatMap fun child_id => collect_data o fuel child_id

/-- Well-formedness of the subtree rooted at `node_id`, within depth
`fuel`: node ids resolve in the internal arena, leaf children are
allocated data ids with well-formed MBRs, internal children are internal
or leaf nodes, and every child MBR is contained in the node's MBR
(spec section 8: homogeneity and coverage). -/
def wf_node (o : ObjSpace) : Nat → RecordId → Bool
  | 0, _ => false
  | fuel+1, node_id =>
    match node_id with
    | .leaf i =>
      decide (i < o.nodes.length) &&
      (o.get_node node_id).payload.all fun c =>
        match c with
        | .data j =>
          decide (j < o.data_nodes.items.length) &&
          (o.get_mbr c).wfDim o.dimension &&
          mbr_contains (o.get_mbr node_id) (o.get_mbr c)
        | _ => false
    | .internal i =>
      decide (i < o.nodes.length) &&
      (o.get_node node_id).payload.all fun c =>
        (match c with
         | .internal _ => true
         | .leaf _ => true
         | _ => false) &&
        (o.get_mbr c).wfDim o.dimension &&
        mbr_contains (o.get_mbr node_id) (o.get_mbr c) &&
        wf_node o fuel c
    | _ => false

/-! Search correctness: under `wf_node`, `search_helper` returns exactly
the bound data ids whose MBR intersects the area. -/

theorem axis_mono (s b a : Bounds) (h1 : s.min ≤ b.min) (h2 : b.max ≤ s.max)
    (hp : (b.is_in_bound a.min || b.is_in_bound a.max || a.is_in_bound b.min) = true)
    (hw : b.min ≤ b.max) :
    (s.is_in_bound a.min || s.is_in_bound a.max || a.is_in_bound s.min) = true := by
  simp only [Bounds.is_in_bound, Bool.or_eq_true, Bool.and_eq_true, decide_eq_true_eq] at hp ⊢
  omega

theorem zip_all_mono (sup sub ab : List Bounds)
    (hlen : sup.length = sub.length)
    (hcont : ∀ p ∈ sup.zip sub, p.1.min ≤ p.2.min ∧ p.2.max ≤ p.1.max)
    (hwf : ∀ u ∈ sub, u.wf = true)
    (hall : ∀ p ∈ sub.zip ab,
      (p.1.is_in_bound p.2.min || p.1.is_in_bound p.2.max || p.2.is_in_bound p.1.min) = true) :
    ∀ p ∈ sup.zip ab,
      (p.1.is_in_bound p.2.min || p.1.is_in_bound p.2.max || p.2.is_in_bound p.1.min) = true := by
  induction sup generalizing sub ab with
  | nil => intro p hp; cases hp
  | cons s sups ih =>
    cases sub with
    | nil => simp at hlen
    | cons b subs =>
      cases ab with
      | nil => intro p hp; cases hp
      | cons a abs =>
        intro p hp
        rcases List.mem_cons.mp hp with rfl | hp
        · have hc := hcont (s, b) (List.mem_cons_self _ _)
          have hw := hwf b (List.mem_cons_self _ _)
          simp only [Bounds.wf, decide_eq_true_eq] at hw
          exact axis_mono s b a hc.1 hc.2 (hall (b, a) (List.mem_cons_self _ _)) hw
        · exact ih subs abs (by simpa using hlen)
            (fun q hq => hcont q (List.mem_cons_of_mem _ hq))
            (fun u hu => hwf u (List.mem_cons_of_mem _ hu))
            (fun q hq => hall q (List.mem_cons_of_mem _ hq)) p hp

theorem intersects_of_contains (sup sub area : MBR)
    (hc : mbr_contains sup sub = true)
    (hwf : sub.bounds.all Bounds.wf = true)
    (hi : intersects sub area = true) :
    intersects sup area = true := by
  simp only [mbr_contains, Bool.and_eq_true, decide_eq_true_eq, List.all_eq_true] at hc
  simp only [intersects, MBR.dimension, decide_eq_true_eq] at hi ⊢
  simp only [List.all_eq_true] at hwf
  have hdim : sup.bounds.length = sub.bounds.length := hc.1
  have hzlen : (sub.bounds.zip area.bounds).length
      = Nat.min sub.bounds.length area.bounds.length := by
    simp
  have hall : ∀ p ∈ sub.bounds.zip area.bounds,
      (p.1.is_in_bound p.2.min || p.1.is_in_bound p.2.max || p.2.is_in_bound p.1.min) = true := by
    rw [← List.countP_eq_length]
    rw [hi, hzlen]
  have hall' := zip_all_mono sup.bounds sub.bounds area.bounds hdim hc.2 hwf hall
  have : (sup.bounds.zip area.bounds).countP
      (fun p => p.1.is_in_bound p.2.min || p.1.is_in_bound p.2.max || p.2.is_in_bound p.1.min)
      = (sup.bounds.zip area.bounds).length := List.countP_eq_length.mpr hall'
  rw [this]
  simp [hdim]

theorem zip_all_trans (xs ys zs : List Bounds)
    (hlen : xs.length = ys.length)
    (h1 : ∀ p ∈ xs.zip ys, p.1.min ≤ p.2.min ∧ p.2.max ≤ p.1.max)
    (h2 : ∀ p ∈ ys.zip zs, p.1.min ≤ p.2.min ∧ p.2.max ≤ p.1.max) :
    ∀ p ∈ xs.zip zs, p.1.min ≤ p.2.min ∧ p.2.max ≤ p.1.max := by
  induction xs generalizing ys zs with
  | nil => intro p hp; cases hp
  | cons x xs ih =>
    cases ys with
    | nil => simp at hlen
    | cons y ys =>
      cases zs with
      | nil => intro p hp; cases hp
      | cons z zs =>
        intro p hp
        rcases List.mem_cons.mp hp with rfl | hp
        · have a1 := h1 (x, y) (List.mem_cons_self _ _)
          have a2 := h2 (y, z) (List.mem_cons_self _ _)
          dsimp only at a1 a2 ⊢
          exact ⟨a1.1.trans a2.1, a2.2.trans a1.2⟩
        · exact ih ys zs (by simpa using hlen)
            (fun q hq => h1 q (List.mem_cons_of_mem _ hq))
            (fun q hq => h2 q (List.mem_cons_of_mem _ hq)) p hp

theorem mbr_contains_trans (x y z : MBR)
    (h1 : mbr_contains x y = true) (h2 : mbr_contains y z = true) :
    mbr_contains x z = true := by
  simp only [mbr_contains, Bool.and_eq_true, decide_eq_true_eq, List.all_eq_true,
    MBR.dimension] at h1 h2 ⊢
  exact ⟨h1.1.trans h2.1, zip_all_trans x.bounds y.bounds z.bounds h1.1 h1.2 h2.2⟩

theorem collect_data_spec (o : ObjSpace) (fuel : Nat) (rid : RecordId)
    (h : wf_node o fuel rid = true) :
    ∀ c ∈ collect_data o fuel rid,
      (∃ j, c = RecordId.data j ∧ j < o.data_nodes.items.length) ∧
        (o.get_mbr c).wfDim o.dimension = true ∧
        mbr_contains (o.get_mbr rid) (o.get_mbr c) = true := by
  induction fuel generalizing rid with
  | zero => simp [wf_node] at h
  | succ fuel ih =>
    match rid with
    | .root => simp [wf_node] at h
    | .data i => simp [wf_node] at h
    | .leaf i =>
      simp only [wf_node, Bool.and_eq_true, List.all_eq_true] at h
      intro c hc
      have hcm : c ∈ (o.get_node (RecordId.leaf i)).payload := by
        simpa [collect_data] using hc
      have hcw := h.2 c hcm
      match c with
      | .data j =>
        simp only [Bool.and_eq_true, decide_eq_true_eq] at hcw
        exact ⟨⟨j, rfl, hcw.1.1⟩, hcw.1.2, hcw.2⟩
      | .root => simp at hcw
      | .leaf k => simp at hcw
      | .internal k => simp at hcw
    | .internal i =>
      simp only [wf_node, Bool.and_eq_true, List.all_eq_true] at h
      intro c hc
      simp only [collect_data, List.mem_flatMap] at hc
      obtain ⟨child, hchild, hcc⟩ := hc
      have hcw := h.2 child hchild
      simp only [Bool.and_eq_true] at hcw
      obtain ⟨⟨⟨hkind, hwfc⟩, hcont⟩, hwfn⟩ := hcw
      obtain ⟨hdata, hw, hc2⟩ := ih child hwfn c hcc
      exact ⟨hdata, hw, mbr_contains_trans _ _ _ hcont hc2⟩

theorem search_helper_spec (o : ObjSpace) (area : MBR) (fuel : Nat) (rid : RecordId)
    (h : wf_node o fuel rid = true) (hne : o.is_empty = false) :
    ∀ c, c ∈ search_helper o area fuel rid ↔
      (c ∈ collect_data o fuel rid ∧ intersects (o.get_mbr c) area = true) := by
  induction fuel generalizing rid with
  | zero => simp [wf_node] at h
  | succ fuel ih =>
    match rid with
    | .root => simp [wf_node] at h
    | .data i => simp [wf_node] at h
    | .leaf i =>
      intro c
      simp only [search_helper, hne, Bool.false_eq_true, if_false, collect_data,
        List.mem_filter]
    | .internal i =>
      simp only [wf_node, Bool.and_eq_true, List.all_eq_true] at h
      intro c
      simp only [search_helper, hne, Bool.false_eq_true, if_false, collect_data,
        List.mem_flatMap, List.mem_filter]
      constructor
      · rintro ⟨child, ⟨hchild, hint⟩, hcs⟩
        have hcw := h.2 child hchild
        simp only [Bool.and_eq_true] at hcw
        obtain ⟨⟨⟨hkind, hwfc⟩, hcont⟩, hwfn⟩ := hcw
        have hc := (ih child hwfn c).mp hcs
        exact ⟨⟨child, hchild, hc.1⟩, hc.2⟩
      · rintro ⟨⟨child, hchild, hcc⟩, hint⟩
        have hcw := h.2 child hchild
        simp only [Bool.and_eq_true] at hcw
        obtain ⟨⟨⟨hkind, hwfc⟩, hcont⟩, hwfn⟩ := hcw
        have hspec := collect_data_spec o fuel child hwfn c hcc
        have hsubwf : (o.get_mbr c).bounds.all Bounds.wf = true := by
          have := hspec.2.1
          simp only [MBR.wfDim, Bool.and_eq_true] at this
          exact this.2
        have hintc : intersects (o.get_mbr child) area = true :=
          intersects_of_contains _ _ _ hspec.2.2 hsubwf hint
        exact ⟨child, ⟨hchild, hintc⟩, (ih child hwfn c).mpr ⟨hcc, hint⟩⟩

/-! Dynamic insert: `LRTree::select_node`, `split_node`,
`select_first_pair`, `fix_tree`, `insert_helper`, `insert_transaction`.
The `bind!` macro of the source is `bind_child` here. -/

/-- Source `bind!` macro: `add_child` plus `set_parent_info`. -/
def bind_child (o : ObjSpace) (parent child : RecordId) : ObjSpace :=
  (o.add_child parent child).set_parent_info child parent

/-- Source `bind!(parent => set(children))`: pop children from the back
and bind each. -/
def bind_set (o : ObjSpace) (parent : RecordId) (children : List RecordId) : ObjSpace :=
  children.reverse.foldl (fun acc c => bind_child acc parent c) o

/-- One comparison step of the `min_by` in `LRTree::select_node`: the
challenger `c` replaces the current minimum `best` exactly when its delta
is strictly smaller, or the deltas tie and its MBR volume is strictly
smaller (`min_by` keeps the first minimum on full ties). -/
def select_step (o : ObjSpace) (mbr : MBR) (best c : RecordId) : RecordId :=
  let bd := mbr_delta (o.get_mbr best) mbr
  let cd := mbr_delta (o.get_mbr c) mbr
  if cd < bd then c
  else if cd = bd ∧ (o.get_mbr c).volume < (o.get_mbr best).volume then c
  else best

/-- The child-choice of `LRTree::select_node`: Rust `Iterator::min_by`
over `(child, delta)` pairs — the comparator orders by delta, ties by the
child MBR's volume.  `none` models the `unwrap` panic on a childless
node. -/
def select_child (o : ObjSpace) (mbr : MBR) (children : List RecordId) : Option RecordId :=
  match children with
  | [] => none
  | c0 :: rest => some (rest.foldl (select_step o mbr) c0)

/-- Source `LRTree::select_node` descent loop with insert's predicate
(`matches!(node_id, RecordId::Leaf(_))`) inlined; fuel bounds the Rust
loop (the height of a well-formed tree). -/
def select_node (o : ObjSpace) (mbr : MBR) : Nat → RecordId → RecordId
  | 0, node_id => node_id
  | fuel+1, node_id =>
    match node_id with
    | .leaf _ => node_id
    | _ =>
      match select_child o mbr (o.get_node node_id).payload with
      | some c => select_node o mbr fuel c
      | none => node_id

/-- Source `LRTree::select_node` entry: empty spaces return the root
immediately. -/
def select_node_from_root (o : ObjSpace) (mbr : MBR) : RecordId :=
  if o.is_empty then o.root_id
  else select_node o mbr (o.nodes.length + 1) o.root_id

/-- Scan state of one axis of `select_first_pair` (the source's local
mutables). -/
structure AxisScan where
  min : Int
  max : Int
  max_low_idx : Nat
  max_low_id : RecordId
  max_low : Int
  min_high_idx : Nat
  min_high_id : RecordId
  min_high : Int
deriving DecidableEq, Repr

/-- One step of the axis scan — note the source's `else if` coupling of
the two seed updates and the update of the running `max` from
`bounds.max` only. -/
def axis_scan_step (o : ObjSpace) (dim : Nat) (st : AxisScan) (p : Nat × RecordId) : AxisScan :=
  let bounds := (o.get_mbr p.2).boundsAt dim
  let st1 :=
    if bounds.min > st.max_low then
      { st with max_low_idx := p.1, max_low_id := p.2, max_low := bounds.min }
    else if bounds.max < st.min_high then
      { st with min_high_idx := p.1, min_high_id := p.2, min_high := bounds.max }
    else st
  let st2 := if bounds.max > st1.max then { st1 with max := bounds.max } else st1
  if bounds.min < st2.min then { st2 with min := bounds.min } else st2

/-- The per-axis pass of `select_first_pair`: the first record initializes
`min`, `max`, `max_low`, `min_high` all from its `bounds.min` (the
source's initialization), then the remaining records are scanned with
indices starting at 1.  Returns `(d, max_low_id, min_high_id, max_low_idx,
min_high_idx)`; integer `d` uses truncating division, as Rust's integer
`Div`.  `none` models the `unwrap` panic on an empty record list. -/
def axis_scan_result (o : ObjSpace) (first_id : RecordId) (rest : List RecordId)
    (dim : Nat) : AxisScan :=
  let bounds0 := (o.get_mbr first_id).boundsAt dim
  let st0 : AxisScan :=
    ⟨bounds0.min, bounds0.min, 0, first_id, bounds0.min, 0, first_id, bounds0.min⟩
  (rest.enumFrom 1).foldl (axis_scan_step o dim) st0

def axis_params (o : ObjSpace) (records : List RecordId) (dim : Nat) :
    Option (Int × RecordId × RecordId × Nat × Nat) :=
  match records with
  | [] => none
  | first_id :: rest =>
    let st := axis_scan_result o first_id rest dim
    let length := st.max - st.min
    let d := Int.tdiv (st.min_high - st.max_low) length
    some (d, st.max_low_id, st.min_high_id, st.max_low_idx, st.min_high_idx)

/-- One comparison step of the axis `min_by` (first minimum wins; a
challenger replaces the current best only with a strictly smaller `d`). -/
def select_axis_step (o : ObjSpace) (records : List RecordId)
    (acc : Option (Int × RecordId × RecordId × Nat × Nat)) (dim : Nat) :
    Option (Int × RecordId × RecordId × Nat × Nat) :=
  match acc, axis_params o records dim with
  | none, _ => none
  | _, none => none
  | some best, some p => if p.1 < best.1 then some p else some best

/-- Axis choice of `select_first_pair`: `min_by` on `d` over the axes
(first minimum wins). -/
def select_axis (o : ObjSpace) (records : List RecordId) (dimension : Nat) :
    Option (Int × RecordId × RecordId × Nat × Nat) :=
  match List.range dimension with
  | [] => none
  | d0 :: rest =>
    match axis_params o records d0 with
    | none => none
    | some p0 => rest.foldl (select_axis_step o records) (some p0)

/-- Source `Vec::swap_remove`: remove index `i`, moving the last element
into the hole. -/
def swap_remove (l : List RecordId) (i : Nat) : List RecordId :=
  (l.set i (l.getLastD RecordId.root)).dropLast

/-- Source `LRTree::select_first_pair`: pick the axis with the smallest
`d`, take its tracked pair as seeds (degenerate case: equal indices pick
the last and first records), and remove both from the record list. -/
def select_first_pair (o : ObjSpace) (records : List RecordId) (dimension : Nat) :
    Option (RecordId × RecordId × List RecordId) :=
  match select_axis o records dimension with
  | none => none
  | some (_, lhs0, rhs0, lhs_idx0, rhs_idx0) =>
    let q : RecordId × RecordId × Nat × Nat :=
      if rhs_idx0 > lhs_idx0 then (lhs0, rhs0, rhs_idx0, lhs_idx0)
      else if rhs_idx0 = lhs_idx0 then
        (records.getD (records.length - 1) RecordId.root,
         records.getD 0 RecordId.root, records.length - 1, 0)
      else (lhs0, rhs0, lhs_idx0, rhs_idx0)
    match q with
    | (lhs, rhs, lhs_idx, rhs_idx) =>
      some (lhs, rhs, swap_remove (swap_remove records lhs_idx) rhs_idx)

/-- Distribution loop of `split_node`: pop the last remaining child,
place it on the smaller-delta side (ties by smaller current size), with
the underflow guards dumping the whole rest into a side that could
otherwise not reach `min_records`. -/
def split_distribute (o : ObjSpace) (node_id new_node_id : RecordId)
    (children : List RecordId) (node_num new_node_num : Nat) : ObjSpace :=
  match h : children with
  | [] => o
  | c0 :: cs =>
    let num := children.length
    if o.min_records - node_num ≥ num then bind_set o node_id children
    else if o.min_records - new_node_num ≥ num then bind_set o new_node_id children
    else
      let rec_id := children.getLastD RecordId.root
      let rest := children.dropLast
      let rec_mbr := o.get_mbr rec_id
      let mbr := o.get_mbr node_id
      let new_mbr := o.get_mbr new_node_id
      let delta := (common_mbr mbr rec_mbr).volume - mbr.volume
      let new_delta := (common_mbr new_mbr rec_mbr).volume - new_mbr.volume
      if delta < new_delta ∨ (delta = new_delta ∧ node_num < new_node_num) then
        split_distribute (bind_child o node_id rec_id) node_id new_node_id rest
          (node_num + 1) new_node_num
      else
        split_distribute (bind_child o new_node_id rec_id) node_id new_node_id rest
          node_num (new_node_num + 1)
termination_by children.length
decreasing_by
  all_goals rw [h]
  all_goals simp only [List.length_dropLast, List.length_cons]
  all_goals omega

/-- Source `LRTree::split_node`: abort the node's children (payload
emptied, MBR reset to undefined), add the extra child, seed the node and
a fresh sibling with `select_first_pair`, then distribute the rest. -/
def abort_node (o : ObjSpace) (node_id : RecordId) : ObjSpace :=
  let node := o.get_node node_id
  let aborted := { node with payload := ([] : List RecordId), mbr := MBR.undefined }
  { o with nodes := o.nodes.set node_id.as_node_id aborted }

def split_node (o : ObjSpace) (node_id : RecordId) (extra_child_id : RecordId) :
    ObjSpace × RecordId :=
  let children := (o.get_node node_id).payload ++ [extra_child_id]
  let o1 := abort_node o node_id
  match select_first_pair o1 children o1.dimension with
  | none => (o1, node_id)
  | some (lhs, rhs, rest) =>
    let o2 := bind_child o1 node_id lhs
    let p := o2.make_node node_id.kind
    let o3 := bind_child p.1 p.2 rhs
    (split_distribute o3 node_id p.2 rest 1 1, p.2)

/-- Source `LRTree::fix_tree`: walk to the root updating ancestor MBRs,
binding or splitting a pending sibling, and growing a new root if a
sibling survives to the top.  Fuel bounds the parent chain. -/
def fix_tree (o : ObjSpace) : Nat → RecordId → Option RecordId → ObjSpace
  | 0, _, _ => o
  | fuel+1, node_id, extra_node_id =>
    match (o.get_node node_id).parent_id with
    | .root =>
      match extra_node_id with
      | none => o
      | some extra =>
        let p := o.make_node RecordIdKind.internal
        let o1 := bind_child p.1 p.2 node_id
        let o2 := bind_child o1 p.2 extra
        { o2 with root_id := p.2 }
    | parent_node_id =>
      let fixed := common_mbr (o.get_mbr parent_node_id) (o.get_mbr node_id)
      let o1 := o.set_mbr parent_node_id fixed
      match extra_node_id with
      | none => fix_tree o1 fuel parent_node_id none
      | some new_node_id =>
        if (o1.get_node parent_node_id).payload.length < o1.max_records then
          fix_tree (bind_child o1 parent_node_id new_node_id) fuel parent_node_id none
        else
          let q := split_node o1 parent_node_id new_node_id
          fix_tree q.1 fuel parent_node_id (some q.2)

/-- Source `LRTree::insert_helper`: route the new record to a leaf, bind
or split, then fix upward. -/
def insert_helper (o : ObjSpace) (insert_node_id : RecordId) : ObjSpace :=
  let mbr := o.get_mbr insert_node_id
  let max_records := o.max_records
  let node_id := select_node_from_root o mbr
  if (o.get_node node_id).payload.length < max_records then
    let o1 := bind_child o node_id insert_node_id
    fix_tree o1 (o1.nodes.length + 1) node_id none
  else
    let q := split_node o node_id insert_node_id
    fix_tree q.1 (q.1.nodes.length + 1) node_id (some q.2)

/-- The two states an `InsertHandler` observes (`before_insert` /
`after_insert` receive shared references, so the hooks are observers) and
the id handed to both. -/
structure InsertTrace where
  before_state : ObjSpace
  after_state : ObjSpace
  new_id : Nat
deriving DecidableEq, Repr

/-- Source `LRTree::insert_transaction`: assert the MBR dimension (the
`assert_eq!` precondition fires before any allocation or mutation — the
`error` result models the panic and carries the state at that point,
which is the input state), allocate the data node, call `before_insert`,
run `insert_helper`, call `after_insert`.  The trace records the state
passed to each hook. -/
def insert_transaction (o : ObjSpace) (object : Nat) (mbr : MBR) :
    Except ObjSpace InsertTrace :=
  if mbr.dimension = o.dimension then
    let p := o.make_data_node object mbr
    let o2 := insert_helper p.1 (RecordId.data p.2)
    Except.ok ⟨p.1, o2, p.2⟩
  else Except.error o

/-- Source `LRTree::insert` (the default no-op handler). -/
def insert (o : ObjSpace) (object : Nat) (mbr : MBR) : Except ObjSpace (ObjSpace × Nat) :=
  (insert_transaction o object mbr).map fun t => (t.after_state, t.new_id)

/-! Claims about search (C1) and choose-subtree (C5), the insert
precondition (C6), and the insert hooks (C8), with the concrete states
they mention. -/

/-- The choose-subtree preorder of `select_node`: smaller volume delta
first, equal deltas ordered by smaller MBR volume. -/
def choose_le (o : ObjSpace) (mbr : MBR) (b c : RecordId) : Prop :=
  mbr_delta (o.get_mbr b) mbr ≤ mbr_delta (o.get_mbr c) mbr ∧
    (mbr_delta (o.get_mbr b) mbr = mbr_delta (o.get_mbr c) mbr →
      (o.get_mbr b).volume ≤ (o.get_mbr c).volume)

theorem choose_le_refl (o : ObjSpace) (mbr : MBR) (b : RecordId) : choose_le o mbr b b :=
  ⟨le_refl _, fun _ => le_refl _⟩

theorem choose_le_trans (o : ObjSpace) (mbr : MBR) (a b c : RecordId)
    (h1 : choose_le o mbr a b) (h2 : choose_le o mbr b c) : choose_le o mbr a c := by
  unfold choose_le at *
  constructor
  · exact h1.1.trans h2.1
  · intro h
    have hab : mbr_delta (o.get_mbr a) mbr = mbr_delta (o.get_mbr b) mbr :=
      le_antisymm h1.1 (h ▸ h2.1)
    exact (h1.2 hab).trans (h2.2 (hab ▸ h))

theorem select_step_cases (o : ObjSpace) (mbr : MBR) (best c : RecordId) :
    (select_step o mbr best c = best ∨ select_step o mbr best c = c) ∧
      choose_le o mbr (select_step o mbr best c) best ∧
      choose_le o mbr (select_step o mbr best c) c := by
  unfold select_step choose_le
  dsimp only
  split
  · rename_i hlt
    exact ⟨Or.inr rfl, ⟨le_of_lt hlt, fun h => absurd h (ne_of_lt hlt)⟩, choose_le_refl o mbr c⟩
  · split
    · rename_i hge heq
      exact ⟨Or.inr rfl, ⟨le_of_eq heq.1, fun _ => le_of_lt heq.2⟩, choose_le_refl o mbr c⟩
    · rename_i hge hne
      refine ⟨Or.inl rfl, choose_le_refl o mbr best, ?_, ?_⟩
      · omega
      · intro heq
        by_contra hv
        exact hne ⟨heq.symm, by omega⟩

theorem select_child_min (o : ObjSpace) (mbr : MBR) (c0 : RecordId) (rest : List RecordId) :
    ∃ best, select_child o mbr (c0 :: rest) = some best ∧ best ∈ c0 :: rest ∧
      ∀ c ∈ c0 :: rest, choose_le o mbr best c := by
  induction rest generalizing c0 with
  | nil =>
    refine ⟨c0, rfl, List.mem_cons_self _ _, ?_⟩
    intro c hc
    rcases List.mem_cons.mp hc with rfl | hc
    · exact choose_le_refl o mbr c
    · cases hc
  | cons c rest ih =>
    obtain ⟨best, hsel, hmem, hmin⟩ := ih (select_step o mbr c0 c)
    obtain ⟨hcase, hle0, hlec⟩ := select_step_cases o mbr c0 c
    refine ⟨best, ?_, ?_, ?_⟩
    · simpa [select_child] using hsel
    · rcases List.mem_cons.mp hmem with rfl | hmem
      · rcases hcase with h | h
        · rw [h]; exact List.mem_cons_self _ _
        · rw [h]; exact List.mem_cons_of_mem _ (List.mem_cons_self _ _)
      · exact List.mem_cons_of_mem _ (List.mem_cons_of_mem _ hmem)
    · intro u hu
      have hstep := hmin (select_step o mbr c0 c) (List.mem_cons_self _ _)
      rcases List.mem_cons.mp hu with rfl | hu
      · exact choose_le_trans o mbr _ _ _ hstep hle0
      · rcases List.mem_cons.mp hu with rfl | hu
        · exact choose_le_trans o mbr _ _ _ hstep hlec
        · exact hmin u (List.mem_cons_of_mem _ hu)

/-- The concrete choose-subtree scenario of the spec (section 8,
scenario 5): a root with two leaves, one covering `X=[0;5] Y=[0;5]` (two
point records), the other `X=[12;13] Y=[-1;4]` (two point records). -/
def c5_state : ObjSpace :=
  { nodes := [
      ⟨RecordId.root, ⟨[⟨0, 13⟩, ⟨-1, 5⟩]⟩, [RecordId.leaf 1, RecordId.leaf 2]⟩,
      ⟨RecordId.internal 0, ⟨[⟨0, 5⟩, ⟨0, 5⟩]⟩, [RecordId.data 0, RecordId.data 1]⟩,
      ⟨RecordId.internal 0, ⟨[⟨12, 13⟩, ⟨-1, 4⟩]⟩, [RecordId.data 2, RecordId.data 3]⟩],
    data_nodes := ⟨[
      ⟨RecordId.leaf 1, ⟨[⟨0, 0⟩, ⟨0, 0⟩]⟩, 0⟩,
      ⟨RecordId.leaf 1, ⟨[⟨5, 5⟩, ⟨5, 5⟩]⟩, 1⟩,
      ⟨RecordId.leaf 2, ⟨[⟨12, 12⟩, ⟨-1, -1⟩]⟩, 2⟩,
      ⟨RecordId.leaf 2, ⟨[⟨13, 13⟩, ⟨4, 4⟩]⟩, 3⟩], []⟩,
    dimension := 2, min_records := 2, max_records := 5,
    root_id := RecordId.internal 0 }

/-- The object inserted in the scenario: MBR `X=[8;10] Y=[3;5]`. -/
def c5_new_mbr : MBR := ⟨[⟨8, 10⟩, ⟨3, 5⟩]⟩

/-- The state after inserting the scenario object. -/
def c5_after : ObjSpace :=
  match insert c5_state 4 c5_new_mbr with
  | Except.ok p => p.1
  | Except.error e => e

/-- C5: during insert's descent the chosen child minimizes
`delta(child.mbr, new.mbr)` over all children, ties broken by smaller
volume; and in the concrete two-leaf scenario the object with MBR
`X=[8;10] Y=[3;5]` is routed to, and placed under, the second leaf. -/
theorem claim_C5_choose_subtree_min_delta :
    (∀ (o : ObjSpace) (mbr : MBR) (c0 : RecordId) (rest : List RecordId),
      ∃ best, select_child o mbr (c0 :: rest) = some best ∧ best ∈ c0 :: rest ∧
        ∀ c ∈ c0 :: rest,
          mbr_delta (o.get_mbr best) mbr ≤ mbr_delta (o.get_mbr c) mbr ∧
            (mbr_delta (o.get_mbr best) mbr = mbr_delta (o.get_mbr c) mbr →
              (o.get_mbr best).volume ≤ (o.get_mbr c).volume)) ∧
    select_node_from_root c5_state c5_new_mbr = RecordId.leaf 2 ∧
    (c5_after.get_node (RecordId.leaf 2)).payload =
      [RecordId.data 2, RecordId.data 3, RecordId.data 4] := by
  refine ⟨?_, by decide, by decide⟩
  intro o mbr c0 rest
  exact select_child_min o mbr c0 rest

/-- Witness for C5's quantified part, instantiated at the scenario state
and its root children. -/
theorem claim_C5_witness :
    ∃ best, select_child c5_state c5_new_mbr [RecordId.leaf 1, RecordId.leaf 2] = some best ∧
      best ∈ [RecordId.leaf 1, RecordId.leaf 2] ∧
      ∀ c ∈ [RecordId.leaf 1, RecordId.leaf 2],
        mbr_delta (c5_state.get_mbr best) c5_new_mbr ≤ mbr_delta (c5_state.get_mbr c) c5_new_mbr ∧
          (mbr_delta (c5_state.get_mbr best) c5_new_mbr = mbr_delta (c5_state.get_mbr c) c5_new_mbr →
            (c5_state.get_mbr best).volume ≤ (c5_state.get_mbr c).volume) :=
  claim_C5_choose_subtree_min_delta.1 c5_state c5_new_mbr (RecordId.leaf 1) [RecordId.leaf 2]

/-- C6: `insert` / `insert_transaction` fail with the precondition error
exactly when `mbr.dimension()` differs from the space's dimension, and the
failure state is the unchanged input space (the assertion fires before the
data node is allocated). -/
theorem claim_C6_insert_dimension_precondition (o : ObjSpace) (object : Nat) (mbr : MBR) :
    ((∃ e, insert_transaction o object mbr = Except.error e) ↔ mbr.dimension ≠ o.dimension) ∧
      ((∃ e, insert o object mbr = Except.error e) ↔ mbr.dimension ≠ o.dimension) ∧
      (∀ e, insert_transaction o object mbr = Except.error e → e = o) := by
  unfold insert insert_transaction
  by_cases h : mbr.dimension = o.dimension
  · rw [if_pos h]
    simp [Except.map, h]
  · rw [if_neg h]
    simp [Except.map, h]

/-- Witness for C6: inserting a 1-D MBR into a 2-D space fails and leaves
the space untouched. -/
theorem claim_C6_witness :
    insert_transaction (ObjSpace.new 2 2 5) 7 ⟨[⟨0, 1⟩]⟩ =
      Except.error (ObjSpace.new 2 2 5) := by
  obtain ⟨e, he⟩ :=
    (claim_C6_insert_dimension_precondition (ObjSpace.new 2 2 5) 7 ⟨[⟨0, 1⟩]⟩).1.mpr (by decide)
  have heo :=
    (claim_C6_insert_dimension_precondition (ObjSpace.new 2 2 5) 7 ⟨[⟨0, 1⟩]⟩).2.2 e he
  rw [heo] at he
  exact he

/-- C8: `before_insert` observes the state with the new data node (payload
and MBR) already allocated but the internal-node arena, hence every tree
node's children and MBR, and the root id unchanged; `after_insert`
observes exactly the state after the complete fix-up of the same insert. -/
theorem claim_C8_insert_hooks_frame (o : ObjSpace) (object : Nat) (mbr : MBR) (t : InsertTrace)
    (h : insert_transaction o object mbr = Except.ok t) :
    t.before_state.nodes = o.nodes ∧
      t.before_state.root_id = o.root_id ∧
      t.new_id = o.data_nodes.items.length ∧
      t.before_state.data_nodes.items =
        o.data_nodes.items ++ [⟨RecordId.root, mbr, object⟩] ∧
      t.before_state.data_nodes.freed = o.data_nodes.freed ∧
      t.after_state = insert_helper t.before_state (RecordId.data t.new_id) := by
  unfold insert_transaction at h
  by_cases hd : mbr.dimension = o.dimension
  · rw [if_pos hd] at h
    cases h
    exact ⟨rfl, rfl, rfl, rfl, rfl, rfl⟩
  · rw [if_neg hd] at h
    cases h

/-- The trace of a concrete successful insert (spec scenario 2). -/
def c8_trace : InsertTrace :=
  match insert_transaction (ObjSpace.new 2 2 5) 0 ⟨[⟨0, 10⟩, ⟨0, 10⟩]⟩ with
  | Except.ok t => t
  | Except.error _ => ⟨ObjSpace.new 2 2 5, ObjSpace.new 2 2 5, 0⟩

/-- Witness for C8 at the concrete insert of spec scenario 2. -/
theorem claim_C8_witness :
    insert_transaction (ObjSpace.new 2 2 5) 0 ⟨[⟨0, 10⟩, ⟨0, 10⟩]⟩ = Except.ok c8_trace ∧
      (c8_trace.before_state.nodes = (ObjSpace.new 2 2 5).nodes ∧
        c8_trace.before_state.root_id = (ObjSpace.new 2 2 5).root_id ∧
        c8_trace.new_id = (ObjSpace.new 2 2 5).data_nodes.items.length ∧
        c8_trace.before_state.data_nodes.items =
          (ObjSpace.new 2 2 5).data_nodes.items ++ [⟨RecordId.root, ⟨[⟨0, 10⟩, ⟨0, 10⟩]⟩, 0⟩] ∧
        c8_trace.before_state.data_nodes.freed = (ObjSpace.new 2 2 5).data_nodes.freed ∧
        c8_trace.after_state = insert_helper c8_trace.before_state (RecordId.data c8_trace.new_id)) :=
  ⟨rfl, claim_C8_insert_hooks_frame (ObjSpace.new 2 2 5) 0 ⟨[⟨0, 10⟩, ⟨0, 10⟩]⟩ c8_trace rfl⟩

/-! C1: search results versus liveness.  The code's `search_helper`
filters children only by MBR intersection; soft-deleted (freed) data ids
that are still bound in their leaf are returned as well.  The claim as
stated (returned ids = live intersecting ids) therefore fails once an id
is soft-deleted; the amended statement replaces "live" by "stored in the
arena" (equivalently, bound in the tree), which coincides with "live"
when nothing is soft-deleted. -/

/-- A one-dimensional space `new_obj_space(1, 2, 4)` with two objects
inserted: `X=[0;1]` (id 0) and `X=[2;3]` (id 1). -/
def c1_inserted : ObjSpace :=
  match insert (ObjSpace.new 1 2 4) 0 ⟨[⟨0, 1⟩]⟩ with
  | Except.ok p =>
    (match insert p.1 1 ⟨[⟨2, 3⟩]⟩ with
     | Except.ok q => q.1
     | Except.error e => e)
  | Except.error e => e

/-- The same space after `mark_as_removed([0])`. -/
def c1_removed : ObjSpace :=
  c1_inserted.mark_as_removed [0]

/-- Counterexample to C1 as stated: after soft-deleting id 0, a search
over `X=[0;3]` still returns id 0, which is not live — search soundness
("every returned id is live") fails on the code. -/
theorem claim_C1_counterexample :
    (0 : Nat) ∈ search c1_removed ⟨[⟨0, 3⟩]⟩ ∧
      c1_removed.data_nodes.is_live 0 = false := by
  decide

/-- C1 (amended): for every tree state satisfying the tree invariant
(well-formed structure, and every stored data id bound in the tree — the
invariant insert maintains and `rebuild` re-establishes over the live
ids), `set(search(area))` equals the set of ids `j` stored in the data
arena (live or soft-deleted) with `intersects(data[j].mbr, area)`.  The
original claim's restriction to live ids holds exactly when no id is
soft-deleted; a soft-deleted id that is still bound and intersects the
area is returned as well (see the counterexample). -/
theorem claim_C1_amended_search_exact (o : ObjSpace) (area : MBR)
    (hwf : wf_node o (o.nodes.length + 1) o.root_id = true)
    (hbound : ((List.range o.data_nodes.items.length).all fun j =>
      decide (RecordId.data j ∈ collect_data o (o.nodes.length + 1) o.root_id)) = true) :
    ∀ j : Nat, j ∈ search o area ↔
      (j < o.data_nodes.items.length ∧ intersects (o.get_data j).mbr area = true) := by
  intro j
  by_cases hemp : o.data_nodes.items = []
  · constructor
    · intro hj
      have hempty : o.is_empty = true := by
        simp [ObjSpace.is_empty, ShrinkableStorage.isEmpty, hemp]
      simp [search, search_helper, hempty] at hj
    · rintro ⟨hlt, -⟩
      rw [hemp] at hlt
      simp at hlt
  · have hne : o.is_empty = false := by
      simp [ObjSpace.is_empty, ShrinkableStorage.isEmpty, hemp]
    constructor
    · intro hj
      simp only [search, List.mem_map] at hj
      obtain ⟨c, hc, rfl⟩ := hj
      have hcs := (search_helper_spec o area _ o.root_id hwf hne c).mp hc
      obtain ⟨⟨j0, rfl, hlt⟩, hwfd, hcont⟩ := collect_data_spec o _ o.root_id hwf c hcs.1
      exact ⟨hlt, hcs.2⟩
    · rintro ⟨hlt, hint⟩
      simp only [List.all_eq_true, List.mem_range, decide_eq_true_eq] at hbound
      have hcol := hbound j hlt
      have hmem : RecordId.data j ∈ search_helper o area (o.nodes.length + 1) o.root_id :=
        (search_helper_spec o area _ o.root_id hwf hne _).mpr ⟨hcol, hint⟩
      exact List.mem_map.mpr ⟨_, hmem, rfl⟩

/-- Witness for the amended C1 at the two-object state (nothing
soft-deleted, so stored = live there). -/
theorem claim_C1_witness :
    (wf_node c1_inserted (c1_inserted.nodes.length + 1) c1_inserted.root_id = true ∧
      ((List.range c1_inserted.data_nodes.items.length).all fun j =>
        decide (RecordId.data j ∈
          collect_data c1_inserted (c1_inserted.nodes.length + 1) c1_inserted.root_id)) = true) ∧
      ((0 : Nat) ∈ search c1_inserted ⟨[⟨0, 3⟩]⟩ ↔
        (0 < c1_inserted.data_nodes.items.length ∧
          intersects (c1_inserted.get_data 0).mbr ⟨[⟨0, 3⟩]⟩ = true)) :=
  ⟨⟨by decide, by decide⟩,
    claim_C1_amended_search_exact c1_inserted ⟨[⟨0, 3⟩]⟩ (by decide) (by decide) 0⟩

/-! C3: the per-axis seed scan of `select_first_pair`. -/

theorem axis_scan_step_fields (o : ObjSpace) (dim : Nat) (st : AxisScan) (p : Nat × RecordId) :
    (axis_scan_step o dim st p).min =
      (if ((o.get_mbr p.2).boundsAt dim).min < st.min
        then ((o.get_mbr p.2).boundsAt dim).min else st.min) ∧
    (axis_scan_step o dim st p).max =
      (if ((o.get_mbr p.2).boundsAt dim).max > st.max
        then ((o.get_mbr p.2).boundsAt dim).max else st.max) ∧
    ((((o.get_mbr p.2).boundsAt dim).min > st.max_low ∧
        (axis_scan_step o dim st p).max_low = ((o.get_mbr p.2).boundsAt dim).min ∧
        (axis_scan_step o dim st p).max_low_id = p.2 ∧
        (axis_scan_step o dim st p).min_high = st.min_high ∧
        (axis_scan_step o dim st p).min_high_id = st.min_high_id) ∨
      (¬((o.get_mbr p.2).boundsAt dim).min > st.max_low ∧
        (axis_scan_step o dim st p).max_low = st.max_low ∧
        (axis_scan_step o dim st p).max_low_id = st.max_low_id ∧
        ((((o.get_mbr p.2).boundsAt dim).max < st.min_high ∧
            (axis_scan_step o dim st p).min_high = ((o.get_mbr p.2).boundsAt dim).max ∧
            (axis_scan_step o dim st p).min_high_id = p.2) ∨
          (¬((o.get_mbr p.2).boundsAt dim).max < st.min_high ∧
            (axis_scan_step o dim st p).min_high = st.min_high ∧
            (axis_scan_step o dim st p).min_high_id = st.min_high_id)))) := by
  unfold axis_scan_step
  dsimp only
  by_cases h1 : ((o.get_mbr p.2).boundsAt dim).min > st.max_low
  · rw [if_pos h1]
    by_cases h2 : ((o.get_mbr p.2).boundsAt dim).max > st.max
    · rw [if_pos h2]
      by_cases h3 : ((o.get_mbr p.2).boundsAt dim).min < st.min
      · rw [if_pos h3]
        exact ⟨by simp [h3], by simp [h2], Or.inl ⟨h1, rfl, rfl, rfl, rfl⟩⟩
      · rw [if_neg h3]
        exact ⟨by simp [h3], by simp [h2], Or.inl ⟨h1, rfl, rfl, rfl, rfl⟩⟩
    · rw [if_neg h2]
      by_cases h3 : ((o.get_mbr p.2).boundsAt dim).min < st.min
      · rw [if_pos h3]
        exact ⟨by simp [h3], by simp [h2], Or.inl ⟨h1, rfl, rfl, rfl, rfl⟩⟩
      · rw [if_neg h3]
        exact ⟨by simp [h3], by simp [h2], Or.inl ⟨h1, rfl, rfl, rfl, rfl⟩⟩
  · rw [if_neg h1]
    by_cases h4 : ((o.get_mbr p.2).boundsAt dim).max < st.min_high
    · rw [if_pos h4]
      by_cases h2 : ((o.get_mbr p.2).boundsAt dim).max > st.max
      · rw [if_pos h2]
        by_cases h3 : ((o.get_mbr p.2).boundsAt dim).min < st.min
        · rw [if_pos h3]
          exact ⟨by simp [h3], by simp [h2], Or.inr ⟨h1, rfl, rfl, Or.inl ⟨h4, rfl, rfl⟩⟩⟩
        · rw [if_neg h3]
          exact ⟨by simp [h3], by simp [h2], Or.inr ⟨h1, rfl, rfl, Or.inl ⟨h4, rfl, rfl⟩⟩⟩
      · rw [if_neg h2]
        by_cases h3 : ((o.get_mbr p.2).boundsAt dim).min < st.min
        · rw [if_pos h3]
          exact ⟨by simp [h3], by simp [h2], Or.inr ⟨h1, rfl, rfl, Or.inl ⟨h4, rfl, rfl⟩⟩⟩
        · rw [if_neg h3]
          exact ⟨by simp [h3], by simp [h2], Or.inr ⟨h1, rfl, rfl, Or.inl ⟨h4, rfl, rfl⟩⟩⟩
    · rw [if_neg h4]
      by_cases h2 : ((o.get_mbr p.2).boundsAt dim).max > st.max
      · rw [if_pos h2]
        by_cases h3 : ((o.get_mbr p.2).boundsAt dim).min < st.min
        · rw [if_pos h3]
          exact ⟨by simp [h3], by simp [h2], Or.inr ⟨h1, rfl, rfl, Or.inr ⟨h4, rfl, rfl⟩⟩⟩
        · rw [if_neg h3]
          exact ⟨by simp [h3], by simp [h2], Or.inr ⟨h1, rfl, rfl, Or.inr ⟨h4, rfl, rfl⟩⟩⟩
      · rw [if_neg h2]
        by_cases h3 : ((o.get_mbr p.2).boundsAt dim).min < st.min
        · rw [if_pos h3]
          exact ⟨by simp [h3], by simp [h2], Or.inr ⟨h1, rfl, rfl, Or.inr ⟨h4, rfl, rfl⟩⟩⟩
        · rw [if_neg h3]
          exact ⟨by simp [h3], by simp [h2], Or.inr ⟨h1, rfl, rfl, Or.inr ⟨h4, rfl, rfl⟩⟩⟩

theorem axis_scan_foldl_spec (o : ObjSpace) (dim : Nat) (l : List (Nat × RecordId))
    (st : AxisScan) (hinv : st.max_low = ((o.get_mbr st.max_low_id).boundsAt dim).min) :
    ((l.foldl (axis_scan_step o dim) st).max_low_id = st.max_low_id ∨
      ∃ p ∈ l, (l.foldl (axis_scan_step o dim) st).max_low_id = p.2) ∧
    (l.foldl (axis_scan_step o dim) st).max_low =
      ((o.get_mbr (l.foldl (axis_scan_step o dim) st).max_low_id).boundsAt dim).min ∧
    st.max_low ≤ (l.foldl (axis_scan_step o dim) st).max_low ∧
    (∀ p ∈ l, ((o.get_mbr p.2).boundsAt dim).min ≤ (l.foldl (axis_scan_step o dim) st).max_low) ∧
    ((l.foldl (axis_scan_step o dim) st).min = st.min ∨
      ∃ p ∈ l, (l.foldl (axis_scan_step o dim) st).min = ((o.get_mbr p.2).boundsAt dim).min) ∧
    (l.foldl (axis_scan_step o dim) st).min ≤ st.min ∧
    (∀ p ∈ l, (l.foldl (axis_scan_step o dim) st).min ≤ ((o.get_mbr p.2).boundsAt dim).min) ∧
    ((l.foldl (axis_scan_step o dim) st).max = st.max ∨
      ∃ p ∈ l, (l.foldl (axis_scan_step o dim) st).max = ((o.get_mbr p.2).boundsAt dim).max) ∧
    st.max ≤ (l.foldl (axis_scan_step o dim) st).max ∧
    (∀ p ∈ l, ((o.get_mbr p.2).boundsAt dim).max ≤ (l.foldl (axis_scan_step o dim) st).max) ∧
    (l.foldl (axis_scan_step o dim) st).min_high ≤ st.min_high := by
  induction l generalizing st with
  | nil =>
    refine ⟨Or.inl rfl, hinv, le_refl _, ?_, Or.inl rfl, le_refl _, ?_, Or.inl rfl,
      le_refl _, ?_, le_refl _⟩ <;> intro p hp <;> cases hp
  | cons q l ih =>
    rw [List.foldl_cons]
    obtain ⟨hmin_eq, hmax_eq, hcase⟩ := axis_scan_step_fields o dim st q
    have hinv' : (axis_scan_step o dim st q).max_low =
        ((o.get_mbr (axis_scan_step o dim st q).max_low_id).boundsAt dim).min := by
      rcases hcase with ⟨_, h2, h3, _⟩ | ⟨_, h2, h3, _⟩
      · rw [h2, h3]
      · rw [h2, h3, ← hinv]
    obtain ⟨c1, c2, c3, c4, c5, c6, c7, c8, c9, c10, c11⟩ := ih (axis_scan_step o dim st q) hinv'
    have hstep_ml : st.max_low ≤ (axis_scan_step o dim st q).max_low ∧
        ((o.get_mbr q.2).boundsAt dim).min ≤ (axis_scan_step o dim st q).max_low := by
      rcases hcase with ⟨hgt, h2, _, _⟩ | ⟨hle, h2, _, _⟩
      · rw [h2]
        omega
      · rw [h2]
        omega
    have hstep_mh : (axis_scan_step o dim st q).min_high ≤ st.min_high := by
      rcases hcase with ⟨_, _, _, h4, _⟩ | ⟨_, _, _, hc⟩
      · rw [h4]
      · rcases hc with ⟨hlt, h5, _⟩ | ⟨_, h5, _⟩
        · rw [h5]
          omega
        · rw [h5]
    refine ⟨?_, c2, ?_, ?_, ?_, ?_, ?_, ?_, ?_, ?_, le_trans c11 hstep_mh⟩
    · rcases c1 with h | ⟨p, hp, h⟩
      · rcases hcase with ⟨_, _, h3, _⟩ | ⟨_, _, h3, _⟩
        · exact Or.inr ⟨q, List.mem_cons_self _ _, h ▸ h3⟩
        · rw [h, h3]
          exact Or.inl rfl
      · exact Or.inr ⟨p, List.mem_cons_of_mem _ hp, h⟩
    · exact le_trans hstep_ml.1 c3
    · intro p hp
      rcases List.mem_cons.mp hp with rfl | hp
      · exact le_trans hstep_ml.2 c3
      · exact c4 p hp
    · rcases c5 with h | ⟨p, hp, h⟩
      · rw [h, hmin_eq]
        split
        · exact Or.inr ⟨q, List.mem_cons_self _ _, rfl⟩
        · exact Or.inl rfl
      · exact Or.inr ⟨p, List.mem_cons_of_mem _ hp, h⟩
    · refine le_trans c6 ?_
      rw [hmin_eq]
      split <;> omega
    · intro p hp
      rcases List.mem_cons.mp hp with rfl | hp
      · refine le_trans c6 ?_
        rw [hmin_eq]
        split <;> omega
      · exact c7 p hp
    · rcases c8 with h | ⟨p, hp, h⟩
      · rw [h, hmax_eq]
        split
        · exact Or.inr ⟨q, List.mem_cons_self _ _, rfl⟩
        · exact Or.inl rfl
      · exact Or.inr ⟨p, List.mem_cons_of_mem _ hp, h⟩
    · refine le_trans ?_ c9
      rw [hmax_eq]
      split <;> omega
    · intro p hp
      rcases List.mem_cons.mp hp with rfl | hp
      · refine le_trans ?_ c9
        rw [hmax_eq]
        split <;> omega
      · exact c10 p hp

theorem axis_params_cons (o : ObjSpace) (f : RecordId) (rest : List RecordId) (dim : Nat) :
    axis_params o (f :: rest) dim =
      some (Int.tdiv
          ((axis_scan_result o f rest dim).min_high - (axis_scan_result o f rest dim).max_low)
          ((axis_scan_result o f rest dim).max - (axis_scan_result o f rest dim).min),
        (axis_scan_result o f rest dim).max_low_id,
        (axis_scan_result o f rest dim).min_high_id,
        (axis_scan_result o f rest dim).max_low_idx,
        (axis_scan_result o f rest dim).min_high_idx) :=
  rfl

theorem select_axis_fold_spec (o : ObjSpace) (f : RecordId) (rest : List RecordId)
    (dims : List Nat) (b0 : Int × RecordId × RecordId × Nat × Nat)
    (hb0 : ∃ d0, axis_params o (f :: rest) d0 = some b0) :
    ∃ best, dims.foldl (select_axis_step o (f :: rest)) (some b0) = some best ∧
      (∃ d0, axis_params o (f :: rest) d0 = some best) ∧
      best.1 ≤ b0.1 ∧
      ∀ dim ∈ dims, ∀ p, axis_params o (f :: rest) dim = some p → best.1 ≤ p.1 := by
  induction dims generalizing b0 with
  | nil =>
    refine ⟨b0, rfl, hb0, le_refl _, ?_⟩
    intro dim hdim
    cases hdim
  | cons d ds ih =>
    rw [List.foldl_cons]
    set pd := (Int.tdiv
        ((axis_scan_result o f rest d).min_high - (axis_scan_result o f rest d).max_low)
        ((axis_scan_result o f rest d).max - (axis_scan_result o f rest d).min),
      (axis_scan_result o f rest d).max_low_id,
      (axis_scan_result o f rest d).min_high_id,
      (axis_scan_result o f rest d).max_low_idx,
      (axis_scan_result o f rest d).min_high_idx) with hpd
    have hstep : select_axis_step o (f :: rest) (some b0) d
        = if pd.1 < b0.1 then some pd else some b0 := rfl
    rw [hstep]
    by_cases hlt : pd.1 < b0.1
    · rw [if_pos hlt]
      obtain ⟨best, hfold, hex, hle, hall⟩ := ih pd ⟨d, axis_params_cons o f rest d⟩
      refine ⟨best, hfold, hex, le_trans hle (le_of_lt hlt), ?_⟩
      intro dim hdim p hp
      rcases List.mem_cons.mp hdim with rfl | hdim
      · rw [axis_params_cons] at hp
        cases hp
        exact hle
      · exact hall dim hdim p hp
    · rw [if_neg hlt]
      obtain ⟨best, hfold, hex, hle, hall⟩ := ih b0 hb0
      refine ⟨best, hfold, hex, hle, ?_⟩
      intro dim hdim p hp
      rcases List.mem_cons.mp hdim with rfl | hdim
      · rw [axis_params_cons] at hp
        cases hp
        show best.1 ≤ pd.1
        omega
      · exact hall dim hdim p hp

theorem select_axis_min (o : ObjSpace) (f : RecordId) (rest : List RecordId) (dimension : Nat)
    (hd : 0 < dimension) :
    ∃ best, select_axis o (f :: rest) dimension = some best ∧
      (∃ d0, axis_params o (f :: rest) d0 = some best) ∧
      ∀ dim, dim < dimension → ∀ p, axis_params o (f :: rest) dim = some p → best.1 ≤ p.1 := by
  obtain ⟨n, rfl⟩ : ∃ n, dimension = n + 1 := ⟨dimension - 1, by omega⟩
  have hr : List.range (n + 1) = 0 :: (List.range n).map Nat.succ :=
    List.range_succ_eq_map n
  unfold select_axis
  rw [hr]
  dsimp only
  rw [axis_params_cons o f rest 0]
  dsimp only
  obtain ⟨best, hfold, hex, hle, hall⟩ := select_axis_fold_spec o f rest
    ((List.range n).map Nat.succ) _ ⟨0, axis_params_cons o f rest 0⟩
  refine ⟨best, hfold, hex, ?_⟩
  intro dim hdim p hp
  cases dim with
  | zero =>
    rw [axis_params_cons] at hp
    cases hp
    exact hle
  | succ m =>
    refine hall (m + 1) ?_ p hp
    simp only [List.mem_map, List.mem_range]
    exact ⟨m, by omega, rfl⟩

theorem enumFrom_snd_mem (l : List RecordId) (n : Nat) (p : Nat × RecordId)
    (hp : p ∈ l.enumFrom n) : p.2 ∈ l := by
  induction l generalizing n with
  | nil => cases hp
  | cons x xs ih =>
    rcases List.mem_cons.mp hp with rfl | hp
    · exact List.mem_cons_self _ _
    · exact List.mem_cons_of_mem _ (ih (n + 1) hp)

theorem mem_enumFrom_of_mem (l : List RecordId) (n : Nat) (r : RecordId) (hr : r ∈ l) :
    ∃ i, (i, r) ∈ l.enumFrom n := by
  induction l generalizing n with
  | nil => cases hr
  | cons x xs ih =>
    rcases List.mem_cons.mp hr with rfl | hr
    · exact ⟨n, List.mem_cons_self _ _⟩
    · obtain ⟨i, hi⟩ := ih (n + 1) hr
      exact ⟨i, List.mem_cons_of_mem _ hi⟩

/-- Two one-dimensional records, `X=[0;10]` and `X=[1;2]`, in an
otherwise empty space. -/
def c3_state : ObjSpace :=
  { nodes := [],
    data_nodes := ⟨[⟨RecordId.root, ⟨[⟨0, 10⟩]⟩, 0⟩, ⟨RecordId.root, ⟨[⟨1, 2⟩]⟩, 1⟩], []⟩,
    dimension := 1, min_records := 2, max_records := 5,
    root_id := RecordId.leaf 0 }

/-- Counterexample to C3 as stated.  Scanning axis 0 of the records
`X=[0;10]`, `X=[1;2]`: the tracked `min_high_id` is the first record,
whose `bounds.max` (10) is not the smallest `bounds.max` among all
children (the second record's is 2) — the `min_high` update is skipped
because the `max_low` update fired on the same record (`else if`), and
`min_high` was initialized from the first record's `bounds.min`, not its
`bounds.max`.  The tracked `max` ends at 2 although the overall maximum
on the axis is 10 (it was initialized from the first record's
`bounds.min`).  So neither "min_high_id is the child with the smallest
bounds.max among all children" nor "the overall min and max on the axis
are tracked over all children" holds of the code. -/
theorem claim_C3_counterexample :
    (axis_scan_result c3_state (RecordId.data 0) [RecordId.data 1] 0).min_high_id
        = RecordId.data 0 ∧
      ((c3_state.get_mbr (RecordId.data 1)).boundsAt 0).max <
        ((c3_state.get_mbr (RecordId.data 0)).boundsAt 0).max ∧
      (axis_scan_result c3_state (RecordId.data 0) [RecordId.data 1] 0).max = 2 ∧
      ((c3_state.get_mbr (RecordId.data 0)).boundsAt 0).max = 10 := by
  decide

/-- C3 (amended): in `select_first_pair`, for every axis the scan
initializes `min`, `max`, `max_low` and `min_high` all from the first
child's `bounds.min`.  Afterwards `max_low` is the largest `bounds.min`
over all children, attained by `max_low_id`; `min` is the smallest
`bounds.min` over all children; `max` is the maximum of the first child's
`bounds.min` and the remaining children's `bounds.max` (not the overall
maximum); `min_high` never exceeds the first child's `bounds.min` — it
tracks smaller `bounds.max` values only on children for which the
`max_low` update did not fire, so it need not be the smallest
`bounds.max` over all children.  The separation score is
`d = (min_high − max_low) / (max − min)` with truncating division, and
the axis with the smallest `d` supplies the seed pair. -/
theorem claim_C3_amended_seed_scan (o : ObjSpace) (f : RecordId) (rest : List RecordId)
    (dimension : Nat) (hd : 0 < dimension) :
    (∀ dim : Nat,
      axis_params o (f :: rest) dim = some (Int.tdiv
          ((axis_scan_result o f rest dim).min_high - (axis_scan_result o f rest dim).max_low)
          ((axis_scan_result o f rest dim).max - (axis_scan_result o f rest dim).min),
        (axis_scan_result o f rest dim).max_low_id,
        (axis_scan_result o f rest dim).min_high_id,
        (axis_scan_result o f rest dim).max_low_idx,
        (axis_scan_result o f rest dim).min_high_idx) ∧
      (axis_scan_result o f rest dim).max_low_id ∈ f :: rest ∧
      (axis_scan_result o f rest dim).max_low =
        ((o.get_mbr (axis_scan_result o f rest dim).max_low_id).boundsAt dim).min ∧
      (∀ r ∈ f :: rest,
        ((o.get_mbr r).boundsAt dim).min ≤ (axis_scan_result o f rest dim).max_low) ∧
      (∀ r ∈ f :: rest,
        (axis_scan_result o f rest dim).min ≤ ((o.get_mbr r).boundsAt dim).min) ∧
      ((axis_scan_result o f rest dim).min = ((o.get_mbr f).boundsAt dim).min ∨
        ∃ r ∈ rest, (axis_scan_result o f rest dim).min = ((o.get_mbr r).boundsAt dim).min) ∧
      (((o.get_mbr f).boundsAt dim).min ≤ (axis_scan_result o f rest dim).max ∧
        ∀ r ∈ rest, ((o.get_mbr r).boundsAt dim).max ≤ (axis_scan_result o f rest dim).max) ∧
      ((axis_scan_result o f rest dim).max = ((o.get_mbr f).boundsAt dim).min ∨
        ∃ r ∈ rest, (axis_scan_result o f rest dim).max = ((o.get_mbr r).boundsAt dim).max) ∧
      (axis_scan_result o f rest dim).min_high ≤ ((o.get_mbr f).boundsAt dim).min) ∧
    ∀ best, select_axis o (f :: rest) dimension = some best →
      (∃ d0, axis_params o (f :: rest) d0 = some best) ∧
      ∀ dim, dim < dimension → ∀ p, axis_params o (f :: rest) dim = some p → best.1 ≤ p.1 := by
  constructor
  · intro dim
    obtain ⟨c1, c2, c3, c4, c5, c6, c7, c8, c9, c10, c11⟩ :=
      axis_scan_foldl_spec o dim (rest.enumFrom 1)
        ⟨((o.get_mbr f).boundsAt dim).min, ((o.get_mbr f).boundsAt dim).min, 0, f,
          ((o.get_mbr f).boundsAt dim).min, 0, f, ((o.get_mbr f).boundsAt dim).min⟩ rfl
    have hres : axis_scan_result o f rest dim = (rest.enumFrom 1).foldl (axis_scan_step o dim)
        ⟨((o.get_mbr f).boundsAt dim).min, ((o.get_mbr f).boundsAt dim).min, 0, f,
          ((o.get_mbr f).boundsAt dim).min, 0, f, ((o.get_mbr f).boundsAt dim).min⟩ := rfl
    rw [hres]
    refine ⟨axis_params_cons o f rest dim, ?_, c2, ?_, ?_, ?_, ⟨c9, ?_⟩, ?_, c11⟩
    · rcases c1 with h | ⟨p, hp, h⟩
      · rw [h]
        exact List.mem_cons_self _ _
      · rw [h]
        exact List.mem_cons_of_mem _ (enumFrom_snd_mem rest 1 p hp)
    · intro r hr
      rcases List.mem_cons.mp hr with rfl | hr
      · exact c3
      · obtain ⟨i, hi⟩ := mem_enumFrom_of_mem rest 1 r hr
        exact c4 (i, r) hi
    · intro r hr
      rcases List.mem_cons.mp hr with rfl | hr
      · exact c6
      · obtain ⟨i, hi⟩ := mem_enumFrom_of_mem rest 1 r hr
        exact c7 (i, r) hi
    · rcases c5 with h | ⟨p, hp, h⟩
      · exact Or.inl h
      · exact Or.inr ⟨p.2, enumFrom_snd_mem rest 1 p hp, h⟩
    · intro r hr
      obtain ⟨i, hi⟩ := mem_enumFrom_of_mem rest 1 r hr
      exact c10 (i, r) hi
    · rcases c8 with h | ⟨p, hp, h⟩
      · exact Or.inl h
      · exact Or.inr ⟨p.2, enumFrom_snd_mem rest 1 p hp, h⟩
  · intro best hbest
    obtain ⟨best2, hb2, hex, hall⟩ := select_axis_min o f rest dimension hd
    rw [hbest] at hb2
    cases hb2
    exact ⟨hex, hall⟩

/-- Witness for the amended C3 at the counterexample records (axis 0 of
dimension 1). -/
theorem claim_C3_witness :
    (0 < 1 ∧
      axis_params c3_state [RecordId.data 0, RecordId.data 1] 0 = some (Int.tdiv
          ((axis_scan_result c3_state (RecordId.data 0) [RecordId.data 1] 0).min_high -
            (axis_scan_result c3_state (RecordId.data 0) [RecordId.data 1] 0).max_low)
          ((axis_scan_result c3_state (RecordId.data 0) [RecordId.data 1] 0).max -
            (axis_scan_result c3_state (RecordId.data 0) [RecordId.data 1] 0).min),
        (axis_scan_result c3_state (RecordId.data 0) [RecordId.data 1] 0).max_low_id,
        (axis_scan_result c3_state (RecordId.data 0) [RecordId.data 1] 0).min_high_id,
        (axis_scan_result c3_state (RecordId.data 0) [RecordId.data 1] 0).max_low_idx,
        (axis_scan_result c3_state (RecordId.data 0) [RecordId.data 1] 0).min_high_idx)) ∧
      ∀ r ∈ [RecordId.data 0, RecordId.data 1],
        ((c3_state.get_mbr r).boundsAt 0).min ≤
          (axis_scan_result c3_state (RecordId.data 0) [RecordId.data 1] 0).max_low :=
  ⟨⟨Nat.one_pos,
      ((claim_C3_amended_seed_scan c3_state (RecordId.data 0) [RecordId.data 1] 1
        Nat.one_pos).1 0).1⟩,
    ((claim_C3_amended_seed_scan c3_state (RecordId.data 0) [RecordId.data 1] 1
      Nat.one_pos).1 0).2.2.2.1⟩

/-! C2: the split partition.  First, `Vec::swap_remove` permutes out the
indexed element. -/

theorem getLastD_irrel (l : List RecordId) (h : l ≠ []) (d d2 : RecordId) :
    l.getLastD d = l.getLastD d2 := by
  rw [List.getLastD_eq_getLast?, List.getLastD_eq_getLast?, List.getLast?_eq_getLast l h]
  rfl

theorem swap_remove_perm (l : List RecordId) (i : Nat) (hi : i < l.length) :
    List.Perm (l.getD i RecordId.root :: swap_remove l i) l := by
  induction l generalizing i with
  | nil => simp at hi
  | cons x xs ih =>
    cases xs with
    | nil =>
      have : i = 0 := by simpa using hi
      subst this
      show List.Perm (x :: swap_remove [x] 0) [x]
      show List.Perm (x :: ([x].set 0 ([x].getLastD RecordId.root)).dropLast) [x]
      simp
    | cons y ys =>
      cases i with
      | zero =>
        show List.Perm (x :: swap_remove (x :: y :: ys) 0) (x :: y :: ys)
        refine List.Perm.cons x ?_
        show List.Perm (((x :: y :: ys).set 0 ((x :: y :: ys).getLastD RecordId.root)).dropLast)
          (y :: ys)
        rw [show ((x :: y :: ys).set 0 ((x :: y :: ys).getLastD RecordId.root))
            = (x :: y :: ys).getLastD RecordId.root :: y :: ys from rfl]
        have hlast : (x :: y :: ys).getLastD RecordId.root = (y :: ys).getLast (by simp) := by
          rw [List.getLastD_cons]
          rw [getLastD_irrel (y :: ys) (by simp) x RecordId.root]
          rw [List.getLastD_eq_getLast?, List.getLast?_eq_getLast (y :: ys) (by simp)]
          rfl
        rw [List.dropLast_cons_of_ne_nil (by simp), hlast]
        have h1 : List.Perm ((y :: ys).getLast (by simp) :: (y :: ys).dropLast)
            ((y :: ys).dropLast ++ [(y :: ys).getLast (by simp)]) :=
          (List.perm_append_singleton _ _).symm
        rw [List.dropLast_append_getLast (by simp)] at h1
        exact h1
      | succ j =>
        have hj : j < (y :: ys).length := by simpa using hi
        have hstep : swap_remove (x :: y :: ys) (j + 1) = x :: swap_remove (y :: ys) j := by
          show ((x :: y :: ys).set (j + 1)
              ((x :: y :: ys).getLastD RecordId.root)).dropLast = _
          rw [List.set_cons_succ]
          rw [List.dropLast_cons_of_ne_nil (by simp [List.set])]
          rw [show (x :: y :: ys).getLastD RecordId.root = (y :: ys).getLastD RecordId.root by
            rw [List.getLastD_cons]
            exact getLastD_irrel (y :: ys) (by simp) x RecordId.root]
          rfl
        rw [hstep]
        rw [show (x :: y :: ys).getD (j + 1) RecordId.root
            = (y :: ys).getD j RecordId.root from rfl]
        refine List.Perm.trans (List.Perm.swap x _ _) (List.Perm.cons x (ih j hj))

theorem swap_remove_length (l : List RecordId) (i : Nat) (hi : i < l.length) :
    (swap_remove l i).length = l.length - 1 := by
  have := (swap_remove_perm l i hi).length_eq
  simp only [List.length_cons] at this
  omega

theorem swap_remove_getD_lt (l : List RecordId) (i j : Nat) (hj : j < i) (hi : i < l.length) :
    (swap_remove l i).getD j RecordId.root = l.getD j RecordId.root := by
  show ((l.set i (l.getLastD RecordId.root)).dropLast).getD j RecordId.root = _
  have hlen : (l.set i (l.getLastD RecordId.root)).length = l.length := by simp
  have hj2 : j < (l.set i (l.getLastD RecordId.root)).length - 1 := by omega
  simp only [List.getD]
  rw [List.get?_eq_getElem?, List.get?_eq_getElem?]
  rw [List.getElem?_eq_getElem (by simp only [List.length_dropLast]; omega),
    List.getElem?_eq_getElem (by omega)]
  simp only [Option.getD_some]
  rw [List.getElem_dropLast]
  simp only [List.getElem_set_ne (by omega : i ≠ j)]

theorem axis_scan_step_idx (o : ObjSpace) (dim : Nat) (st : AxisScan) (p : Nat × RecordId) :
    (((axis_scan_step o dim st p).max_low_idx = st.max_low_idx ∧
        (axis_scan_step o dim st p).max_low_id = st.max_low_id) ∨
      ((axis_scan_step o dim st p).max_low_idx = p.1 ∧
        (axis_scan_step o dim st p).max_low_id = p.2)) ∧
    (((axis_scan_step o dim st p).min_high_idx = st.min_high_idx ∧
        (axis_scan_step o dim st p).min_high_id = st.min_high_id) ∨
      ((axis_scan_step o dim st p).min_high_idx = p.1 ∧
        (axis_scan_step o dim st p).min_high_id = p.2)) := by
  unfold axis_scan_step
  dsimp only
  by_cases h1 : ((o.get_mbr p.2).boundsAt dim).min > st.max_low
  · rw [if_pos h1]
    constructor
    · right
      constructor <;> split <;> split <;> rfl
    · left
      constructor <;> split <;> split <;> rfl
  · rw [if_neg h1]
    by_cases h4 : ((o.get_mbr p.2).boundsAt dim).max < st.min_high
    · rw [if_pos h4]
      constructor
      · left
        constructor <;> split <;> split <;> rfl
      · right
        constructor <;> split <;> split <;> rfl
    · rw [if_neg h4]
      constructor
      · left
        constructor <;> split <;> split <;> rfl
      · left
        constructor <;> split <;> split <;> rfl

theorem axis_scan_foldl_idx (o : ObjSpace) (dim : Nat) (l : List (Nat × RecordId))
    (st : AxisScan) :
    (((l.foldl (axis_scan_step o dim) st).max_low_idx = st.max_low_idx ∧
        (l.foldl (axis_scan_step o dim) st).max_low_id = st.max_low_id) ∨
      ∃ p ∈ l, (l.foldl (axis_scan_step o dim) st).max_low_idx = p.1 ∧
        (l.foldl (axis_scan_step o dim) st).max_low_id = p.2) ∧
    (((l.foldl (axis_scan_step o dim) st).min_high_idx = st.min_high_idx ∧
        (l.foldl (axis_scan_step o dim) st).min_high_id = st.min_high_id) ∨
      ∃ p ∈ l, (l.foldl (axis_scan_step o dim) st).min_high_idx = p.1 ∧
        (l.foldl (axis_scan_step o dim) st).min_high_id = p.2) := by
  induction l generalizing st with
  | nil => exact ⟨Or.inl ⟨rfl, rfl⟩, Or.inl ⟨rfl, rfl⟩⟩
  | cons q l ih =>
    rw [List.foldl_cons]
    obtain ⟨s1, s2⟩ := axis_scan_step_idx o dim st q
    obtain ⟨i1, i2⟩ := ih (axis_scan_step o dim st q)
    constructor
    · rcases i1 with ⟨ha, hb⟩ | ⟨p, hp, h⟩
      · rcases s1 with ⟨hc, hd⟩ | ⟨hc, hd⟩
        · exact Or.inl ⟨ha.trans hc, hb.trans hd⟩
        · exact Or.inr ⟨q, List.mem_cons_self _ _, ha.trans hc, hb.trans hd⟩
      · exact Or.inr ⟨p, List.mem_cons_of_mem _ hp, h⟩
    · rcases i2 with ⟨ha, hb⟩ | ⟨p, hp, h⟩
      · rcases s2 with ⟨hc, hd⟩ | ⟨hc, hd⟩
        · exact Or.inl ⟨ha.trans hc, hb.trans hd⟩
        · exact Or.inr ⟨q, List.mem_cons_self _ _, ha.trans hc, hb.trans hd⟩
      · exact Or.inr ⟨p, List.mem_cons_of_mem _ hp, h⟩

theorem enumFrom_getD (l : List RecordId) (n : Nat) (p : Nat × RecordId)
    (hp : p ∈ l.enumFrom n) :
    n ≤ p.1 ∧ p.1 - n < l.length ∧ l.getD (p.1 - n) RecordId.root = p.2 := by
  induction l generalizing n with
  | nil => cases hp
  | cons x xs ih =>
    rcases List.mem_cons.mp hp with heq | hp
    · rw [heq]
      exact ⟨le_refl _, by simp, by simp⟩
    · obtain ⟨h1, h2, h3⟩ := ih (n + 1) hp
      refine ⟨by omega, by simp; omega, ?_⟩
      have : p.1 - n = (p.1 - (n + 1)) + 1 := by omega
      rw [this]
      simpa using h3

/-- The tracked indices of the axis scan index the tracked records within
the record list. -/
theorem axis_scan_result_indexed (o : ObjSpace) (f : RecordId) (rest : List RecordId)
    (dim : Nat) :
    ((axis_scan_result o f rest dim).max_low_idx < (f :: rest).length ∧
      (f :: rest).getD (axis_scan_result o f rest dim).max_low_idx RecordId.root =
        (axis_scan_result o f rest dim).max_low_id) ∧
    ((axis_scan_result o f rest dim).min_high_idx < (f :: rest).length ∧
      (f :: rest).getD (axis_scan_result o f rest dim).min_high_idx RecordId.root =
        (axis_scan_result o f rest dim).min_high_id) := by
  have hres : axis_scan_result o f rest dim = (rest.enumFrom 1).foldl (axis_scan_step o dim)
      ⟨((o.get_mbr f).boundsAt dim).min, ((o.get_mbr f).boundsAt dim).min, 0, f,
        ((o.get_mbr f).boundsAt dim).min, 0, f, ((o.get_mbr f).boundsAt dim).min⟩ := rfl
  rw [hres]
  obtain ⟨i1, i2⟩ := axis_scan_foldl_idx o dim (rest.enumFrom 1)
    ⟨((o.get_mbr f).boundsAt dim).min, ((o.get_mbr f).boundsAt dim).min, 0, f,
      ((o.get_mbr f).boundsAt dim).min, 0, f, ((o.get_mbr f).boundsAt dim).min⟩
  constructor
  · rcases i1 with ⟨ha, hb⟩ | ⟨p, hp, ha, hb⟩
    · rw [ha, hb]
      exact ⟨by simp, rfl⟩
    · obtain ⟨h1, h2, h3⟩ := enumFrom_getD rest 1 p hp
      rw [ha, hb]
      refine ⟨by simp; omega, ?_⟩
      have : (f :: rest).getD p.1 RecordId.root = rest.getD (p.1 - 1) RecordId.root := by
        have hp1 : p.1 = (p.1 - 1) + 1 := by omega
        rw [hp1]
        rfl
      rw [this, h3]
  · rcases i2 with ⟨ha, hb⟩ | ⟨p, hp, ha, hb⟩
    · rw [ha, hb]
      exact ⟨by simp, rfl⟩
    · obtain ⟨h1, h2, h3⟩ := enumFrom_getD rest 1 p hp
      rw [ha, hb]
      refine ⟨by simp; omega, ?_⟩
      have : (f :: rest).getD p.1 RecordId.root = rest.getD (p.1 - 1) RecordId.root := by
        have hp1 : p.1 = (p.1 - 1) + 1 := by omega
        rw [hp1]
        rfl
      rw [this, h3]

theorem double_swap_remove_perm (l : List RecordId) (a b : Nat)
    (hb : b < a) (ha : a < l.length) :
    List.Perm (l.getD a RecordId.root :: l.getD b RecordId.root
      :: swap_remove (swap_remove l a) b) l := by
  have h1 := swap_remove_perm l a ha
  have hlen := swap_remove_length l a ha
  have hb2 : b < (swap_remove l a).length := by omega
  have h2 := swap_remove_perm (swap_remove l a) b hb2
  rw [swap_remove_getD_lt l a b hb ha] at h2
  exact List.Perm.trans (List.Perm.cons _ h2) h1

/-- `select_first_pair` on a non-empty record list with positive dimension
returns a pair of seeds and the remaining records; together they are a
permutation of the input records. -/
theorem select_first_pair_spec (o : ObjSpace) (f : RecordId) (rest0 : List RecordId)
    (dimension : Nat) (hd : 0 < dimension) (hne : rest0 ≠ []) :
    ∃ lhs rhs out, select_first_pair o (f :: rest0) dimension = some (lhs, rhs, out) ∧
      List.Perm (lhs :: rhs :: out) (f :: rest0) := by
  obtain ⟨best, hsel, ⟨d0, hax⟩, -⟩ := select_axis_min o f rest0 dimension hd
  obtain ⟨bd, bl, br, bli, bri⟩ := best
  rw [axis_params_cons] at hax
  simp only [Option.some.injEq, Prod.mk.injEq] at hax
  obtain ⟨-, hbl, hbr, hbli, hbri⟩ := hax
  obtain ⟨⟨hli, hgl⟩, ⟨hri, hgr⟩⟩ := axis_scan_result_indexed o f rest0 d0
  rw [hbli] at hli
  rw [hbli, hbl] at hgl
  rw [hbri] at hri
  rw [hbri, hbr] at hgr
  have hn2 : 2 ≤ (f :: rest0).length := by
    cases rest0 with
    | nil => exact absurd rfl hne
    | cons _ _ => simp
  unfold select_first_pair
  rw [hsel]
  dsimp only
  by_cases hgt : bri > bli
  · rw [if_pos hgt]
    refine ⟨bl, br, swap_remove (swap_remove (f :: rest0) bri) bli, rfl, ?_⟩
    have hdp := double_swap_remove_perm (f :: rest0) bri bli hgt hri
    rw [hgr, hgl] at hdp
    exact List.Perm.trans (List.Perm.swap br bl _) hdp
  · rw [if_neg hgt]
    by_cases heq : bri = bli
    · rw [if_pos heq]
      refine ⟨(f :: rest0).getD ((f :: rest0).length - 1) RecordId.root,
        (f :: rest0).getD 0 RecordId.root,
        swap_remove (swap_remove (f :: rest0) ((f :: rest0).length - 1)) 0, rfl, ?_⟩
      exact double_swap_remove_perm (f :: rest0) ((f :: rest0).length - 1) 0
        (by omega) (by omega)
    · rw [if_neg heq]
      have hlt : bri < bli := by omega
      refine ⟨bl, br, swap_remove (swap_remove (f :: rest0) bli) bri, rfl, ?_⟩
      have hdp := double_swap_remove_perm (f :: rest0) bli bri hlt hli
      rw [hgl, hgr] at hdp
      exact hdp

/-! Payload tracking through `bind_child` / `bind_set` / `make_node`: only
`add_child` touches a node's child list, always at the parent's slot. -/

theorem getD_set_node (l : List InternalNode) (i j : Nat) (v : InternalNode) :
    (l.set i v).getD j default = if i = j ∧ i < l.length then v else l.getD j default := by
  simp only [List.getD, List.get?_eq_getElem?]
  by_cases h : i = j
  · subst h
    by_cases hlt : i < l.length
    · rw [if_pos ⟨rfl, hlt⟩]
      simp [List.getElem?_set, hlt]
    · rw [if_neg (by tauto)]
      rw [List.getElem?_eq_none (by simp; omega), List.getElem?_eq_none (by omega)]
  · rw [if_neg (by tauto)]
    simp [List.getElem?_set, h]

theorem set_parent_info_get_node (o : ObjSpace) (c parent q : RecordId) :
    ((o.set_parent_info c parent).get_node q).payload = ((o.get_node q).payload) ∧
    ((o.set_parent_info c parent).get_node q).mbr = ((o.get_node q).mbr) := by
  match c with
  | .data i => exact ⟨rfl, rfl⟩
  | .root =>
    unfold ObjSpace.set_parent_info ObjSpace.get_node
    dsimp only
    rw [getD_set_node]
    split
    · rename_i h
      rw [← h.1]
      exact ⟨rfl, rfl⟩
    · exact ⟨rfl, rfl⟩
  | .internal k =>
    unfold ObjSpace.set_parent_info ObjSpace.get_node
    dsimp only
    rw [getD_set_node]
    split
    · rename_i h
      rw [← h.1]
      exact ⟨rfl, rfl⟩
    · exact ⟨rfl, rfl⟩
  | .leaf k =>
    unfold ObjSpace.set_parent_info ObjSpace.get_node
    dsimp only
    rw [getD_set_node]
    split
    · rename_i h
      rw [← h.1]
      exact ⟨rfl, rfl⟩
    · exact ⟨rfl, rfl⟩

theorem add_child_get_node (o : ObjSpace) (p c q : RecordId) :
    ((o.add_child p c).get_node q).payload =
      (if p.as_node_id = q.as_node_id ∧ p.as_node_id < o.nodes.length
        then (o.get_node q).payload ++ [c] else (o.get_node q).payload) := by
  show ((o.nodes.set p.as_node_id _).getD q.as_node_id default).payload = _
  rw [getD_set_node]
  split
  · rename_i h
    obtain ⟨h1, -⟩ := h
    show (o.get_node p).payload ++ [c] = _
    unfold ObjSpace.get_node
    rw [h1]
  · rfl

theorem bind_child_payload_self (o : ObjSpace) (p c : RecordId)
    (h : p.as_node_id < o.nodes.length) :
    ((bind_child o p c).get_node p).payload = (o.get_node p).payload ++ [c] := by
  unfold bind_child
  rw [(set_parent_info_get_node (o.add_child p c) c p p).1, add_child_get_node]
  rw [if_pos ⟨rfl, h⟩]

theorem bind_child_payload_other (o : ObjSpace) (p c q : RecordId)
    (h : q.as_node_id ≠ p.as_node_id) :
    ((bind_child o p c).get_node q).payload = (o.get_node q).payload := by
  unfold bind_child
  rw [(set_parent_info_get_node (o.add_child p c) c p q).1, add_child_get_node]
  rw [if_neg (by tauto)]

theorem set_parent_info_frame (o : ObjSpace) (c parent : RecordId) :
    (o.set_parent_info c parent).nodes.length = o.nodes.length ∧
    (o.set_parent_info c parent).min_records = o.min_records ∧
    (o.set_parent_info c parent).max_records = o.max_records ∧
    (o.set_parent_info c parent).dimension = o.dimension := by
  match c with
  | .data i => exact ⟨rfl, rfl, rfl, rfl⟩
  | .root => exact ⟨by simp [ObjSpace.set_parent_info], rfl, rfl, rfl⟩
  | .internal k => exact ⟨by simp [ObjSpace.set_parent_info], rfl, rfl, rfl⟩
  | .leaf k => exact ⟨by simp [ObjSpace.set_parent_info], rfl, rfl, rfl⟩

theorem bind_child_frame (o : ObjSpace) (p c : RecordId) :
    (bind_child o p c).nodes.length = o.nodes.length ∧
    (bind_child o p c).min_records = o.min_records ∧
    (bind_child o p c).max_records = o.max_records ∧
    (bind_child o p c).dimension = o.dimension := by
  unfold bind_child
  obtain ⟨h1, h2, h3, h4⟩ := set_parent_info_frame (o.add_child p c) c p
  refine ⟨h1.trans ?_, h2.trans rfl, h3.trans rfl, h4.trans rfl⟩
  simp [ObjSpace.add_child]

theorem foldl_bind_spec (parent : RecordId) (l : List RecordId) :
    ∀ o : ObjSpace, parent.as_node_id < o.nodes.length →
      ((l.foldl (fun acc c => bind_child acc parent c) o).get_node parent).payload
          = (o.get_node parent).payload ++ l ∧
      (∀ q : RecordId, q.as_node_id ≠ parent.as_node_id →
        ((l.foldl (fun acc c => bind_child acc parent c) o).get_node q).payload
          = (o.get_node q).payload) ∧
      (l.foldl (fun acc c => bind_child acc parent c) o).nodes.length = o.nodes.length ∧
      (l.foldl (fun acc c => bind_child acc parent c) o).min_records = o.min_records ∧
      (l.foldl (fun acc c => bind_child acc parent c) o).max_records = o.max_records := by
  induction l with
  | nil =>
    intro o ho
    exact ⟨by simp, fun q hq => rfl, rfl, rfl, rfl⟩
  | cons c cs ih =>
    intro o ho
    rw [List.foldl_cons]
    obtain ⟨hf1, hf2, hf3, hf4⟩ := bind_child_frame o parent c
    obtain ⟨g1, g2, g3, g4, g5⟩ := ih (bind_child o parent c) (by omega)
    refine ⟨?_, ?_, g3.trans hf1, g4.trans hf2, g5.trans hf3⟩
    · rw [g1, bind_child_payload_self o parent c ho]
      simp
    · intro q hq
      rw [g2 q hq, bind_child_payload_other o parent c q hq]

theorem bind_set_spec (o : ObjSpace) (parent : RecordId) (children : List RecordId)
    (h : parent.as_node_id < o.nodes.length) :
    ((bind_set o parent children).get_node parent).payload
        = (o.get_node parent).payload ++ children.reverse ∧
      (∀ q : RecordId, q.as_node_id ≠ parent.as_node_id →
        ((bind_set o parent children).get_node q).payload = (o.get_node q).payload) ∧
      (bind_set o parent children).nodes.length = o.nodes.length ∧
      (bind_set o parent children).min_records = o.min_records ∧
      (bind_set o parent children).max_records = o.max_records :=
  foldl_bind_spec parent children.reverse o h

theorem dropLast_append_getLastD (c0 : RecordId) (cs : List RecordId) :
    (c0 :: cs).dropLast ++ [(c0 :: cs).getLastD RecordId.root] = c0 :: cs := by
  have h1 : (c0 :: cs).getLastD RecordId.root = (c0 :: cs).getLast (by simp) := by
    rw [List.getLastD_eq_getLast?, List.getLast?_eq_getLast (c0 :: cs) (by simp)]
    rfl
  rw [h1]
  exact List.dropLast_append_getLast (by simp)

theorem split_distribute_nil (o : ObjSpace) (a b : RecordId) (n1 n2 : Nat) :
    split_distribute o a b [] n1 n2 = o := by
  rw [split_distribute]

theorem split_distribute_dump1 (o : ObjSpace) (a b : RecordId) (c0 : RecordId)
    (cs : List RecordId) (n1 n2 : Nat)
    (hg : o.min_records - n1 ≥ (c0 :: cs).length) :
    split_distribute o a b (c0 :: cs) n1 n2 = bind_set o a (c0 :: cs) := by
  rw [split_distribute]
  dsimp only
  rw [if_pos hg]

theorem split_distribute_dump2 (o : ObjSpace) (a b : RecordId) (c0 : RecordId)
    (cs : List RecordId) (n1 n2 : Nat)
    (hg1 : ¬o.min_records - n1 ≥ (c0 :: cs).length)
    (hg2 : o.min_records - n2 ≥ (c0 :: cs).length) :
    split_distribute o a b (c0 :: cs) n1 n2 = bind_set o b (c0 :: cs) := by
  rw [split_distribute]
  dsimp only
  rw [if_neg hg1, if_pos hg2]

theorem split_distribute_step (o : ObjSpace) (a b : RecordId) (c0 : RecordId)
    (cs : List RecordId) (n1 n2 : Nat)
    (hg1 : ¬o.min_records - n1 ≥ (c0 :: cs).length)
    (hg2 : ¬o.min_records - n2 ≥ (c0 :: cs).length) :
    split_distribute o a b (c0 :: cs) n1 n2 =
      (if (common_mbr (o.get_mbr a) (o.get_mbr ((c0 :: cs).getLastD RecordId.root))).volume
            - (o.get_mbr a).volume
          < (common_mbr (o.get_mbr b) (o.get_mbr ((c0 :: cs).getLastD RecordId.root))).volume
            - (o.get_mbr b).volume
        ∨ ((common_mbr (o.get_mbr a) (o.get_mbr ((c0 :: cs).getLastD RecordId.root))).volume
              - (o.get_mbr a).volume
            = (common_mbr (o.get_mbr b) (o.get_mbr ((c0 :: cs).getLastD RecordId.root))).volume
              - (o.get_mbr b).volume ∧ n1 < n2)
      then split_distribute (bind_child o a ((c0 :: cs).getLastD RecordId.root)) a b
        (c0 :: cs).dropLast (n1 + 1) n2
      else split_distribute (bind_child o b ((c0 :: cs).getLastD RecordId.root)) a b
        (c0 :: cs).dropLast n1 (n2 + 1)) := by
  rw [split_distribute]
  dsimp only
  rw [if_neg hg1, if_neg hg2]

theorem split_distribute_spec (node_id new_node_id : RecordId) :
    ∀ (n : Nat) (children : List RecordId), children.length = n →
    ∀ (o : ObjSpace) (node_num new_node_num : Nat),
    node_id.as_node_id < o.nodes.length →
    new_node_id.as_node_id < o.nodes.length →
    node_id.as_node_id ≠ new_node_id.as_node_id →
    (o.get_node node_id).payload.length = node_num →
    (o.get_node new_node_id).payload.length = new_node_num →
    o.min_records - node_num ≤ children.length →
    o.min_records - new_node_num ≤ children.length →
    2 * o.min_records ≤ node_num + new_node_num + children.length →
    ((((split_distribute o node_id new_node_id children node_num new_node_num).get_node
          node_id).payload : Multiset RecordId)
        + (((split_distribute o node_id new_node_id children node_num new_node_num).get_node
          new_node_id).payload : Multiset RecordId)
      = ((o.get_node node_id).payload : Multiset RecordId)
        + ((o.get_node new_node_id).payload : Multiset RecordId)
        + (children : Multiset RecordId)) ∧
    o.min_records ≤ ((split_distribute o node_id new_node_id children node_num
      new_node_num).get_node node_id).payload.length ∧
    o.min_records ≤ ((split_distribute o node_id new_node_id children node_num
      new_node_num).get_node new_node_id).payload.length ∧
    ((split_distribute o node_id new_node_id children node_num new_node_num).get_node
        node_id).payload.length
      + ((split_distribute o node_id new_node_id children node_num new_node_num).get_node
        new_node_id).payload.length
      = node_num + new_node_num + children.length := by
  intro n
  induction n using Nat.strong_induction_on with
  | _ n ih =>
    intro children hlen o node_num new_node_num h1 h2 hne hp1 hp2 hJ1 hJ2 hT
    cases children with
    | nil =>
      rw [split_distribute_nil]
      simp only [List.length_nil] at hJ1 hJ2 hT
      refine ⟨by simp, by omega, by omega, by simp; omega⟩
    | cons c0 cs =>
      have hnum : 1 ≤ (c0 :: cs).length := by simp
      by_cases hg1 : o.min_records - node_num ≥ (c0 :: cs).length
      · rw [split_distribute_dump1 o node_id new_node_id c0 cs node_num new_node_num hg1]
        obtain ⟨b1, b2, b3, b4, b5⟩ := bind_set_spec o node_id (c0 :: cs) h1
        rw [b1, b2 new_node_id (by omega)]
        refine ⟨?_, ?_, ?_, ?_⟩
        · rw [show ((((o.get_node node_id).payload ++ (c0 :: cs).reverse) : List RecordId)
              : Multiset RecordId)
            = ((o.get_node node_id).payload : Multiset RecordId)
              + ((c0 :: cs : List RecordId) : Multiset RecordId) by
            simp
            exact List.Perm.append_left _
              (by rw [← List.reverse_cons]; exact List.reverse_perm _)]
          rw [add_right_comm]
        · rw [List.length_append, List.length_reverse]
          omega
        · omega
        · rw [List.length_append, List.length_reverse]
          omega
      · by_cases hg2 : o.min_records - new_node_num ≥ (c0 :: cs).length
        · rw [split_distribute_dump2 o node_id new_node_id c0 cs node_num new_node_num hg1 hg2]
          obtain ⟨b1, b2, b3, b4, b5⟩ := bind_set_spec o new_node_id (c0 :: cs) h2
          rw [b1, b2 node_id (by omega)]
          refine ⟨?_, ?_, ?_, ?_⟩
          · rw [show ((((o.get_node new_node_id).payload ++ (c0 :: cs).reverse) : List RecordId)
                : Multiset RecordId)
              = ((o.get_node new_node_id).payload : Multiset RecordId)
                + ((c0 :: cs : List RecordId) : Multiset RecordId) by
              simp
              exact List.Perm.append_left _
                (by rw [← List.reverse_cons]; exact List.reverse_perm _)]
            exact (add_assoc _ _ _).symm
          · omega
          · rw [List.length_append, List.length_reverse]
            omega
          · rw [List.length_append, List.length_reverse]
            omega
        · rw [split_distribute_step o node_id new_node_id c0 cs node_num new_node_num hg1 hg2]
          have hrest : (c0 :: cs).dropLast.length = (c0 :: cs).length - 1 :=
            List.length_dropLast _
          have hlt : (c0 :: cs).dropLast.length < n := by
            rw [hrest]
            omega
          have hsplitl := dropLast_append_getLastD c0 cs
          split
          · obtain ⟨f1, f2, f3, f4⟩ := bind_child_frame o node_id
              ((c0 :: cs).getLastD RecordId.root)
            have hb1 := bind_child_payload_self o node_id
              ((c0 :: cs).getLastD RecordId.root) h1
            have hb2 := bind_child_payload_other o node_id
              ((c0 :: cs).getLastD RecordId.root) new_node_id (by omega)
            obtain ⟨g1, g2, g3, g4⟩ := ih (c0 :: cs).dropLast.length hlt (c0 :: cs).dropLast
              rfl (bind_child o node_id ((c0 :: cs).getLastD RecordId.root))
              (node_num + 1) new_node_num (by omega) (by omega) hne
              (by rw [hb1, List.length_append, hp1, List.length_singleton])
              (by rw [hb2, hp2]) (by rw [f2, hrest]; omega) (by rw [f2, hrest]; omega)
              (by rw [f2, hrest]; omega)
            rw [hb1, hb2] at g1
            rw [f2] at g2 g3
            refine ⟨?_, g2, g3, by omega⟩
            rw [g1]
            rw [show ((((o.get_node node_id).payload ++ [(c0 :: cs).getLastD RecordId.root])
                  : List RecordId) : Multiset RecordId)
              = ((o.get_node node_id).payload : Multiset RecordId)
                + (([(c0 :: cs).getLastD RecordId.root] : List RecordId) : Multiset RecordId)
              by
              simp
              rw [← Multiset.coe_singleton, ← Multiset.coe_add]]
            rw [show ((c0 :: cs : List RecordId) : Multiset RecordId)
                = (((c0 :: cs).dropLast : List RecordId) : Multiset RecordId)
                  + (([(c0 :: cs).getLastD RecordId.root] : List RecordId) : Multiset RecordId) by
              conv_lhs => rw [← hsplitl]
              simp
              rw [← Multiset.coe_singleton, ← Multiset.coe_add]]
            abel
          · obtain ⟨f1, f2, f3, f4⟩ := bind_child_frame o new_node_id
              ((c0 :: cs).getLastD RecordId.root)
            have hb1 := bind_child_payload_self o new_node_id
              ((c0 :: cs).getLastD RecordId.root) h2
            have hb2 := bind_child_payload_other o new_node_id
              ((c0 :: cs).getLastD RecordId.root) node_id (by omega)
            obtain ⟨g1, g2, g3, g4⟩ := ih (c0 :: cs).dropLast.length hlt (c0 :: cs).dropLast
              rfl (bind_child o new_node_id ((c0 :: cs).getLastD RecordId.root))
              node_num (new_node_num + 1) (by omega) (by omega) hne
              (by rw [hb2, hp1])
              (by rw [hb1, List.length_append, hp2, List.length_singleton])
              (by rw [f2, hrest]; omega) (by rw [f2, hrest]; omega)
              (by rw [f2, hrest]; omega)
            rw [hb1, hb2] at g1
            rw [f2] at g2 g3
            refine ⟨?_, g2, g3, by omega⟩
            rw [g1]
            rw [show ((((o.get_node new_node_id).payload
                  ++ [(c0 :: cs).getLastD RecordId.root]) : List RecordId) : Multiset RecordId)
              = ((o.get_node new_node_id).payload : Multiset RecordId)
                + (([(c0 :: cs).getLastD RecordId.root] : List RecordId) : Multiset RecordId)
              by
              simp
              rw [← Multiset.coe_singleton, ← Multiset.coe_add]]
            rw [show ((c0 :: cs : List RecordId) : Multiset RecordId)
                = (((c0 :: cs).dropLast : List RecordId) : Multiset RecordId)
                  + (([(c0 :: cs).getLastD RecordId.root] : List RecordId) : Multiset RecordId) by
              conv_lhs => rw [← hsplitl]
              simp
              rw [← Multiset.coe_singleton, ← Multiset.coe_add]]
            abel

theorem from_node_id_as (n : Nat) (k : RecordIdKind) :
    (RecordId.from_node_id n k).as_node_id = n := by
  cases k <;> rfl

theorem make_node_frame (o : ObjSpace) (k : RecordIdKind) :
    (o.make_node k).2.as_node_id = o.nodes.length ∧
    (o.make_node k).1.nodes.length = o.nodes.length + 1 ∧
    (o.make_node k).1.min_records = o.min_records ∧
    (o.make_node k).1.max_records = o.max_records ∧
    ((o.make_node k).1.get_node (o.make_node k).2).payload = ([] : List RecordId) ∧
    (∀ q : RecordId, q.as_node_id < o.nodes.length →
      (o.make_node k).1.get_node q = o.get_node q) := by
  refine ⟨from_node_id_as _ _, by
    simp [ObjSpace.make_node, ObjSpace.make_node_with_mbr], rfl, rfl, ?_, ?_⟩
  · show ((o.nodes ++ [(⟨RecordId.root, MBR.undefined, []⟩ : InternalNode)]).getD
        (RecordId.from_node_id o.nodes.length k).as_node_id default).payload = []
    rw [from_node_id_as]
    rw [List.getD_append_right o.nodes _ default o.nodes.length le_rfl]
    simp
  · intro q hq
    show (o.nodes ++ [(⟨RecordId.root, MBR.undefined, []⟩ : InternalNode)]).getD q.as_node_id default
      = o.nodes.getD q.as_node_id default
    exact List.getD_append o.nodes _ default q.as_node_id hq

theorem split_core_spec (o1 : ObjSpace) (node_id lhs rhs : RecordId)
    (rest : List RecordId)
    (h1 : node_id.as_node_id < o1.nodes.length)
    (hpay : (o1.get_node node_id).payload = ([] : List RecordId))
    (hJ : o1.min_records ≤ rest.length + 1)
    (hT : 2 * o1.min_records ≤ rest.length + 2) :
    ((((split_distribute
          (bind_child ((bind_child o1 node_id lhs).make_node node_id.kind).1
            ((bind_child o1 node_id lhs).make_node node_id.kind).2 rhs)
          node_id ((bind_child o1 node_id lhs).make_node node_id.kind).2
          rest 1 1).get_node node_id).payload : Multiset RecordId)
        + (((split_distribute
          (bind_child ((bind_child o1 node_id lhs).make_node node_id.kind).1
            ((bind_child o1 node_id lhs).make_node node_id.kind).2 rhs)
          node_id ((bind_child o1 node_id lhs).make_node node_id.kind).2
          rest 1 1).get_node
            ((bind_child o1 node_id lhs).make_node node_id.kind).2).payload
          : Multiset RecordId)
      = ((lhs :: rhs :: rest : List RecordId) : Multiset RecordId)) ∧
    o1.min_records ≤ ((split_distribute
        (bind_child ((bind_child o1 node_id lhs).make_node node_id.kind).1
          ((bind_child o1 node_id lhs).make_node node_id.kind).2 rhs)
        node_id ((bind_child o1 node_id lhs).make_node node_id.kind).2
        rest 1 1).get_node node_id).payload.length ∧
    o1.min_records ≤ ((split_distribute
        (bind_child ((bind_child o1 node_id lhs).make_node node_id.kind).1
          ((bind_child o1 node_id lhs).make_node node_id.kind).2 rhs)
        node_id ((bind_child o1 node_id lhs).make_node node_id.kind).2
        rest 1 1).get_node
          ((bind_child o1 node_id lhs).make_node node_id.kind).2).payload.length ∧
    ((split_distribute
        (bind_child ((bind_child o1 node_id lhs).make_node node_id.kind).1
          ((bind_child o1 node_id lhs).make_node node_id.kind).2 rhs)
        node_id ((bind_child o1 node_id lhs).make_node node_id.kind).2
        rest 1 1).get_node node_id).payload.length
      + ((split_distribute
        (bind_child ((bind_child o1 node_id lhs).make_node node_id.kind).1
          ((bind_child o1 node_id lhs).make_node node_id.kind).2 rhs)
        node_id ((bind_child o1 node_id lhs).make_node node_id.kind).2
        rest 1 1).get_node
          ((bind_child o1 node_id lhs).make_node node_id.kind).2).payload.length
      = rest.length + 2 := by
  obtain ⟨f1, f2, f3, f4⟩ := bind_child_frame o1 node_id lhs
  obtain ⟨m1, m2, m3, m4, m5, m6⟩ :=
    make_node_frame (bind_child o1 node_id lhs) node_id.kind
  have hnew : ((bind_child o1 node_id lhs).make_node node_id.kind).2.as_node_id
      = o1.nodes.length := by rw [m1, f1]
  obtain ⟨g1, g2, g3, g4⟩ := bind_child_frame
    ((bind_child o1 node_id lhs).make_node node_id.kind).1
    ((bind_child o1 node_id lhs).make_node node_id.kind).2 rhs
  have hpay2 : ((bind_child o1 node_id lhs).get_node node_id).payload = [lhs] := by
    rw [bind_child_payload_self o1 node_id lhs h1, hpay]
    rfl
  have hp2idx : ((bind_child o1 node_id lhs).make_node node_id.kind).2.as_node_id
      < ((bind_child o1 node_id lhs).make_node node_id.kind).1.nodes.length := by
    rw [hnew, m2, f1]
    omega
  have hpayA : ((bind_child ((bind_child o1 node_id lhs).make_node node_id.kind).1
      ((bind_child o1 node_id lhs).make_node node_id.kind).2 rhs).get_node
        node_id).payload = [lhs] := by
    rw [bind_child_payload_other _ _ _ node_id (by omega),
      m6 node_id (by rw [f1]; exact h1), hpay2]
  have hpayB : ((bind_child ((bind_child o1 node_id lhs).make_node node_id.kind).1
      ((bind_child o1 node_id lhs).make_node node_id.kind).2 rhs).get_node
        ((bind_child o1 node_id lhs).make_node node_id.kind).2).payload = [rhs] := by
    rw [bind_child_payload_self _ _ _ hp2idx, m5]
    rfl
  obtain ⟨s1, s2, s3, s4⟩ := split_distribute_spec node_id
    ((bind_child o1 node_id lhs).make_node node_id.kind).2 rest.length rest rfl
    (bind_child ((bind_child o1 node_id lhs).make_node node_id.kind).1
      ((bind_child o1 node_id lhs).make_node node_id.kind).2 rhs) 1 1
    (by rw [g1, m2, f1]; omega) (by rw [g1, m2, f1]; omega) (by omega)
    (by rw [hpayA]; rfl) (by rw [hpayB]; rfl)
    (by rw [g2, m3, f2]; omega) (by rw [g2, m3, f2]; omega) (by rw [g2, m3, f2]; omega)
  rw [hpayA, hpayB] at s1
  rw [g2, m3, f2] at s2 s3
  refine ⟨?_, s2, s3, by omega⟩
  rw [s1]
  rw [Multiset.coe_add, Multiset.coe_add]
  simp

/-- C2: for a node holding `max_records` children plus one extra child,
`split_node` partitions the `max_records + 1` children between the node
and its new sibling: the two resulting child lists form the input
multiset and each side ends with between `min_records` and `max_records`
children. -/
theorem claim_C2_split_node_partition (o : ObjSpace) (node_id extra : RecordId)
    (hparams : params_ok o.dimension o.min_records o.max_records = true)
    (hidx : node_id.as_node_id < o.nodes.length)
    (hfull : (o.get_node node_id).payload.length = o.max_records) :
    ((((split_node o node_id extra).1.get_node node_id).payload : Multiset RecordId)
        + (((split_node o node_id extra).1.get_node
            (split_node o node_id extra).2).payload : Multiset RecordId)
      = (((o.get_node node_id).payload ++ [extra] : List RecordId) : Multiset RecordId)) ∧
    o.min_records ≤ ((split_node o node_id extra).1.get_node node_id).payload.length ∧
    ((split_node o node_id extra).1.get_node node_id).payload.length ≤ o.max_records ∧
    o.min_records ≤ ((split_node o node_id extra).1.get_node
        (split_node o node_id extra).2).payload.length ∧
    ((split_node o node_id extra).1.get_node
        (split_node o node_id extra).2).payload.length ≤ o.max_records := by
  have hp' := hparams
  simp only [params_ok, Bool.and_eq_true, decide_eq_true_eq] at hp'
  obtain ⟨⟨hd, hmin⟩, hhalf⟩ := hp'
  have h2m : 2 * o.min_records ≤ o.max_records + 1 := by omega
  have hmax : 3 ≤ o.max_records := by omega
  have hpne : (o.get_node node_id).payload ≠ [] := by
    intro h
    rw [h] at hfull
    simp at hfull
    omega
  obtain ⟨a, as, hpl⟩ := List.exists_cons_of_ne_nil hpne
  obtain ⟨lhs, rhs, rest, hsel, hperm⟩ :=
    select_first_pair_spec (abort_node o node_id) a (as ++ [extra])
      (abort_node o node_id).dimension (by exact hd) (by simp)
  have hrl : rest.length + 2 = o.max_records + 1 := by
    have hle := hperm.length_eq
    simp only [List.length_cons, List.length_append, List.length_singleton,
      List.length_nil] at hle
    have hl : (o.get_node node_id).payload.length = as.length + 1 := by
      rw [hpl]
      rfl
    omega
  have h1x : node_id.as_node_id < (abort_node o node_id).nodes.length := by
    show node_id.as_node_id < (o.nodes.set _ _).length
    simpa using hidx
  have hpayx : ((abort_node o node_id).get_node node_id).payload
      = ([] : List RecordId) := by
    show ((o.nodes.set node_id.as_node_id _).getD node_id.as_node_id default).payload = []
    rw [getD_set_node, if_pos ⟨rfl, hidx⟩]
  obtain ⟨k1, k2, k3, k4⟩ :=
    split_core_spec (abort_node o node_id) node_id lhs rhs rest h1x hpayx
      (show o.min_records ≤ rest.length + 1 by omega)
      (show 2 * o.min_records ≤ rest.length + 2 by omega)
  have k2' : o.min_records ≤ _ := k2
  have k3' : o.min_records ≤ _ := k3
  unfold split_node
  dsimp only
  rw [hpl]
  simp only [List.cons_append]
  rw [hsel]
  dsimp only
  exact ⟨k1.trans (Multiset.coe_eq_coe.mpr hperm), k2', by omega, k3', by omega⟩

/-- Concrete 1-D state for the C2 witness: one full node with three data
children, a fourth data record pending. -/
def c2_state : ObjSpace :=
  { nodes := [⟨RecordId.root, ⟨[⟨0, 7⟩]⟩, [RecordId.data 0, RecordId.data 1, RecordId.data 2]⟩],
    data_nodes := ⟨[⟨RecordId.internal 0, ⟨[⟨0, 1⟩]⟩, 0⟩, ⟨RecordId.internal 0, ⟨[⟨2, 3⟩]⟩, 1⟩,
      ⟨RecordId.internal 0, ⟨[⟨6, 7⟩]⟩, 2⟩, ⟨RecordId.root, ⟨[⟨4, 5⟩]⟩, 3⟩], []⟩,
    dimension := 1, min_records := 2, max_records := 3,
    root_id := RecordId.internal 0 }

theorem claim_C2_witness :
    params_ok c2_state.dimension c2_state.min_records c2_state.max_records = true ∧
    (RecordId.internal 0).as_node_id < c2_state.nodes.length ∧
    (c2_state.get_node (RecordId.internal 0)).payload.length = c2_state.max_records ∧
    (((((split_node c2_state (RecordId.internal 0) (RecordId.data 3)).1.get_node
          (RecordId.internal 0)).payload : Multiset RecordId)
        + (((split_node c2_state (RecordId.internal 0) (RecordId.data 3)).1.get_node
            (split_node c2_state (RecordId.internal 0) (RecordId.data 3)).2).payload
          : Multiset RecordId)
      = (((c2_state.get_node (RecordId.internal 0)).payload ++ [RecordId.data 3]
          : List RecordId) : Multiset RecordId)) ∧
    c2_state.min_records ≤ ((split_node c2_state (RecordId.internal 0)
        (RecordId.data 3)).1.get_node (RecordId.internal 0)).payload.length ∧
    ((split_node c2_state (RecordId.internal 0) (RecordId.data 3)).1.get_node
        (RecordId.internal 0)).payload.length ≤ c2_state.max_records ∧
    c2_state.min_records ≤ ((split_node c2_state (RecordId.internal 0)
        (RecordId.data 3)).1.get_node
        (split_node c2_state (RecordId.internal 0) (RecordId.data 3)).2).payload.length ∧
    ((split_node c2_state (RecordId.internal 0) (RecordId.data 3)).1.get_node
        (split_node c2_state (RecordId.internal 0) (RecordId.data 3)).2).payload.length
      ≤ c2_state.max_records) :=
  ⟨by decide, by decide, by decide,
    claim_C2_split_node_partition c2_state (RecordId.internal 0) (RecordId.data 3)
      (by decide) (by decide) (by decide)⟩

/-! Machinery for the rebuild claim (C4): containment algebra of
`common_mbr` over equal-dimension well-formed MBRs. -/

theorem common_undefined_id (m : MBR) (d : Nat) (hd : 0 < d) (hm : m.wfDim d = true) :
    common_mbr m MBR.undefined = m ∧ common_mbr MBR.undefined m = m := by
  obtain ⟨l⟩ := m
  simp only [MBR.wfDim, Bool.and_eq_true, decide_eq_true_eq, List.all_eq_true] at hm
  obtain ⟨hlen, hwf⟩ := hm
  have hne : l ≠ [] := by
    intro h
    rw [h] at hlen
    simp at hlen
    omega
  match l, hne with
  | b0 :: rest, _ =>
    obtain ⟨c, hc, hcond⟩ := extend_bounds_nil_spec b0 rest
    have hmerge_r : merge_bounds (b0 :: rest) (extend_bounds [] (b0 :: rest)) = b0 :: rest := by
      rw [hc]
      exact merge_replicate_right _ c _ (le_refl _)
        (fun b hb => hcond b hb (hwf b hb))
    have hmerge_l : merge_bounds (extend_bounds [] (b0 :: rest)) (b0 :: rest) = b0 :: rest := by
      rw [hc]
      exact merge_replicate_left _ c _ (le_refl _)
        (fun b hb => hcond b hb (hwf b hb))
    refine ⟨?_, ?_⟩
    · show common_mbr ⟨b0 :: rest⟩ ⟨[]⟩ = ⟨b0 :: rest⟩
      rw [common_mbr]
      rw [if_neg (by simp [MBR.dimension]), if_neg (by simp [MBR.dimension])]
      exact congrArg MBR.mk hmerge_r
    · show common_mbr ⟨[]⟩ ⟨b0 :: rest⟩ = ⟨b0 :: rest⟩
      rw [common_mbr]
      rw [if_neg (by simp [MBR.dimension]), if_pos (by simp [MBR.dimension])]
      exact congrArg MBR.mk hmerge_l

theorem mem_zip_self (l : List Bounds) : ∀ p ∈ l.zip l, p.1 = p.2 := by
  induction l with
  | nil => intro p hp; cases hp
  | cons x xs ih =>
    intro p hp
    rcases List.mem_cons.mp hp with rfl | hp
    · rfl
    · exact ih p hp

theorem mbr_contains_refl (m : MBR) : mbr_contains m m = true := by
  simp only [mbr_contains, Bool.and_eq_true, decide_eq_true_eq, List.all_eq_true]
  refine ⟨trivial, ?_⟩
  intro p hp
  rw [mem_zip_self m.bounds p hp]
  simp

theorem merge_bounds_wf (xs ys : List Bounds) (hlen : xs.length = ys.length)
    (hx : ∀ b ∈ xs, b.wf = true) :
    ∀ b ∈ merge_bounds xs ys, b.wf = true := by
  induction xs generalizing ys with
  | nil => intro b hb; cases hb
  | cons x xs ih =>
    cases ys with
    | nil => simp at hlen
    | cons y ys =>
      intro b hb
      simp only [merge_bounds, List.zip_cons_cons, List.map_cons] at hb
      rcases List.mem_cons.mp hb with rfl | hb
      · have hxwf : x.min ≤ x.max := by
          have := hx x (List.mem_cons_self _ _)
          simpa [Bounds.wf] using this
        simp only [Bounds.wf, decide_eq_true_eq]
        split <;> split <;> omega
      · exact ih ys (by simpa using hlen) (fun u hu => hx u (List.mem_cons_of_mem _ hu)) b hb

theorem merge_zip_upper (xs ys : List Bounds) (hlen : xs.length = ys.length) :
    (∀ p ∈ (merge_bounds xs ys).zip xs, p.1.min ≤ p.2.min ∧ p.2.max ≤ p.1.max) ∧
    (∀ p ∈ (merge_bounds xs ys).zip ys, p.1.min ≤ p.2.min ∧ p.2.max ≤ p.1.max) := by
  induction xs generalizing ys with
  | nil =>
    exact ⟨(fun p hp => by simp [merge_bounds] at hp),
      (fun p hp => by simp [merge_bounds] at hp)⟩
  | cons x xs ih =>
    cases ys with
    | nil => simp at hlen
    | cons y ys =>
      obtain ⟨ih1, ih2⟩ := ih ys (by simpa using hlen)
      constructor
      · intro p hp
        simp only [merge_bounds, List.zip_cons_cons, List.map_cons] at hp
        rcases List.mem_cons.mp hp with rfl | hp
        · dsimp only
          constructor <;> split <;> omega
        · exact ih1 p hp
      · intro p hp
        simp only [merge_bounds, List.zip_cons_cons, List.map_cons] at hp
        rcases List.mem_cons.mp hp with rfl | hp
        · dsimp only
          constructor <;> split <;> omega
        · exact ih2 p hp

theorem zip_all_merge (ps xs ys : List Bounds)
    (hP : ∀ p ∈ ps.zip xs, p.1.min ≤ p.2.min ∧ p.2.max ≤ p.1.max)
    (hQ : ∀ p ∈ ps.zip ys, p.1.min ≤ p.2.min ∧ p.2.max ≤ p.1.max) :
    ∀ p ∈ ps.zip (merge_bounds xs ys), p.1.min ≤ p.2.min ∧ p.2.max ≤ p.1.max := by
  induction ps generalizing xs ys with
  | nil => intro p hp; cases hp
  | cons a ps ih =>
    cases xs with
    | nil => intro p hp; simp [merge_bounds] at hp
    | cons x xs =>
      cases ys with
      | nil => intro p hp; simp [merge_bounds] at hp
      | cons y ys =>
        intro p hp
        simp only [merge_bounds, List.zip_cons_cons, List.map_cons] at hp
        rcases List.mem_cons.mp hp with rfl | hp
        · have h1 := hP (a, x) (by simp [List.zip_cons_cons])
          have h2 := hQ (a, y) (by simp [List.zip_cons_cons])
          dsimp only at h1 h2 ⊢
          constructor <;> split <;> omega
        · exact ih xs ys
            (fun q hq => hP q (by simp only [List.zip_cons_cons]; right; exact hq))
            (fun q hq => hQ q (by simp only [List.zip_cons_cons]; right; exact hq)) p hp

theorem common_mbr_eq_merge (a b : MBR) (d : Nat) (ha : a.wfDim d = true)
    (hb : b.wfDim d = true) :
    common_mbr a b = ⟨merge_bounds a.bounds b.bounds⟩ := by
  simp only [MBR.wfDim, Bool.and_eq_true, decide_eq_true_eq] at ha hb
  rw [common_mbr, if_pos]
  show a.bounds.length = b.bounds.length
  omega

theorem common_mbr_wfDim (a b : MBR) (d : Nat) (ha : a.wfDim d = true)
    (hb : b.wfDim d = true) : (common_mbr a b).wfDim d = true := by
  rw [common_mbr_eq_merge a b d ha hb]
  have ha' := ha
  have hb' := hb
  simp only [MBR.wfDim, Bool.and_eq_true, decide_eq_true_eq, List.all_eq_true] at ha' hb' ⊢
  refine ⟨by rw [merge_bounds_length, ha'.1, hb'.1]; simp [Nat.min_def], ?_⟩
  exact merge_bounds_wf a.bounds b.bounds (by omega) ha'.2

theorem common_mbr_contains (a b : MBR) (d : Nat) (ha : a.wfDim d = true)
    (hb : b.wfDim d = true) :
    mbr_contains (common_mbr a b) a = true ∧ mbr_contains (common_mbr a b) b = true := by
  have hlen : a.bounds.length = b.bounds.length := by
    simp only [MBR.wfDim, Bool.and_eq_true, decide_eq_true_eq] at ha hb
    omega
  rw [common_mbr_eq_merge a b d ha hb]
  obtain ⟨h1, h2⟩ := merge_zip_upper a.bounds b.bounds hlen
  constructor
  · simp only [mbr_contains, Bool.and_eq_true, decide_eq_true_eq, List.all_eq_true,
      MBR.dimension]
    exact ⟨by rw [merge_bounds_length, hlen]; simp [Nat.min_def], h1⟩
  · simp only [mbr_contains, Bool.and_eq_true, decide_eq_true_eq, List.all_eq_true,
      MBR.dimension]
    exact ⟨by rw [merge_bounds_length, hlen]; simp [Nat.min_def], h2⟩

theorem mbr_contains_common (P a b : MBR) (d : Nat) (ha : a.wfDim d = true)
    (hb : b.wfDim d = true) (hPa : mbr_contains P a = true)
    (hPb : mbr_contains P b = true) :
    mbr_contains P (common_mbr a b) = true := by
  rw [common_mbr_eq_merge a b d ha hb]
  simp only [mbr_contains, Bool.and_eq_true, decide_eq_true_eq, List.all_eq_true,
    MBR.dimension] at hPa hPb ⊢
  have hlen : a.bounds.length = b.bounds.length := by
    simp only [MBR.wfDim, Bool.and_eq_true, decide_eq_true_eq] at ha hb
    omega
  refine ⟨by rw [merge_bounds_length, hlen]; simp [Nat.min_def]; omega, ?_⟩
  exact zip_all_merge P.bounds a.bounds b.bounds hPa.2 hPb.2

/-- Coverage of a set of record ids by an MBR (all member MBRs
contained). -/
def covers (o : ObjSpace) (P : MBR) (l : List RecordId) : Prop :=
  ∀ id ∈ l, mbr_contains P (o.get_mbr id) = true

/-- The invariant of the group MBRs accumulated by
`split_into_2_groups`: undefined exactly for the empty member list,
otherwise a well-formed cover of the members that is below every
well-formed cover of the members. -/
def groupMbrOk (o : ObjSpace) (d : Nat) (m : MBR) (l : List RecordId) : Prop :=
  (l = [] → m = MBR.undefined) ∧
  (l ≠ [] → m.wfDim d = true ∧ covers o m l) ∧
  (∀ P : MBR, P.wfDim d = true → covers o P l → l ≠ [] → mbr_contains P m = true)

theorem groupMbrOk_nil (o : ObjSpace) (d : Nat) : groupMbrOk o d MBR.undefined [] :=
  ⟨fun _ => rfl, fun h => absurd rfl h, fun _ _ _ h => absurd rfl h⟩

theorem groupMbrOk_congr (o : ObjSpace) (d : Nat) (m : MBR) (l l' : List RecordId)
    (h : groupMbrOk o d m l) (hmem : ∀ x, x ∈ l ↔ x ∈ l')
    (hnil : l = [] ↔ l' = []) : groupMbrOk o d m l' := by
  obtain ⟨h1, h2, h3⟩ := h
  refine ⟨fun he => h1 (hnil.mpr he), fun hne => ?_, fun P hP hc hne => ?_⟩
  · obtain ⟨hw, hc⟩ := h2 (fun he => hne (hnil.mp he))
    exact ⟨hw, fun id hid => hc id ((hmem id).mpr hid)⟩
  · exact h3 P hP (fun id hid => hc id ((hmem id).mp hid)) (fun he => hne (hnil.mp he))

theorem groupMbrOk_single (o : ObjSpace) (d : Nat) (x : RecordId)
    (hx : (o.get_mbr x).wfDim d = true) : groupMbrOk o d (o.get_mbr x) [x] := by
  refine ⟨(fun he => by simp at he), fun hne => ⟨hx, ?_⟩, fun P hP hc hne => ?_⟩
  · intro id hid
    rcases List.mem_singleton.mp hid with rfl
    exact mbr_contains_refl _
  · exact hc x (List.mem_singleton_self x)

theorem common_undefined_undefined : common_mbr MBR.undefined MBR.undefined = MBR.undefined := by
  rfl

theorem groupMbrOk_union (o : ObjSpace) (d : Nat) (hd : 0 < d) (A B : MBR)
    (la lb : List RecordId) (h1 : groupMbrOk o d A la) (h2 : groupMbrOk o d B lb) :
    groupMbrOk o d (common_mbr A B) (la ++ lb) := by
  obtain ⟨a1, a2, a3⟩ := h1
  obtain ⟨b1, b2, b3⟩ := h2
  by_cases hla : la = []
  · subst hla
    rw [a1 rfl]
    by_cases hlb : lb = []
    · subst hlb
      rw [b1 rfl, common_undefined_undefined]
      exact groupMbrOk_nil o d
    · obtain ⟨hw, hc⟩ := b2 hlb
      rw [(common_undefined_id B d hd hw).2]
      exact ⟨b1, b2, b3⟩
  · by_cases hlb : lb = []
    · subst hlb
      rw [b1 rfl]
      obtain ⟨hw, hc⟩ := a2 hla
      rw [(common_undefined_id A d hd hw).1, List.append_nil]
      exact ⟨a1, a2, a3⟩
    · obtain ⟨haw, hac⟩ := a2 hla
      obtain ⟨hbw, hbc⟩ := b2 hlb
      obtain ⟨hca, hcb⟩ := common_mbr_contains A B d haw hbw
      refine ⟨fun he => (by simp [hla] at he), fun hne => ?_, fun P hP hc hne => ?_⟩
      · refine ⟨common_mbr_wfDim A B d haw hbw, ?_⟩
        intro id hid
        rcases List.mem_append.mp hid with hid | hid
        · exact mbr_contains_trans _ _ _ hca (hac id hid)
        · exact mbr_contains_trans _ _ _ hcb (hbc id hid)
      · refine mbr_contains_common P A B d haw hbw ?_ ?_
        · exact a3 P hP (fun id hid => hc id (List.mem_append_left _ hid)) hla
        · exact b3 P hP (fun id hid => hc id (List.mem_append_right _ hid)) hlb

theorem groupMbrOk_snoc (o : ObjSpace) (d : Nat) (hd : 0 < d) (m : MBR)
    (l : List RecordId) (x : RecordId) (h : groupMbrOk o d m l)
    (hx : (o.get_mbr x).wfDim d = true) :
    groupMbrOk o d (common_mbr m (o.get_mbr x)) (l ++ [x]) :=
  groupMbrOk_union o d hd m (o.get_mbr x) l [x] h (groupMbrOk_single o d x hx)

theorem fold_common_snoc (xs : List MBR) (m : MBR) :
    common_mbr_from_iter (xs ++ [m]) = common_mbr (common_mbr_from_iter xs) m := by
  simp [common_mbr_from_iter, List.foldl_append]

theorem groupMbrOk_base (o : ObjSpace) (d : Nat) (hd : 0 < d) (l : List RecordId)
    (hall : ∀ id ∈ l, (o.get_mbr id).wfDim d = true) :
    groupMbrOk o d (common_mbr_from_iter (l.map o.get_mbr)) l := by
  induction l using List.reverseRecOn with
  | nil => exact groupMbrOk_nil o d
  | append_singleton l x ih =>
    rw [List.map_append, List.map_singleton, fold_common_snoc]
    exact groupMbrOk_snoc o d hd _ l x
      (ih (fun id hid => hall id (List.mem_append_left _ hid)))
      (hall x (List.mem_append_right _ (List.mem_singleton_self x)))

theorem groupMbrOk_extend_list (o : ObjSpace) (d : Nat) (hd : 0 < d) (m : MBR)
    (l seg : List RecordId) (h : groupMbrOk o d m l)
    (hall : ∀ id ∈ seg, (o.get_mbr id).wfDim d = true) :
    groupMbrOk o d (common_mbr_from_iter (seg.map o.get_mbr ++ [m])) (l ++ seg) := by
  rw [fold_common_snoc]
  refine groupMbrOk_congr o d _ (seg ++ l) (l ++ seg)
    (groupMbrOk_union o d hd _ m seg l (groupMbrOk_base o d hd seg hall) h) ?_ ?_
  · intro x
    constructor
    · intro hx
      rcases List.mem_append.mp hx with hx | hx
      · exact List.mem_append_right _ hx
      · exact List.mem_append_left _ hx
    · intro hx
      rcases List.mem_append.mp hx with hx | hx
      · exact List.mem_append_right _ hx
      · exact List.mem_append_left _ hx
  · constructor
    · intro hx
      simp at hx
      simp [hx]
    · intro hx
      simp at hx
      simp [hx]

/-- All internal-arena ids in the subtree have index in `[lo, hi)` (data
children are exempt); used to localize the nodes a rebuild step may touch. -/
def nodes_range (o : ObjSpace) (lo hi : Nat) : Nat → RecordId → Bool
  | 0, _ => false
  | fuel+1, rid =>
    match rid with
    | .data _ => true
    | _ =>
      decide (lo ≤ rid.as_node_id) && decide (rid.as_node_id < hi) &&
      (o.get_node rid).payload.all fun c =>
        match c with
        | .data _ => true
        | _ => nodes_range o lo hi fuel c

theorem wf_node_mono (o : ObjSpace) :
    ∀ (fuel : Nat) (rid : RecordId), wf_node o fuel rid = true →
      wf_node o (fuel + 1) rid = true := by
  intro fuel
  induction fuel with
  | zero => intro rid h; simp [wf_node] at h
  | succ fuel ih =>
    intro rid h
    match rid with
    | .root => simp [wf_node] at h
    | .data i => simp [wf_node] at h
    | .leaf i => exact h
    | .internal i =>
      simp only [wf_node, Bool.and_eq_true, List.all_eq_true] at h ⊢
      refine ⟨h.1, ?_⟩
      intro c hc
      have := h.2 c hc
      simp only [Bool.and_eq_true] at this ⊢
      exact ⟨this.1, ih c this.2⟩

theorem wf_node_le (o : ObjSpace) (f1 f2 : Nat) (h : f1 ≤ f2) (rid : RecordId)
    (hw : wf_node o f1 rid = true) : wf_node o f2 rid = true := by
  induction f2 with
  | zero =>
    have : f1 = 0 := by omega
    subst this
    exact hw
  | succ f2 ih =>
    by_cases he : f1 = f2 + 1
    · subst he
      exact hw
    · exact wf_node_mono o f2 _ (ih (by omega))

theorem collect_data_fuel_succ (o : ObjSpace) :
    ∀ (fuel : Nat) (rid : RecordId), wf_node o fuel rid = true →
      collect_data o (fuel + 1) rid = collect_data o fuel rid := by
  intro fuel
  induction fuel with
  | zero => intro rid h; simp [wf_node] at h
  | succ fuel ih =>
    intro rid h
    match rid with
    | .root => simp [wf_node] at h
    | .data i => simp [wf_node] at h
    | .leaf i => rfl
    | .internal i =>
      simp only [wf_node, Bool.and_eq_true, List.all_eq_true] at h
      show (o.get_node (RecordId.internal i)).payload.flatMap
          (fun c => collect_data o (fuel + 1) c)
        = (o.get_node (RecordId.internal i)).payload.flatMap
          (fun c => collect_data o fuel c)
      refine List.flatMap_congr ?_
      intro c hc
      have := h.2 c hc
      simp only [Bool.and_eq_true] at this
      exact ih c this.2

theorem collect_data_fuel_le (o : ObjSpace) (f1 f2 : Nat) (h : f1 ≤ f2)
    (rid : RecordId) (hw : wf_node o f1 rid = true) :
    collect_data o f2 rid = collect_data o f1 rid := by
  induction f2 with
  | zero =>
    have : f1 = 0 := by omega
    subst this
    rfl
  | succ f2 ih =>
    by_cases he : f1 = f2 + 1
    · subst he
      rfl
    · rw [collect_data_fuel_succ o f2 rid (wf_node_le o f1 f2 (by omega) rid hw),
        ih (by omega)]

theorem nodes_range_stable (o o' : ObjSpace) (lo hi : Nat)
    (hag : ∀ q : RecordId, lo ≤ q.as_node_id → q.as_node_id < hi →
      o'.get_node q = o.get_node q) :
    ∀ (fuel : Nat) (rid : RecordId), nodes_range o lo hi fuel rid = true →
      nodes_range o' lo hi fuel rid = true := by
  intro fuel
  induction fuel with
  | zero => intro rid h; simp [nodes_range] at h
  | succ fuel ih =>
    intro rid h
    match rid with
    | .data i => rfl
    | .root =>
      simp only [nodes_range, Bool.and_eq_true, List.all_eq_true, decide_eq_true_eq] at h ⊢
      rw [hag RecordId.root h.1.1 h.1.2]
      refine ⟨h.1, ?_⟩
      intro c hc
      have hcc := h.2 c hc
      cases c with
      | data j => rfl
      | root => exact ih _ hcc
      | internal j => exact ih _ hcc
      | leaf j => exact ih _ hcc
    | .internal i =>
      simp only [nodes_range, Bool.and_eq_true, List.all_eq_true, decide_eq_true_eq] at h ⊢
      rw [hag (RecordId.internal i) h.1.1 h.1.2]
      refine ⟨h.1, ?_⟩
      intro c hc
      have hcc := h.2 c hc
      cases c with
      | data j => rfl
      | root => exact ih _ hcc
      | internal j => exact ih _ hcc
      | leaf j => exact ih _ hcc
    | .leaf i =>
      simp only [nodes_range, Bool.and_eq_true, List.all_eq_true, decide_eq_true_eq] at h ⊢
      rw [hag (RecordId.leaf i) h.1.1 h.1.2]
      refine ⟨h.1, ?_⟩
      intro c hc
      have hcc := h.2 c hc
      cases c with
      | data j => rfl
      | root => exact ih _ hcc
      | internal j => exact ih _ hcc
      | leaf j => exact ih _ hcc

theorem nodes_range_bounds (o : ObjSpace) (lo hi fuel : Nat) (rid : RecordId)
    (h : nodes_range o lo hi fuel rid = true) (i : Nat)
    (hne : rid = RecordId.internal i ∨ rid = RecordId.leaf i) :
    lo ≤ rid.as_node_id ∧ rid.as_node_id < hi := by
  cases fuel with
  | zero => simp [nodes_range] at h
  | succ fuel =>
    rcases hne with rfl | rfl <;>
      · simp only [nodes_range, Bool.and_eq_true, decide_eq_true_eq] at h
        exact h.1

theorem collect_data_stable (o o' : ObjSpace) (lo hi : Nat)
    (hag : ∀ q : RecordId, lo ≤ q.as_node_id → q.as_node_id < hi →
      o'.get_node q = o.get_node q) :
    ∀ (fuel : Nat) (rid : RecordId), wf_node o fuel rid = true →
      nodes_range o lo hi fuel rid = true →
      collect_data o' fuel rid = collect_data o fuel rid := by
  intro fuel
  induction fuel with
  | zero => intro rid h _; simp [wf_node] at h
  | succ fuel ih =>
    intro rid h hr
    match rid with
    | .root => simp [wf_node] at h
    | .data i => simp [wf_node] at h
    | .leaf i =>
      simp only [nodes_range, Bool.and_eq_true, decide_eq_true_eq] at hr
      show (o'.get_node (RecordId.leaf i)).payload = (o.get_node (RecordId.leaf i)).payload
      rw [hag (RecordId.leaf i) hr.1.1 hr.1.2]
    | .internal i =>
      simp only [wf_node, Bool.and_eq_true, List.all_eq_true] at h
      simp only [nodes_range, Bool.and_eq_true, List.all_eq_true, decide_eq_true_eq] at hr
      show (o'.get_node (RecordId.internal i)).payload.flatMap
          (fun c => collect_data o' fuel c)
        = (o.get_node (RecordId.internal i)).payload.flatMap
          (fun c => collect_data o fuel c)
      rw [hag (RecordId.internal i) hr.1.1 hr.1.2]
      refine List.flatMap_congr ?_
      intro c hc
      have hcw := h.2 c hc
      have hcr := hr.2 c hc
      simp only [Bool.and_eq_true] at hcw
      cases c with
      | data j => simp at hcw
      | root => simp at hcw
      | internal j => exact ih _ hcw.2 hcr
      | leaf j => exact ih _ hcw.2 hcr

theorem wf_node_stable (o o' : ObjSpace) (lo hi : Nat)
    (hnl : o.nodes.length ≤ o'.nodes.length)
    (hdl : o'.data_nodes.items.length = o.data_nodes.items.length)
    (hdim : o'.dimension = o.dimension)
    (hdm : ∀ j : Nat, (o'.get_data j).mbr = (o.get_data j).mbr)
    (hag : ∀ q : RecordId, lo ≤ q.as_node_id → q.as_node_id < hi →
      o'.get_node q = o.get_node q) :
    ∀ (fuel : Nat) (rid : RecordId), wf_node o fuel rid = true →
      nodes_range o lo hi fuel rid = true →
      wf_node o' fuel rid = true := by
  intro fuel
  induction fuel with
  | zero => intro rid h _; simp [wf_node] at h
  | succ fuel ih =>
    intro rid h hr
    match rid with
    | .root => simp [wf_node] at h
    | .data i => simp [wf_node] at h
    | .leaf i =>
      simp only [wf_node, Bool.and_eq_true, List.all_eq_true, decide_eq_true_eq] at h ⊢
      simp only [nodes_range, Bool.and_eq_true, List.all_eq_true, decide_eq_true_eq] at hr
      have hnode : o'.get_node (RecordId.leaf i) = o.get_node (RecordId.leaf i) :=
        hag (RecordId.leaf i) hr.1.1 hr.1.2
      refine ⟨by omega, ?_⟩
      intro c hc
      rw [show (o'.get_node (RecordId.leaf i)).payload
        = (o.get_node (RecordId.leaf i)).payload by rw [hnode]] at hc
      have hcw := h.2 c hc
      cases c with
      | data j =>
        simp only [Bool.and_eq_true, decide_eq_true_eq] at hcw ⊢
        have hmbr : o'.get_mbr (RecordId.data j) = o.get_mbr (RecordId.data j) := hdm j
        have hmbr2 : o'.get_mbr (RecordId.leaf i) = o.get_mbr (RecordId.leaf i) := by
          show (o'.get_node (RecordId.leaf i)).mbr = (o.get_node (RecordId.leaf i)).mbr
          rw [hnode]
        rw [hmbr, hmbr2, hdl, hdim]
        exact hcw
      | root => exact hcw
      | internal j => exact hcw
      | leaf j => exact hcw
    | .internal i =>
      simp only [wf_node, Bool.and_eq_true, List.all_eq_true, decide_eq_true_eq] at h ⊢
      simp only [nodes_range, Bool.and_eq_true, List.all_eq_true, decide_eq_true_eq] at hr
      have hnode : o'.get_node (RecordId.internal i) = o.get_node (RecordId.internal i) :=
        hag (RecordId.internal i) hr.1.1 hr.1.2
      refine ⟨by omega, ?_⟩
      intro c hc
      rw [show (o'.get_node (RecordId.internal i)).payload
        = (o.get_node (RecordId.internal i)).payload by rw [hnode]] at hc
      have hcw := h.2 c hc
      have hcr := hr.2 c hc
      simp only [Bool.and_eq_true] at hcw ⊢
      have hmbr2 : o'.get_mbr (RecordId.internal i) = o.get_mbr (RecordId.internal i) := by
        show (o'.get_node (RecordId.internal i)).mbr = (o.get_node (RecordId.internal i)).mbr
        rw [hnode]
      cases c with
      | data j => simp at hcw
      | root => simp at hcw
      | internal j =>
        obtain ⟨⟨⟨hk, hwd⟩, hct⟩, hwn⟩ := hcw
        have hrange : nodes_range o lo hi fuel (RecordId.internal j) = true := hcr
        have hcnode : o'.get_node (RecordId.internal j) = o.get_node (RecordId.internal j) := by
          obtain ⟨hb1, hb2⟩ := nodes_range_bounds o lo hi fuel _ hrange j (Or.inl rfl)
          exact hag _ hb1 hb2
        have hcmbr : o'.get_mbr (RecordId.internal j) = o.get_mbr (RecordId.internal j) := by
          show (o'.get_node (RecordId.internal j)).mbr = (o.get_node (RecordId.internal j)).mbr
          rw [hcnode]
        refine ⟨⟨⟨hk, ?_⟩, ?_⟩, ih _ hwn hrange⟩
        · rw [hcmbr, hdim]
          exact hwd
        · rw [hcmbr, hmbr2]
          exact hct
      | leaf j =>
        obtain ⟨⟨⟨hk, hwd⟩, hct⟩, hwn⟩ := hcw
        have hrange : nodes_range o lo hi fuel (RecordId.leaf j) = true := hcr
        have hcnode : o'.get_node (RecordId.leaf j) = o.get_node (RecordId.leaf j) := by
          obtain ⟨hb1, hb2⟩ := nodes_range_bounds o lo hi fuel _ hrange j (Or.inr rfl)
          exact hag _ hb1 hb2
        have hcmbr : o'.get_mbr (RecordId.leaf j) = o.get_mbr (RecordId.leaf j) := by
          show (o'.get_node (RecordId.leaf j)).mbr = (o.get_node (RecordId.leaf j)).mbr
          rw [hcnode]
        refine ⟨⟨⟨hk, ?_⟩, ?_⟩, ih _ hwn hrange⟩
        · rw [hcmbr, hdim]
          exact hwd
        · rw [hcmbr, hmbr2]
          exact hct

theorem getD_set_data (l : List DataNode) (i j : Nat) (v : DataNode) :
    (l.set i v).getD j default = if i = j ∧ i < l.length then v else l.getD j default := by
  simp only [List.getD, List.get?_eq_getElem?]
  by_cases h : i = j
  · subst h
    by_cases hlt : i < l.length
    · rw [if_pos ⟨rfl, hlt⟩]
      simp [List.getElem?_set, hlt]
    · rw [if_neg (by tauto)]
      rw [List.getElem?_eq_none (by simp; omega), List.getElem?_eq_none (by omega)]
  · rw [if_neg (by tauto)]
    simp [List.getElem?_set, h]

/-- `set_parent_info` touches no MBR, no payload, no arena size: node
records keep payload and mbr (shown elsewhere), the data arena keeps
every slot's mbr, and both arena sizes are unchanged. -/
theorem set_parent_info_data_frame (o : ObjSpace) (c parent : RecordId) :
    (∀ j : Nat, ((o.set_parent_info c parent).get_data j).mbr = (o.get_data j).mbr) ∧
    (o.set_parent_info c parent).data_nodes.items.length = o.data_nodes.items.length ∧
    (o.set_parent_info c parent).data_nodes.freed = o.data_nodes.freed ∧
    (o.set_parent_info c parent).nodes.length = o.nodes.length ∧
    (o.set_parent_info c parent).dimension = o.dimension ∧
    (o.set_parent_info c parent).min_records = o.min_records ∧
    (o.set_parent_info c parent).max_records = o.max_records ∧
    (o.set_parent_info c parent).root_id = o.root_id := by
  match c with
  | .data i =>
    refine ⟨?_, by simp [ObjSpace.set_parent_info, ShrinkableStorage.set], rfl, rfl,
      rfl, rfl, rfl, rfl⟩
    intro j
    show ((o.data_nodes.items.set i _).getD j default).mbr = _
    rw [getD_set_data]
    split
    · rename_i h
      obtain ⟨h1, -⟩ := h
      subst h1
      rfl
    · rfl
  | .root => exact ⟨fun j => rfl, rfl, rfl, by simp [ObjSpace.set_parent_info], rfl, rfl, rfl, rfl⟩
  | .internal i =>
    exact ⟨fun j => rfl, rfl, rfl, by simp [ObjSpace.set_parent_info], rfl, rfl, rfl, rfl⟩
  | .leaf i =>
    exact ⟨fun j => rfl, rfl, rfl, by simp [ObjSpace.set_parent_info], rfl, rfl, rfl, rfl⟩

/-- Nodes other than the parent are untouched by `set_parent_info` on a
non-data child. -/
theorem set_parent_info_get_node_other (o : ObjSpace) (c parent q : RecordId)
    (h : q.as_node_id ≠ c.as_node_id) :
    (o.set_parent_info c parent).get_node q = o.get_node q := by
  match c with
  | .data i => rfl
  | .root =>
    show (o.nodes.set _ _).getD q.as_node_id default = _
    rw [getD_set_node, if_neg (by tauto)]
    rfl
  | .internal i =>
    show (o.nodes.set _ _).getD q.as_node_id default = _
    rw [getD_set_node, if_neg (by tauto)]
    rfl
  | .leaf i =>
    show (o.nodes.set _ _).getD q.as_node_id default = _
    rw [getD_set_node, if_neg (by tauto)]
    rfl

theorem make_node_with_mbr_frame (o : ObjSpace) (k : RecordIdKind) (mbr : MBR) :
    (o.make_node_with_mbr k mbr).2.as_node_id = o.nodes.length ∧
    (o.make_node_with_mbr k mbr).1.nodes.length = o.nodes.length + 1 ∧
    (o.make_node_with_mbr k mbr).1.data_nodes = o.data_nodes ∧
    (o.make_node_with_mbr k mbr).1.dimension = o.dimension ∧
    (o.make_node_with_mbr k mbr).1.min_records = o.min_records ∧
    (o.make_node_with_mbr k mbr).1.max_records = o.max_records ∧
    (o.make_node_with_mbr k mbr).1.root_id = o.root_id ∧
    (o.make_node_with_mbr k mbr).1.get_node (o.make_node_with_mbr k mbr).2
      = ⟨RecordId.root, mbr, []⟩ ∧
    (∀ q : RecordId, q.as_node_id < o.nodes.length →
      (o.make_node_with_mbr k mbr).1.get_node q = o.get_node q) := by
  refine ⟨from_node_id_as _ _, by simp [ObjSpace.make_node_with_mbr], rfl, rfl, rfl, rfl,
    rfl, ?_, ?_⟩
  · show (o.nodes ++ [(⟨RecordId.root, mbr, []⟩ : InternalNode)]).getD
        (RecordId.from_node_id o.nodes.length k).as_node_id default = _
    rw [from_node_id_as]
    rw [List.getD_append_right o.nodes _ default o.nodes.length le_rfl]
    simp
  · intro q hq
    show (o.nodes ++ [(⟨RecordId.root, mbr, []⟩ : InternalNode)]).getD q.as_node_id default
      = o.nodes.getD q.as_node_id default
    exact List.getD_append o.nodes _ default q.as_node_id hq

theorem add_child_raw_frame (o : ObjSpace) (id c : RecordId) :
    (o.add_child_raw id c).nodes.length = o.nodes.length ∧
    (o.add_child_raw id c).data_nodes = o.data_nodes ∧
    (o.add_child_raw id c).dimension = o.dimension ∧
    (o.add_child_raw id c).min_records = o.min_records ∧
    (o.add_child_raw id c).max_records = o.max_records ∧
    (o.add_child_raw id c).root_id = o.root_id ∧
    (∀ q : RecordId, q.as_node_id ≠ id.as_node_id →
      (o.add_child_raw id c).get_node q = o.get_node q) ∧
    (id.as_node_id < o.nodes.length →
      (o.add_child_raw id c).get_node id
        = { o.get_node id with payload := (o.get_node id).payload ++ [c] }) := by
  refine ⟨by simp [ObjSpace.add_child_raw], rfl, rfl, rfl, rfl, rfl, ?_, ?_⟩
  · intro q hq
    show (o.nodes.set _ _).getD q.as_node_id default = _
    rw [getD_set_node, if_neg (by tauto)]
    rfl
  · intro hid
    show (o.nodes.set _ _).getD id.as_node_id default = _
    rw [getD_set_node, if_pos ⟨rfl, hid⟩]

theorem set_mbr_frame (o : ObjSpace) (id : RecordId) (m : MBR) (i : Nat)
    (hid : id = RecordId.internal i ∨ id = RecordId.leaf i ∨ id = RecordId.root) :
    (o.set_mbr id m).nodes.length = o.nodes.length ∧
    (o.set_mbr id m).data_nodes = o.data_nodes ∧
    (o.set_mbr id m).dimension = o.dimension ∧
    (o.set_mbr id m).min_records = o.min_records ∧
    (o.set_mbr id m).max_records = o.max_records ∧
    (o.set_mbr id m).root_id = o.root_id ∧
    (∀ q : RecordId, q.as_node_id ≠ id.as_node_id →
      (o.set_mbr id m).get_node q = o.get_node q) ∧
    (id.as_node_id < o.nodes.length →
      (o.set_mbr id m).get_node id = { o.get_node id with mbr := m }) ∧
    (∀ q : RecordId, ((o.set_mbr id m).get_node q).payload = (o.get_node q).payload) := by
  have hstep : ∀ q : RecordId, q.as_node_id ≠ id.as_node_id →
      (o.set_mbr id m).get_node q = o.get_node q := by
    intro q hq
    rcases hid with rfl | rfl | rfl <;>
      · show (o.nodes.set _ _).getD q.as_node_id default = _
        rw [getD_set_node, if_neg (by tauto)]
        rfl
  have hself : id.as_node_id < o.nodes.length →
      (o.set_mbr id m).get_node id = { o.get_node id with mbr := m } := by
    intro hlt
    rcases hid with rfl | rfl | rfl <;>
      · show (o.nodes.set _ _).getD _ default = _
        rw [getD_set_node, if_pos ⟨rfl, hlt⟩]
  refine ⟨?_, ?_, ?_, ?_, ?_, ?_, hstep, hself, ?_⟩
  · rcases hid with rfl | rfl | rfl <;> simp [ObjSpace.set_mbr]
  · rcases hid with rfl | rfl | rfl <;> rfl
  · rcases hid with rfl | rfl | rfl <;> rfl
  · rcases hid with rfl | rfl | rfl <;> rfl
  · rcases hid with rfl | rfl | rfl <;> rfl
  · rcases hid with rfl | rfl | rfl <;> rfl
  · intro q
    by_cases hq : q.as_node_id = id.as_node_id
    · by_cases hlt : id.as_node_id < o.nodes.length
      · rcases hid with rfl | rfl | rfl <;>
          · show ((o.nodes.set _ _).getD q.as_node_id default).payload = _
            rw [show q.as_node_id = _ from hq, getD_set_node, if_pos ⟨rfl, hlt⟩]
            show (o.get_node _).payload = _
            unfold ObjSpace.get_node
            rw [← hq]
      · rcases hid with rfl | rfl | rfl <;>
          · show ((o.nodes.set _ _).getD q.as_node_id default).payload = _
            rw [getD_set_node, if_neg (by tauto)]
            rfl
    · rw [hstep q hq]

/-! The `rebuild` path (`LRTree::rebuild`, `build_node`, `split_groups`,
`split_into_2_groups`, `find_sort_axis_index`).  The float-valued choices
of the source (the `alpha` quantiles cast through `f32`, the
`node_child_num` root `powf`/`ceil`, and the sort by `f32` axis
midpoints after `find_sort_axis_index`) are passed in as ghost data: a
`BuildGhost` fixes one value for every such choice, and the claims
quantify over all ghosts whose sort is a permutation and whose quantiles
stay within the slice (which holds for every `alpha` in `[0, 0.5]`).
The `usize` underflow of `right_part_idx -= 1` and the fuel of the
distribution loop surface as `none`. -/

/-- `<slice>.swap i j`. -/
def list_swap (l : List RecordId) (i j : Nat) : List RecordId :=
  (l.set i (l.getD j RecordId.root)).set j (l.getD i RecordId.root)

/-- Ghost data for the float-dependent choices of the rebuild. -/
structure BuildGhost where
  ncf : Nat → Nat → Nat
  sorter : List RecordId → List RecordId
  quantf : Nat → Nat × Nat

/-- The distribution loop of `split_into_2_groups` (state: the mutated
slice, `left_part_idx`, `right_part_idx`, the group lengths, the group
MBRs).  Fueled; `none` is the `usize` underflow of `right_part_idx -= 1`
(or fuel exhaustion, which a sufficient fuel avoids). -/
def split2_loop (o : ObjSpace) (fgc sgc minr maxr : Nat) :
    Nat → List RecordId → Nat → Nat → Nat → Nat → MBR → MBR →
    Option ((List RecordId × MBR) × (List RecordId × MBR))
  | 0, _, _, _, _, _, _, _ => none
  | fuel+1, ids, left, right, fg, sg, fmbr, smbr =>
    if right < left then
      some ((ids.take left, fmbr), (ids.drop left, smbr))
    else if fg < fgc * minr then
      let fmbr2 := common_mbr_from_iter
        (((ids.drop left).take (right + 1 - left)).map o.get_mbr ++ [fmbr])
      some ((ids.take (right + 1), fmbr2), (ids.drop (right + 1), smbr))
    else if sg < sgc * minr then
      let smbr2 := common_mbr_from_iter
        (((ids.drop left).take (right + 1 - left)).map o.get_mbr ++ [smbr])
      some ((ids.take left, fmbr), (ids.drop left, smbr2))
    else if fg > fgc * maxr then
      let smbr2 := common_mbr_from_iter
        (((ids.drop left).take (right + 1 - left)).map o.get_mbr ++ [smbr])
      some ((ids.take left, fmbr), (ids.drop left, smbr2))
    else if sg > sgc * maxr then
      let fmbr2 := common_mbr_from_iter
        (((ids.drop left).take (right + 1 - left)).map o.get_mbr ++ [fmbr])
      some ((ids.take (right + 1), fmbr2), (ids.drop (right + 1), smbr))
    else
      let obj_mbr := o.get_mbr (ids.getD left RecordId.root)
      let common_first_mbr := common_mbr fmbr obj_mbr
      let common_second_mbr := common_mbr smbr obj_mbr
      let first_delta := common_first_mbr.volume - fmbr.volume
      let second_delta := common_second_mbr.volume - smbr.volume
      if first_delta ≥ second_delta then
        match right with
        | 0 => none
        | right2+1 =>
          split2_loop o fgc sgc minr maxr fuel (list_swap ids left (right2 + 1)) left
            right2 fg (sg + 1) fmbr common_second_mbr
      else
        split2_loop o fgc sgc minr maxr fuel ids (left + 1) right (fg + 1) sg
          common_first_mbr smbr

/-- Source `LRTree::split_into_2_groups` with the sort and the quantiles
supplied by the ghost. -/
def split_into_2_groups (o : ObjSpace) (g : BuildGhost) (fgc sgc level : Nat)
    (ids : List RecordId) : Option ((List RecordId × MBR) × (List RecordId × MBR)) :=
  let minr := o.min_records ^ level
  let maxr := o.max_records ^ level
  let sorted := g.sorter ids
  let n := sorted.length
  let fq := (g.quantf n).1
  let sq := (g.quantf n).2
  let right := n - sq - 1
  let fmbr := common_mbr_from_iter ((sorted.take fq).map o.get_mbr)
  let smbr := common_mbr_from_iter ((sorted.drop (right + 1)).map o.get_mbr)
  split2_loop o fgc sgc minr maxr (n + 2) sorted fq right fq sq fmbr smbr

/-- Source `LRTree::split_groups`: split into two groups, recurse on a
group while its coefficient exceeds one, drop groups with an undefined
MBR. -/
def split_groups (o : ObjSpace) (g : BuildGhost) (node_child_num level : Nat)
    (ids : List RecordId) : Option (List (List RecordId × MBR)) :=
  let fgc := node_child_num / 2
  let sgc := node_child_num - fgc
  match split_into_2_groups o g fgc sgc level ids with
  | none => none
  | some ((ids1, mbr1), (ids2, mbr2)) =>
    match (if mbr1.is_undefined = false then
        if h1 : 1 < fgc then split_groups o g fgc level ids1
        else some [(ids1, mbr1)]
      else some ([] : List (List RecordId × MBR))) with
    | none => none
    | some sub1 =>
      match (if mbr2.is_undefined = false then
          if h2 : 1 < sgc then split_groups o g sgc level ids2
          else some [(ids2, mbr2)]
        else some ([] : List (List RecordId × MBR))) with
      | none => none
      | some sub2 => some (sub1 ++ sub2)
termination_by node_child_num
decreasing_by
  · omega
  · omega

/-- The `level == 0` arm of `build_node`: extend the node's payload with
the ids and point their parent infos at the node. -/
def bind_data_level0 (o : ObjSpace) (node_id : RecordId) (ids : List RecordId) :
    ObjSpace :=
  let node := o.get_node node_id
  let node2 := { node with payload := node.payload ++ ids }
  let o1 := { o with nodes := o.nodes.set node_id.as_node_id node2 }
  ids.foldl (fun acc id => acc.set_parent_info id node_id) o1

mutual
/-- Source `LRTree::build_node` (ghost-parameterized): at level zero bind
the ids to the node, otherwise split the ids into groups and build one
child per group. -/
def build_node (o : ObjSpace) (g : BuildGhost) (node_id : RecordId) :
    Nat → List RecordId → Option ObjSpace
  | 0, ids => some (bind_data_level0 o node_id ids)
  | level2+1, ids =>
    let kind := if level2 = 0 then RecordIdKind.leaf else RecordIdKind.internal
    match split_groups o g (g.ncf ids.length (level2 + 1)) (level2 + 1) ids with
    | none => none
    | some groups => build_groups o g node_id kind level2 groups

/-- The `for (group, mbr) in groups` loop of `build_node`. -/
def build_groups (o : ObjSpace) (g : BuildGhost) (node_id : RecordId)
    (kind : RecordIdKind) (level2 : Nat) :
    List (List RecordId × MBR) → Option ObjSpace
  | [] => some o
  | (grp, mbr) :: rest =>
    let p := o.make_node_with_mbr kind mbr
    let o1 := p.1.add_child_raw node_id p.2
    let o2 := o1.set_parent_info p.2 node_id
    match build_node o2 g p.2 level2 grp with
    | none => none
    | some o3 => build_groups o3 g node_id kind level2 rest
end

/-- Source `LRTree::rebuild` with the level (the float `log`/`ceil`) and
the per-call float choices as ghosts: clear the tree, re-tag the root
(leaf exactly at level one), build from the live data ids, fix the root
MBR. -/
def rebuild (o : ObjSpace) (g : BuildGhost) (level : Nat) : Option ObjSpace :=
  if o.is_empty then some o
  else
    let o0 := o.clear_tree_structure
    let root := RecordId.from_node_id o0.root_id.as_node_id
      (if level = 1 then RecordIdKind.leaf else RecordIdKind.internal)
    let o1 := { o0 with root_id := root }
    match build_node o1 g root (level - 1) o1.iter_data_ids with
    | none => none
    | some o2 =>
      let root_mbr := common_mbr_from_iter ((o2.get_node root).payload.map o2.get_mbr)
      some (o2.set_mbr root root_mbr)

theorem take_getD_succ (l : List RecordId) (i : Nat) (h : i < l.length) :
    l.take (i + 1) = l.take i ++ [l.getD i RecordId.root] := by
  rw [List.take_succ]
  congr 1
  rw [List.getElem?_eq_getElem h]
  simp [List.getD, List.getElem?_eq_getElem h]

theorem take_set_of_le (l : List RecordId) (i t : Nat) (v : RecordId) (h : t ≤ i) :
    (l.set i v).take t = l.take t := by
  apply List.ext_getElem?
  intro n
  rw [List.getElem?_take, List.getElem?_take]
  split
  · rw [List.getElem?_set]
    split
    · omega
    · rfl
  · rfl

theorem drop_set_of_lt (l : List RecordId) (i t : Nat) (v : RecordId) (h : i < t) :
    (l.set i v).drop t = l.drop t := by
  apply List.ext_getElem?
  intro n
  rw [List.getElem?_drop, List.getElem?_drop, List.getElem?_set]
  split
  · omega
  · rfl

theorem drop_decomp (l : List RecordId) (i : Nat) (h : i < l.length) :
    l.drop i = l.getD i RecordId.root :: l.drop (i + 1) := by
  rw [List.drop_eq_getElem_cons h]
  simp [List.getD, List.getElem?_eq_getElem h]

theorem list_swap_length (l : List RecordId) (i j : Nat) :
    (list_swap l i j).length = l.length := by
  simp [list_swap]

theorem take_list_swap (l : List RecordId) (i j t : Nat) (h1 : t ≤ i) (h2 : t ≤ j) :
    (list_swap l i j).take t = l.take t := by
  unfold list_swap
  rw [take_set_of_le _ _ _ _ h2, take_set_of_le _ _ _ _ h1]

theorem drop_list_swap (l : List RecordId) (i j t : Nat) (h1 : i < t) (h2 : j < t) :
    (list_swap l i j).drop t = l.drop t := by
  unfold list_swap
  rw [drop_set_of_lt _ _ _ _ h2, drop_set_of_lt _ _ _ _ h1]

theorem getD_list_swap_right (l : List RecordId) (i j : Nat) (hj : j < l.length) :
    (list_swap l i j).getD j RecordId.root = l.getD i RecordId.root := by
  unfold list_swap
  simp [List.getD, List.getElem?_set, hj]

theorem mem_list_swap (l : List RecordId) (i j : Nat) (hi : i < l.length)
    (hj : j < l.length) (x : RecordId) : x ∈ list_swap l i j ↔ x ∈ l := by
  have hgi : l.getD i RecordId.root = l[i] := by
    simp [List.getD, List.getElem?_eq_getElem hi]
  have hgj : l.getD j RecordId.root = l[j] := by
    simp [List.getD, List.getElem?_eq_getElem hj]
  unfold list_swap
  constructor
  · intro hx
    rw [List.mem_iff_getElem] at hx
    obtain ⟨n, hn, he⟩ := hx
    simp only [List.length_set] at hn
    rw [List.getElem_set, List.getElem_set] at he
    split at he
    · subst he
      rw [hgi]
      exact List.getElem_mem hi
    · split at he
      · subst he
        rw [hgj]
        exact List.getElem_mem hj
      · subst he
        exact List.getElem_mem hn
  · intro hx
    rw [List.mem_iff_getElem] at hx
    obtain ⟨n, hn, he⟩ := hx
    subst he
    by_cases hni : n = i
    · subst hni
      rw [List.mem_iff_getElem]
      refine ⟨j, by simp [hj], ?_⟩
      rw [List.getElem_set, List.getElem_set, if_pos rfl, hgi]
    · by_cases hnj : n = j
      · subst hnj
        rw [List.mem_iff_getElem]
        refine ⟨i, by simp [hi], ?_⟩
        rw [List.getElem_set, List.getElem_set]
        by_cases hji : n = i
        · exact absurd hji hni
        · rw [if_neg hji, if_pos rfl, hgj]
      · rw [List.mem_iff_getElem]
        refine ⟨n, by simp [hn], ?_⟩
        rw [List.getElem_set, List.getElem_set, if_neg (by omega), if_neg (by omega)]

theorem split2_loop_spec (o : ObjSpace) (fgc sgc minr maxr : Nat) (d : Nat) (hd : 0 < d)
    (ids0 : List RecordId)
    (hall : ∀ id ∈ ids0, (o.get_mbr id).wfDim d = true) :
    ∀ (fuel : Nat) (ids : List RecordId) (left right fg sg : Nat) (fmbr smbr : MBR)
      (g1 g2 : List RecordId) (m1 m2 : MBR),
    (∀ x, x ∈ ids ↔ x ∈ ids0) →
    groupMbrOk o d fmbr (ids.take left) →
    groupMbrOk o d smbr (ids.drop (right + 1)) →
    left ≤ right + 1 → right + 1 ≤ ids.length →
    split2_loop o fgc sgc minr maxr fuel ids left right fg sg fmbr smbr
      = some ((g1, m1), (g2, m2)) →
    (∀ x, (x ∈ g1 ∨ x ∈ g2) ↔ x ∈ ids0) ∧
    groupMbrOk o d m1 g1 ∧ groupMbrOk o d m2 g2 := by
  intro fuel
  induction fuel with
  | zero =>
    intro ids left right fg sg fmbr smbr g1 g2 m1 m2 _ _ _ _ _ h
    simp [split2_loop] at h
  | succ fuel ih =>
    intro ids left right fg sg fmbr smbr g1 g2 m1 m2 hmem hfm hsm hlr hrlen hrun
    have hmemr : ∀ x, (x ∈ ids.take left ∨ x ∈ ids.drop left) ↔ x ∈ ids0 := by
      intro x
      rw [← List.mem_append, List.take_append_drop]
      exact hmem x
    have hsegmem : ∀ x ∈ (ids.drop left).take (right + 1 - left), x ∈ ids := by
      intro x hx
      exact List.mem_of_mem_drop (List.mem_of_mem_take hx)
    have hsegwf : ∀ x ∈ (ids.drop left).take (right + 1 - left),
        (o.get_mbr x).wfDim d = true := by
      intro x hx
      exact hall x ((hmem x).mp (hsegmem x hx))
    have htakedec : ids.take (right + 1) = ids.take left
        ++ (ids.drop left).take (right + 1 - left) := by
      conv_lhs => rw [show right + 1 = left + (right + 1 - left) by omega, List.take_add]
    have hdropdec : ids.drop left = (ids.drop left).take (right + 1 - left)
        ++ ids.drop (right + 1) := by
      have hdd : (ids.drop left).drop (right + 1 - left) = ids.drop (right + 1) := by
        rw [List.drop_drop]
        congr 1
        omega
      conv_lhs => rw [← List.take_append_drop (right + 1 - left) (ids.drop left), hdd]
    have hmemr2 : ∀ x, (x ∈ ids.take (right + 1) ∨ x ∈ ids.drop (right + 1)) ↔ x ∈ ids0 := by
      intro x
      rw [← List.mem_append, List.take_append_drop]
      exact hmem x
    rw [split2_loop] at hrun
    by_cases hc1 : right < left
    · rw [if_pos hc1] at hrun
      simp only [Option.some.injEq, Prod.mk.injEq] at hrun
      obtain ⟨⟨e1, e2⟩, e3, e4⟩ := hrun
      subst e1
      subst e2
      subst e3
      subst e4
      have hleq : left = right + 1 := by omega
      refine ⟨hmemr, hfm, ?_⟩
      rw [hleq]
      exact hsm
    · rw [if_neg hc1] at hrun
      have hlle : left ≤ right := by omega
      have hllen : left < ids.length := by omega
      have hrmemlen : right < ids.length := by omega
      by_cases hc2 : fg < fgc * minr
      · rw [if_pos hc2] at hrun
        dsimp only at hrun
        simp only [Option.some.injEq, Prod.mk.injEq] at hrun
        obtain ⟨⟨e1, e2⟩, e3, e4⟩ := hrun
        subst e1
        subst e2
        subst e3
        subst e4
        refine ⟨hmemr2, ?_, hsm⟩
        rw [htakedec]
        exact groupMbrOk_extend_list o d hd fmbr _ _ hfm hsegwf
      · rw [if_neg hc2] at hrun
        by_cases hc3 : sg < sgc * minr
        · rw [if_pos hc3] at hrun
          dsimp only at hrun
          simp only [Option.some.injEq, Prod.mk.injEq] at hrun
          obtain ⟨⟨e1, e2⟩, e3, e4⟩ := hrun
          subst e1
          subst e2
          subst e3
          subst e4
          refine ⟨hmemr, hfm, ?_⟩
          refine groupMbrOk_congr o d _ _ _
            (groupMbrOk_extend_list o d hd smbr _ _ hsm hsegwf) ?_ ?_
          · intro x
            conv_rhs => rw [hdropdec]
            simp only [List.mem_append]
            tauto
          · conv_rhs => rw [hdropdec]
            simp only [List.append_eq_nil]
            tauto
        · rw [if_neg hc3] at hrun
          by_cases hc4 : fg > fgc * maxr
          · rw [if_pos hc4] at hrun
            dsimp only at hrun
            simp only [Option.some.injEq, Prod.mk.injEq] at hrun
            obtain ⟨⟨e1, e2⟩, e3, e4⟩ := hrun
            subst e1
            subst e2
            subst e3
            subst e4
            refine ⟨hmemr, hfm, ?_⟩
            refine groupMbrOk_congr o d _ _ _
              (groupMbrOk_extend_list o d hd smbr _ _ hsm hsegwf) ?_ ?_
            · intro x
              conv_rhs => rw [hdropdec]
              simp only [List.mem_append]
              tauto
            · conv_rhs => rw [hdropdec]
              simp only [List.append_eq_nil]
              tauto
          · rw [if_neg hc4] at hrun
            by_cases hc5 : sg > sgc * maxr
            · rw [if_pos hc5] at hrun
              dsimp only at hrun
              simp only [Option.some.injEq, Prod.mk.injEq] at hrun
              obtain ⟨⟨e1, e2⟩, e3, e4⟩ := hrun
              subst e1
              subst e2
              subst e3
              subst e4
              refine ⟨hmemr2, ?_, hsm⟩
              rw [htakedec]
              exact groupMbrOk_extend_list o d hd fmbr _ _ hfm hsegwf
            · rw [if_neg hc5] at hrun
              dsimp only at hrun
              have hxwf : (o.get_mbr (ids.getD left RecordId.root)).wfDim d = true := by
                refine hall _ ((hmem _).mp ?_)
                have : ids.getD left RecordId.root = ids[left] := by
                  simp [List.getD, List.getElem?_eq_getElem hllen]
                rw [this]
                exact List.getElem_mem hllen
              by_cases hc6 :
                  (common_mbr fmbr (o.get_mbr (ids.getD left RecordId.root))).volume
                      - fmbr.volume
                    ≥ (common_mbr smbr (o.get_mbr (ids.getD left RecordId.root))).volume
                      - smbr.volume
              · rw [if_pos hc6] at hrun
                match right, hrun with
                | right2+1, hrun =>
                  have hlr2 : left ≤ right2 + 1 := by omega
                  have hr2len : right2 + 1 < ids.length := by omega
                  refine ih (list_swap ids left (right2 + 1)) left right2 fg (sg + 1)
                    fmbr _ g1 g2 m1 m2 ?_ ?_ ?_ (by omega)
                    (by rw [list_swap_length]; omega) hrun
                  · intro x
                    rw [mem_list_swap ids left (right2 + 1) hllen hr2len]
                    exact hmem x
                  · rw [take_list_swap ids left (right2 + 1) left le_rfl (by omega)]
                    exact hfm
                  · rw [show (list_swap ids left (right2 + 1)).drop (right2 + 1)
                        = (list_swap ids left (right2 + 1)).getD (right2 + 1) RecordId.root
                          :: (list_swap ids left (right2 + 1)).drop (right2 + 2) from
                      drop_decomp _ _ (by rw [list_swap_length]; omega)]
                    rw [getD_list_swap_right ids left (right2 + 1) hr2len]
                    rw [show (list_swap ids left (right2 + 1)).drop (right2 + 2)
                        = ids.drop (right2 + 2) from
                      drop_list_swap ids left (right2 + 1) (right2 + 2) (by omega) (by omega)]
                    refine groupMbrOk_congr o d _ _ _
                      (groupMbrOk_snoc o d hd smbr (ids.drop (right2 + 1 + 1))
                        (ids.getD left RecordId.root) hsm hxwf) ?_ ?_
                    · intro x
                      constructor
                      · intro hx
                        rcases List.mem_append.mp hx with hx | hx
                        · exact List.mem_cons_of_mem _ hx
                        · rcases List.mem_singleton.mp hx with rfl
                          exact List.mem_cons_self _ _
                      · intro hx
                        rcases List.mem_cons.mp hx with rfl | hx
                        · exact List.mem_append_right _ (List.mem_singleton_self _)
                        · exact List.mem_append_left _ hx
                    · constructor
                      · intro hx
                        simp at hx
                      · intro hx
                        simp at hx
              · rw [if_neg hc6] at hrun
                refine ih ids (left + 1) right (fg + 1) sg _ smbr g1 g2 m1 m2 hmem
                  ?_ hsm (by omega) hrlen hrun
                rw [take_getD_succ ids left hllen]
                exact groupMbrOk_snoc o d hd fmbr (ids.take left)
                  (ids.getD left RecordId.root) hfm hxwf

theorem split_into_2_groups_spec (o : ObjSpace) (g : BuildGhost) (fgc sgc level : Nat)
    (d : Nat) (hd : 0 < d) (ids : List RecordId)
    (hall : ∀ id ∈ ids, (o.get_mbr id).wfDim d = true)
    (hsort : ∀ l, (g.sorter l).Perm l)
    (hquant : ∀ n, (g.quantf n).1 + (g.quantf n).2 ≤ n)
    (hne : ids ≠ [])
    (g1 g2 : List RecordId) (m1 m2 : MBR)
    (hrun : split_into_2_groups o g fgc sgc level ids = some ((g1, m1), (g2, m2))) :
    (∀ x, (x ∈ g1 ∨ x ∈ g2) ↔ x ∈ ids) ∧
    groupMbrOk o d m1 g1 ∧ groupMbrOk o d m2 g2 := by
  unfold split_into_2_groups at hrun
  dsimp only at hrun
  have hperm := hsort ids
  have hmem : ∀ x, x ∈ g.sorter ids ↔ x ∈ ids := fun x => hperm.mem_iff
  have hlen : (g.sorter ids).length = ids.length := hperm.length_eq
  have hnen : 1 ≤ (g.sorter ids).length := by
    rw [hlen]
    cases ids with
    | nil => exact absurd rfl hne
    | cons a as => simp
  have hq := hquant (g.sorter ids).length
  have halls : ∀ id ∈ g.sorter ids, (o.get_mbr id).wfDim d = true :=
    fun id hid => hall id ((hmem id).mp hid)
  obtain ⟨c1, c2, c3⟩ := split2_loop_spec o fgc sgc (o.min_records ^ level)
    (o.max_records ^ level) d hd (g.sorter ids) halls ((g.sorter ids).length + 2)
    (g.sorter ids) (g.quantf (g.sorter ids).length).1
    ((g.sorter ids).length - (g.quantf (g.sorter ids).length).2 - 1)
    (g.quantf (g.sorter ids).length).1 (g.quantf (g.sorter ids).length).2
    (common_mbr_from_iter (((g.sorter ids).take
      (g.quantf (g.sorter ids).length).1).map o.get_mbr))
    (common_mbr_from_iter (((g.sorter ids).drop
      ((g.sorter ids).length - (g.quantf (g.sorter ids).length).2 - 1 + 1)).map o.get_mbr))
    g1 g2 m1 m2 (fun x => Iff.rfl)
    (groupMbrOk_base o d hd _ (fun id hid => halls id (List.mem_of_mem_take hid)))
    (groupMbrOk_base o d hd _ (fun id hid => halls id (List.mem_of_mem_drop hid)))
    (by omega) (by omega) hrun
  exact ⟨fun x => (c1 x).trans (hmem x), c2, c3⟩

theorem nodes_range_widen (o : ObjSpace) (lo hi lo2 hi2 : Nat) (hlo : lo2 ≤ lo)
    (hhi : hi ≤ hi2) :
    ∀ (fuel : Nat) (rid : RecordId), nodes_range o lo hi fuel rid = true →
      nodes_range o lo2 hi2 fuel rid = true := by
  intro fuel
  induction fuel with
  | zero => intro rid h; simp [nodes_range] at h
  | succ fuel ih =>
    intro rid h
    cases rid with
    | data i => rfl
    | root =>
      simp only [nodes_range, Bool.and_eq_true, List.all_eq_true, decide_eq_true_eq] at h ⊢
      refine ⟨⟨by omega, by omega⟩, ?_⟩
      intro c hc
      have hcc := h.2 c hc
      cases c with
      | data j => rfl
      | root => exact ih _ hcc
      | internal j => exact ih _ hcc
      | leaf j => exact ih _ hcc
    | internal i =>
      simp only [nodes_range, Bool.and_eq_true, List.all_eq_true, decide_eq_true_eq] at h ⊢
      refine ⟨⟨by omega, by omega⟩, ?_⟩
      intro c hc
      have hcc := h.2 c hc
      cases c with
      | data j => rfl
      | root => exact ih _ hcc
      | internal j => exact ih _ hcc
      | leaf j => exact ih _ hcc
    | leaf i =>
      simp only [nodes_range, Bool.and_eq_true, List.all_eq_true, decide_eq_true_eq] at h ⊢
      refine ⟨⟨by omega, by omega⟩, ?_⟩
      intro c hc
      have hcc := h.2 c hc
      cases c with
      | data j => rfl
      | root => exact ih _ hcc
      | internal j => exact ih _ hcc
      | leaf j => exact ih _ hcc

theorem wf_assemble_leaf (o2 : ObjSpace) (k : Nat) (d fuel : Nat)
    (hdim : o2.dimension = d)
    (hidx : k < o2.nodes.length)
    (hch : ∀ c ∈ (o2.get_node (RecordId.leaf k)).payload,
      ∃ j, c = RecordId.data j ∧ j < o2.data_nodes.items.length ∧
        (o2.get_mbr c).wfDim d = true ∧
        mbr_contains (o2.get_mbr (RecordId.leaf k)) (o2.get_mbr c) = true) :
    wf_node o2 (fuel + 1) (RecordId.leaf k) = true := by
  simp only [wf_node, Bool.and_eq_true, List.all_eq_true, decide_eq_true_eq]
  refine ⟨hidx, ?_⟩
  intro c hc
  obtain ⟨j, rfl, hj, hw, hcont⟩ := hch c hc
  simp only [Bool.and_eq_true, decide_eq_true_eq]
  rw [hdim]
  exact ⟨⟨hj, hw⟩, hcont⟩

theorem wf_assemble_internal (o2 : ObjSpace) (k : Nat) (d fuel : Nat)
    (hdim : o2.dimension = d)
    (hidx : k < o2.nodes.length)
    (hch : ∀ c ∈ (o2.get_node (RecordId.internal k)).payload,
      ((∃ j, c = RecordId.internal j) ∨ (∃ j, c = RecordId.leaf j)) ∧
      (o2.get_mbr c).wfDim d = true ∧
      mbr_contains (o2.get_mbr (RecordId.internal k)) (o2.get_mbr c) = true ∧
      wf_node o2 fuel c = true) :
    wf_node o2 (fuel + 1) (RecordId.internal k) = true := by
  simp only [wf_node, Bool.and_eq_true, List.all_eq_true, decide_eq_true_eq]
  refine ⟨hidx, ?_⟩
  intro c hc
  obtain ⟨hk, hw, hcont, hwf⟩ := hch c hc
  rcases hk with ⟨j, rfl⟩ | ⟨j, rfl⟩
  · simp only [Bool.and_eq_true]
    rw [hdim]
    exact ⟨⟨⟨trivial, hw⟩, hcont⟩, hwf⟩
  · simp only [Bool.and_eq_true]
    rw [hdim]
    exact ⟨⟨⟨trivial, hw⟩, hcont⟩, hwf⟩

theorem wfDim_not_undefined (m : MBR) (d : Nat) (hd : 0 < d) (hm : m.wfDim d = true) :
    m.is_undefined = false := by
  simp only [MBR.wfDim, Bool.and_eq_true, decide_eq_true_eq] at hm
  cases hb : m.bounds with
  | nil =>
    rw [hb] at hm
    simp at hm
    omega
  | cons x xs => simp [MBR.is_undefined, hb]

theorem split_groups_spec (o : ObjSpace) (g : BuildGhost) (d : Nat) (hd : 0 < d)
    (hsort : ∀ l, (g.sorter l).Perm l)
    (hquant : ∀ n, (g.quantf n).1 + (g.quantf n).2 ≤ n) :
    ∀ (nc : Nat) (level : Nat) (ids : List RecordId)
      (groups : List (List RecordId × MBR)),
    (∀ id ∈ ids, (o.get_mbr id).wfDim d = true) →
    ids ≠ [] →
    split_groups o g nc level ids = some groups →
    (∀ x, (∃ p ∈ groups, x ∈ p.1) ↔ x ∈ ids) ∧
    (∀ p ∈ groups, p.1 ≠ [] ∧ p.2.wfDim d = true ∧ covers o p.2 p.1 ∧
      (∀ x ∈ p.1, x ∈ ids) ∧
      (∀ P : MBR, P.wfDim d = true → covers o P ids → mbr_contains P p.2 = true)) := by
  intro nc
  induction nc using Nat.strong_induction_on with
  | _ nc ih =>
    intro level ids groups hall hne hrun
    rw [split_groups] at hrun
    cases hsp : split_into_2_groups o g (nc / 2) (nc - nc / 2) level ids with
    | none =>
      rw [hsp] at hrun
      exact absurd hrun (by simp)
    | some pr =>
      obtain ⟨⟨ids1, m1⟩, ids2, m2⟩ := pr
      rw [hsp] at hrun
      dsimp only at hrun
      obtain ⟨c1, c2, c3⟩ := split_into_2_groups_spec o g (nc / 2) (nc - nc / 2) level d hd
        ids hall hsort hquant hne ids1 ids2 m1 m2 hsp
      have hsub1 : ∀ sub1, (if m1.is_undefined = false then
            if h1 : 1 < nc / 2 then split_groups o g (nc / 2) level ids1
            else some [(ids1, m1)]
          else some ([] : List (List RecordId × MBR))) = some sub1 →
          (∀ x, (∃ p ∈ sub1, x ∈ p.1) ↔ x ∈ ids1) ∧
          (∀ p ∈ sub1, p.1 ≠ [] ∧ p.2.wfDim d = true ∧ covers o p.2 p.1 ∧
            (∀ x ∈ p.1, x ∈ ids1) ∧
            (∀ P : MBR, P.wfDim d = true → covers o P ids1 →
              mbr_contains P p.2 = true)) := by
        intro sub1 hs
        by_cases hu1 : m1.is_undefined = false
        · rw [if_pos hu1] at hs
          have hne1 : ids1 ≠ [] := by
            intro he
            rw [c2.1 he] at hu1
            simp [MBR.is_undefined, MBR.undefined] at hu1
          have hall1 : ∀ id ∈ ids1, (o.get_mbr id).wfDim d = true :=
            fun id hid => hall id ((c1 id).mp (Or.inl hid))
          by_cases h1 : 1 < nc / 2
          · rw [dif_pos h1] at hs
            exact ih (nc / 2) (by omega) level ids1 sub1 hall1 hne1 hs
          · rw [dif_neg h1] at hs
            simp only [Option.some.injEq] at hs
            subst hs
            obtain ⟨hw1, hc1⟩ := c2.2.1 hne1
            refine ⟨?_, ?_⟩
            · intro x
              simp
            · intro p hp
              rcases List.mem_singleton.mp hp with rfl
              exact ⟨hne1, hw1, hc1, fun x hx => hx,
                fun P hP hc => c2.2.2 P hP hc hne1⟩
        · rw [if_neg hu1] at hs
          simp only [Option.some.injEq] at hs
          subst hs
          have he1 : ids1 = [] := by
            by_contra hne1
            obtain ⟨hw1, -⟩ := c2.2.1 hne1
            exact hu1 (wfDim_not_undefined m1 d hd hw1)
          refine ⟨?_, ?_⟩
          · intro x
            rw [he1]
            simp
          · intro p hp
            simp at hp
      have hsub2 : ∀ sub2, (if m2.is_undefined = false then
            if h2 : 1 < nc - nc / 2 then split_groups o g (nc - nc / 2) level ids2
            else some [(ids2, m2)]
          else some ([] : List (List RecordId × MBR))) = some sub2 →
          (∀ x, (∃ p ∈ sub2, x ∈ p.1) ↔ x ∈ ids2) ∧
          (∀ p ∈ sub2, p.1 ≠ [] ∧ p.2.wfDim d = true ∧ covers o p.2 p.1 ∧
            (∀ x ∈ p.1, x ∈ ids2) ∧
            (∀ P : MBR, P.wfDim d = true → covers o P ids2 →
              mbr_contains P p.2 = true)) := by
        intro sub2 hs
        by_cases hu2 : m2.is_undefined = false
        · rw [if_pos hu2] at hs
          have hne2 : ids2 ≠ [] := by
            intro he
            rw [c3.1 he] at hu2
            simp [MBR.is_undefined, MBR.undefined] at hu2
          have hall2 : ∀ id ∈ ids2, (o.get_mbr id).wfDim d = true :=
            fun id hid => hall id ((c1 id).mp (Or.inr hid))
          by_cases h2 : 1 < nc - nc / 2
          · rw [dif_pos h2] at hs
            exact ih (nc - nc / 2) (by omega) level ids2 sub2 hall2 hne2 hs
          · rw [dif_neg h2] at hs
            simp only [Option.some.injEq] at hs
            subst hs
            obtain ⟨hw2, hc2⟩ := c3.2.1 hne2
            refine ⟨?_, ?_⟩
            · intro x
              simp
            · intro p hp
              rcases List.mem_singleton.mp hp with rfl
              exact ⟨hne2, hw2, hc2, fun x hx => hx,
                fun P hP hc => c3.2.2 P hP hc hne2⟩
        · rw [if_neg hu2] at hs
          simp only [Option.some.injEq] at hs
          subst hs
          have he2 : ids2 = [] := by
            by_contra hne2
            obtain ⟨hw2, -⟩ := c3.2.1 hne2
            exact hu2 (wfDim_not_undefined m2 d hd hw2)
          refine ⟨?_, ?_⟩
          · intro x
            rw [he2]
            simp
          · intro p hp
            simp at hp
      cases hA : (if m1.is_undefined = false then
          if h1 : 1 < nc / 2 then split_groups o g (nc / 2) level ids1
          else some [(ids1, m1)]
        else some ([] : List (List RecordId × MBR))) with
      | none =>
        rw [hA] at hrun
        exact absurd hrun (by simp)
      | some sub1 =>
        rw [hA] at hrun
        dsimp only at hrun
        cases hB : (if m2.is_undefined = false then
            if h2 : 1 < nc - nc / 2 then split_groups o g (nc - nc / 2) level ids2
            else some [(ids2, m2)]
          else some ([] : List (List RecordId × MBR))) with
        | none =>
          rw [hB] at hrun
          exact absurd hrun (by simp)
        | some sub2 =>
          rw [hB] at hrun
          simp only [Option.some.injEq] at hrun
          subst hrun
          obtain ⟨s1mem, s1p⟩ := hsub1 sub1 hA
          obtain ⟨s2mem, s2p⟩ := hsub2 sub2 hB
          constructor
          · intro x
            constructor
            · rintro ⟨p, hp, hx⟩
              rcases List.mem_append.mp hp with hp | hp
              · exact (c1 x).mp (Or.inl ((s1mem x).mp ⟨p, hp, hx⟩))
              · exact (c1 x).mp (Or.inr ((s2mem x).mp ⟨p, hp, hx⟩))
            · intro hx
              rcases (c1 x).mpr hx with hx1 | hx2
              · obtain ⟨p, hp, hpx⟩ := (s1mem x).mpr hx1
                exact ⟨p, List.mem_append_left _ hp, hpx⟩
              · obtain ⟨p, hp, hpx⟩ := (s2mem x).mpr hx2
                exact ⟨p, List.mem_append_right _ hp, hpx⟩
          · intro p hp
            rcases List.mem_append.mp hp with hp | hp
            · obtain ⟨q1, q2, q3, q4, q5⟩ := s1p p hp
              refine ⟨q1, q2, q3, fun x hx => (c1 x).mp (Or.inl (q4 x hx)), ?_⟩
              intro P hP hc
              refine q5 P hP ?_
              intro id hid
              exact hc id ((c1 id).mp (Or.inl hid))
            · obtain ⟨q1, q2, q3, q4, q5⟩ := s2p p hp
              refine ⟨q1, q2, q3, fun x hx => (c1 x).mp (Or.inr (q4 x hx)), ?_⟩
              intro P hP hc
              refine q5 P hP ?_
              intro id hid
              exact hc id ((c1 id).mp (Or.inr hid))

/-- State frame preserved by a `build_node` call rooted at `node_id`:
configuration, root id and the data arena's shape and MBRs survive; the
internal arena only grows; nodes other than `node_id` below the old
length survive whole; `node_id` keeps its MBR. -/
def build_frame (o o2 : ObjSpace) (node_id : RecordId) : Prop :=
  o2.dimension = o.dimension ∧
  o2.min_records = o.min_records ∧
  o2.max_records = o.max_records ∧
  o2.root_id = o.root_id ∧
  o.nodes.length ≤ o2.nodes.length ∧
  o2.data_nodes.items.length = o.data_nodes.items.length ∧
  o2.data_nodes.freed = o.data_nodes.freed ∧
  (∀ j : Nat, (o2.get_data j).mbr = (o.get_data j).mbr) ∧
  (∀ q : RecordId, q.as_node_id < o.nodes.length → q.as_node_id ≠ node_id.as_node_id →
    o2.get_node q = o.get_node q) ∧
  (o2.get_node node_id).mbr = (o.get_node node_id).mbr

theorem build_frame_refl (o : ObjSpace) (node_id : RecordId) : build_frame o o node_id :=
  ⟨rfl, rfl, rfl, rfl, le_rfl, rfl, rfl, fun _ => rfl, fun _ _ _ => rfl, rfl⟩

theorem build_frame_trans (o o1 o2 : ObjSpace) (node_id : RecordId)
    (h1 : build_frame o o1 node_id) (h2 : build_frame o1 o2 node_id) :
    build_frame o o2 node_id := by
  obtain ⟨a1, a2, a3, a4, a5, a6, a7, a8, a9, a10⟩ := h1
  obtain ⟨b1, b2, b3, b4, b5, b6, b7, b8, b9, b10⟩ := h2
  refine ⟨b1.trans a1, b2.trans a2, b3.trans a3, b4.trans a4, le_trans a5 b5,
    b6.trans a6, b7.trans a7, fun j => (b8 j).trans (a8 j), ?_, b10.trans a10⟩
  intro q hq hqn
  exact (b9 q (by omega) hqn).trans (a9 q hq hqn)

/-- Per-child packet of facts established by `build_node` for each new
child bound below `node_id`. -/
def childPack (d : Nat) (o o2 : ObjSpace) (ids : List RecordId) (level : Nat)
    (c : RecordId) : Prop :=
  ((level = 1 → ∃ k, c = RecordId.leaf k) ∧ (1 < level → ∃ k, c = RecordId.internal k)) ∧
  o.nodes.length ≤ c.as_node_id ∧ c.as_node_id < o2.nodes.length ∧
  (o2.get_mbr c).wfDim d = true ∧
  wf_node o2 level c = true ∧
  nodes_range o2 o.nodes.length o2.nodes.length level c = true ∧
  (∀ P : MBR, P.wfDim d = true → covers o P ids → mbr_contains P (o2.get_mbr c) = true)

/-- `make_node_with_mbr` + `add_child_raw` + `set_parent_info`: the
attach step of the `build_node` group loop. -/
theorem attach_child_spec (o1 : ObjSpace) (node_id : RecordId) (kind : RecordIdKind)
    (m : MBR) (hn : node_id.as_node_id < o1.nodes.length) :
    (o1.make_node_with_mbr kind m).2.as_node_id = o1.nodes.length ∧
    (((o1.make_node_with_mbr kind m).1.add_child_raw node_id
        (o1.make_node_with_mbr kind m).2).set_parent_info
        (o1.make_node_with_mbr kind m).2 node_id).nodes.length = o1.nodes.length + 1 ∧
    (((o1.make_node_with_mbr kind m).1.add_child_raw node_id
        (o1.make_node_with_mbr kind m).2).set_parent_info
        (o1.make_node_with_mbr kind m).2 node_id).dimension = o1.dimension ∧
    (((o1.make_node_with_mbr kind m).1.add_child_raw node_id
        (o1.make_node_with_mbr kind m).2).set_parent_info
        (o1.make_node_with_mbr kind m).2 node_id).min_records = o1.min_records ∧
    (((o1.make_node_with_mbr kind m).1.add_child_raw node_id
        (o1.make_node_with_mbr kind m).2).set_parent_info
        (o1.make_node_with_mbr kind m).2 node_id).max_records = o1.max_records ∧
    (((o1.make_node_with_mbr kind m).1.add_child_raw node_id
        (o1.make_node_with_mbr kind m).2).set_parent_info
        (o1.make_node_with_mbr kind m).2 node_id).root_id = o1.root_id ∧
    (((o1.make_node_with_mbr kind m).1.add_child_raw node_id
        (o1.make_node_with_mbr kind m).2).set_parent_info
        (o1.make_node_with_mbr kind m).2 node_id).data_nodes.items.length
      = o1.data_nodes.items.length ∧
    (((o1.make_node_with_mbr kind m).1.add_child_raw node_id
        (o1.make_node_with_mbr kind m).2).set_parent_info
        (o1.make_node_with_mbr kind m).2 node_id).data_nodes.freed
      = o1.data_nodes.freed ∧
    (∀ j : Nat, ((((o1.make_node_with_mbr kind m).1.add_child_raw node_id
        (o1.make_node_with_mbr kind m).2).set_parent_info
        (o1.make_node_with_mbr kind m).2 node_id).get_data j).mbr
      = (o1.get_data j).mbr) ∧
    (∀ q : RecordId, q.as_node_id < o1.nodes.length →
      q.as_node_id ≠ node_id.as_node_id →
      (((o1.make_node_with_mbr kind m).1.add_child_raw node_id
        (o1.make_node_with_mbr kind m).2).set_parent_info
        (o1.make_node_with_mbr kind m).2 node_id).get_node q = o1.get_node q) ∧
    ((((o1.make_node_with_mbr kind m).1.add_child_raw node_id
        (o1.make_node_with_mbr kind m).2).set_parent_info
        (o1.make_node_with_mbr kind m).2 node_id).get_node node_id).payload
      = (o1.get_node node_id).payload ++ [(o1.make_node_with_mbr kind m).2] ∧
    ((((o1.make_node_with_mbr kind m).1.add_child_raw node_id
        (o1.make_node_with_mbr kind m).2).set_parent_info
        (o1.make_node_with_mbr kind m).2 node_id).get_node node_id).mbr
      = (o1.get_node node_id).mbr ∧
    ((((o1.make_node_with_mbr kind m).1.add_child_raw node_id
        (o1.make_node_with_mbr kind m).2).set_parent_info
        (o1.make_node_with_mbr kind m).2 node_id).get_node
        (o1.make_node_with_mbr kind m).2).payload = ([] : List RecordId) ∧
    ((((o1.make_node_with_mbr kind m).1.add_child_raw node_id
        (o1.make_node_with_mbr kind m).2).set_parent_info
        (o1.make_node_with_mbr kind m).2 node_id).get_node
        (o1.make_node_with_mbr kind m).2).mbr = m := by
  obtain ⟨k1, k2, k3, k4, k5, k6, k7, k8, k9⟩ := make_node_with_mbr_frame o1 kind m
  obtain ⟨a1, a2, a3, a4, a5, a6, a7, a8⟩ := add_child_raw_frame
    (o1.make_node_with_mbr kind m).1 node_id (o1.make_node_with_mbr kind m).2
  obtain ⟨p1, p2, p3, p4, p5, p6, p7, p8⟩ := set_parent_info_data_frame
    ((o1.make_node_with_mbr kind m).1.add_child_raw node_id
      (o1.make_node_with_mbr kind m).2) (o1.make_node_with_mbr kind m).2 node_id
  have hnid : node_id.as_node_id ≠ (o1.make_node_with_mbr kind m).2.as_node_id := by
    omega
  have hother := set_parent_info_get_node_other
    ((o1.make_node_with_mbr kind m).1.add_child_raw node_id
      (o1.make_node_with_mbr kind m).2) (o1.make_node_with_mbr kind m).2 node_id
  have hq2 : ∀ q : RecordId, q.as_node_id < o1.nodes.length →
      q.as_node_id ≠ node_id.as_node_id →
      (((o1.make_node_with_mbr kind m).1.add_child_raw node_id
        (o1.make_node_with_mbr kind m).2).set_parent_info
        (o1.make_node_with_mbr kind m).2 node_id).get_node q = o1.get_node q := by
    intro q hqlen hqn
    rw [hother q (by omega), a7 q hqn, k9 q hqlen]
  refine ⟨k1, ?_, ?_, ?_, ?_, ?_, ?_, ?_, ?_, hq2, ?_, ?_, ?_, ?_⟩
  · rw [p4, a1, k2]
  · rw [p5]
    show ((o1.make_node_with_mbr kind m).1.add_child_raw node_id
      (o1.make_node_with_mbr kind m).2).dimension = _
    rw [a3, k4]
  · rw [p6]
    show ((o1.make_node_with_mbr kind m).1.add_child_raw node_id
      (o1.make_node_with_mbr kind m).2).min_records = _
    rw [a4, k5]
  · rw [p7]
    show _ = _
    rw [a5, k6]
  · rw [p8]
    show _ = _
    rw [a6, k7]
  · rw [p2]
    show _ = _
    rw [a2, k3]
  · rw [p3]
    show _ = _
    rw [a2, k3]
  · intro j
    rw [p1 j]
    show ((((o1.make_node_with_mbr kind m).1.add_child_raw node_id
      (o1.make_node_with_mbr kind m).2).data_nodes.get j)).mbr = _
    rw [a2, k3]
    rfl
  · rw [hother node_id hnid,
      a8 (by rw [k2]; omega)]
    show ((o1.make_node_with_mbr kind m).1.get_node node_id).payload ++ _ = _
    rw [k9 node_id hn]
  · rw [(set_parent_info_get_node _ _ _ node_id).2,
      show (((o1.make_node_with_mbr kind m).1.add_child_raw node_id
        (o1.make_node_with_mbr kind m).2).get_node node_id).mbr
      = ((o1.make_node_with_mbr kind m).1.get_node node_id).mbr from by
        rw [a8 (by rw [k2]; omega)]]
    rw [k9 node_id hn]
  · rw [(set_parent_info_get_node _ _ _ _).1,
      a7 _ (by omega), k8]
  · rw [(set_parent_info_get_node _ _ _ _).2,
      a7 _ (by omega), k8]

theorem fold_set_parent_frame (nid : RecordId) :
    ∀ (ids : List RecordId) (o : ObjSpace), (∀ x ∈ ids, ∃ j, x = RecordId.data j) →
    (ids.foldl (fun acc id => acc.set_parent_info id nid) o).nodes = o.nodes ∧
    (ids.foldl (fun acc id => acc.set_parent_info id nid) o).data_nodes.items.length
      = o.data_nodes.items.length ∧
    (ids.foldl (fun acc id => acc.set_parent_info id nid) o).data_nodes.freed
      = o.data_nodes.freed ∧
    (∀ j : Nat, ((ids.foldl (fun acc id => acc.set_parent_info id nid) o).get_data j).mbr
      = (o.get_data j).mbr) ∧
    (ids.foldl (fun acc id => acc.set_parent_info id nid) o).dimension = o.dimension ∧
    (ids.foldl (fun acc id => acc.set_parent_info id nid) o).min_records = o.min_records ∧
    (ids.foldl (fun acc id => acc.set_parent_info id nid) o).max_records = o.max_records ∧
    (ids.foldl (fun acc id => acc.set_parent_info id nid) o).root_id = o.root_id := by
  intro ids
  induction ids with
  | nil => exact fun o _ => ⟨rfl, rfl, rfl, fun j => rfl, rfl, rfl, rfl, rfl⟩
  | cons x xs ih =>
    intro o hids
    obtain ⟨j0, rfl⟩ := hids x (List.mem_cons_self _ _)
    rw [List.foldl_cons]
    obtain ⟨i1, i2, i3, i4, i5, i6, i7, i8⟩ := ih (o.set_parent_info (RecordId.data j0) nid)
      (fun y hy => hids y (List.mem_cons_of_mem _ hy))
    obtain ⟨s1, s2, s3, s4, s5, s6, s7, s8⟩ := set_parent_info_data_frame o
      (RecordId.data j0) nid
    refine ⟨i1.trans rfl, i2.trans s2, i3.trans s3, fun j => (i4 j).trans (s1 j),
      i5.trans s5, i6.trans s6, i7.trans s7, i8.trans s8⟩

theorem bind_data_level0_spec (o : ObjSpace) (nid : RecordId) (ids : List RecordId)
    (hn : nid.as_node_id < o.nodes.length)
    (hids : ∀ x ∈ ids, ∃ j, x = RecordId.data j) :
    (bind_data_level0 o nid ids).nodes.length = o.nodes.length ∧
    (bind_data_level0 o nid ids).dimension = o.dimension ∧
    (bind_data_level0 o nid ids).min_records = o.min_records ∧
    (bind_data_level0 o nid ids).max_records = o.max_records ∧
    (bind_data_level0 o nid ids).root_id = o.root_id ∧
    (bind_data_level0 o nid ids).data_nodes.items.length = o.data_nodes.items.length ∧
    (bind_data_level0 o nid ids).data_nodes.freed = o.data_nodes.freed ∧
    (∀ j : Nat, ((bind_data_level0 o nid ids).get_data j).mbr = (o.get_data j).mbr) ∧
    (∀ q : RecordId, q.as_node_id ≠ nid.as_node_id →
      (bind_data_level0 o nid ids).get_node q = o.get_node q) ∧
    ((bind_data_level0 o nid ids).get_node nid).payload
      = (o.get_node nid).payload ++ ids ∧
    ((bind_data_level0 o nid ids).get_node nid).mbr = (o.get_node nid).mbr := by
  unfold bind_data_level0
  dsimp only
  obtain ⟨f1, f2, f3, f4, f5, f6, f7, f8⟩ := fold_set_parent_frame nid ids
    ({ o with nodes := o.nodes.set nid.as_node_id
                  (⟨(o.get_node nid).parent_id, (o.get_node nid).mbr,
                    (o.get_node nid).payload ++ ids⟩ : InternalNode) } : ObjSpace) hids
  have hgn : ∀ q : RecordId,
      (ids.foldl (fun (acc : ObjSpace) id => acc.set_parent_info id nid)
        { o with nodes := o.nodes.set nid.as_node_id
                      (⟨(o.get_node nid).parent_id, (o.get_node nid).mbr,
                        (o.get_node nid).payload ++ ids⟩ : InternalNode) }).get_node q
      = (o.nodes.set nid.as_node_id
          (⟨(o.get_node nid).parent_id, (o.get_node nid).mbr,
            (o.get_node nid).payload ++ ids⟩ : InternalNode)).getD
          q.as_node_id default := by
    intro q
    show ((ids.foldl (fun (acc : ObjSpace) id => acc.set_parent_info id nid) _ :
      ObjSpace)).nodes.getD q.as_node_id default = _
    rw [f1]
  refine ⟨by rw [f1]; simp, f5, f6, f7, f8, f2, f3, f4, ?_, ?_, ?_⟩
  · intro q hq
    rw [hgn q, getD_set_node, if_neg (by tauto)]
    rfl
  · rw [hgn nid, getD_set_node, if_pos ⟨rfl, hn⟩]
  · rw [hgn nid, getD_set_node, if_pos ⟨rfl, hn⟩]

theorem covers_congr (oA oB : ObjSpace) (P : MBR) (l : List RecordId)
    (hl : ∀ x ∈ l, ∃ j, x = RecordId.data j)
    (hm : ∀ j : Nat, (oA.get_data j).mbr = (oB.get_data j).mbr) :
    covers oA P l ↔ covers oB P l := by
  unfold covers
  constructor
  · intro h id hid
    obtain ⟨j, rfl⟩ := hl id hid
    have := h _ hid
    show mbr_contains P (oB.get_data j).mbr = true
    rw [← hm j]
    exact this
  · intro h id hid
    obtain ⟨j, rfl⟩ := hl id hid
    have := h _ hid
    show mbr_contains P (oA.get_data j).mbr = true
    rw [hm j]
    exact this

theorem range_assemble (o3 : ObjSpace) (rid : RecordId) (lo hi fuel : Nat)
    (hrid : (∃ k, rid = RecordId.internal k) ∨ (∃ k, rid = RecordId.leaf k))
    (hb1 : lo ≤ rid.as_node_id) (hb2 : rid.as_node_id < hi)
    (hch : ∀ c ∈ (o3.get_node rid).payload,
      (∃ j, c = RecordId.data j) ∨ nodes_range o3 lo hi fuel c = true) :
    nodes_range o3 lo hi (fuel + 1) rid = true := by
  rcases hrid with ⟨k, rfl⟩ | ⟨k, rfl⟩ <;>
  · simp only [nodes_range, Bool.and_eq_true, List.all_eq_true, decide_eq_true_eq]
    refine ⟨⟨hb1, hb2⟩, ?_⟩
    intro c hc
    rcases hch c hc with ⟨j, rfl⟩ | hr
    · rfl
    · cases c with
      | data j => rfl
      | root => exact hr
      | internal j => exact hr
      | leaf j => exact hr

theorem build_groups_spec (g : BuildGhost) (d : Nat) (hd : 0 < d) (level2 : Nat)
    (kind : RecordIdKind)
    (hkind : kind = if level2 = 0 then RecordIdKind.leaf else RecordIdKind.internal)
    (hBN : ∀ (oo : ObjSpace) (nid : RecordId) (ids : List RecordId) (oo2 : ObjSpace),
      build_node oo g nid level2 ids = some oo2 →
      oo.dimension = d →
      nid.as_node_id < oo.nodes.length →
      (oo.get_node nid).payload = ([] : List RecordId) →
      (level2 = 0 → ∃ k, nid = RecordId.leaf k) →
      (0 < level2 → (∃ k, nid = RecordId.internal k) ∧ ids ≠ []) →
      (∀ x ∈ ids, ∃ j, x = RecordId.data j ∧ j < oo.data_nodes.items.length ∧
        (oo.get_mbr x).wfDim d = true) →
      build_frame oo oo2 nid ∧
      (∀ x, x ∈ collect_data oo2 (level2 + 1) nid ↔ x ∈ ids) ∧
      (level2 = 0 → (oo2.get_node nid).payload = ids) ∧
      (0 < level2 → ∀ c ∈ (oo2.get_node nid).payload, childPack d oo oo2 ids level2 c) ∧
      oo.nodes.length + level2 ≤ oo2.nodes.length)
    (allids : List RecordId)
    (hallids : ∀ x ∈ allids, ∃ j, x = RecordId.data j) :
    ∀ (groups : List (List RecordId × MBR)) (o1 oR : ObjSpace) (node_id : RecordId),
    build_groups o1 g node_id kind level2 groups = some oR →
    o1.dimension = d →
    node_id.as_node_id < o1.nodes.length →
    (∀ p ∈ groups, p.1 ≠ [] ∧ p.2.wfDim d = true ∧ covers o1 p.2 p.1 ∧
      (∀ x ∈ p.1, ∃ j, x = RecordId.data j ∧ j < o1.data_nodes.items.length ∧
        (o1.get_mbr x).wfDim d = true) ∧
      (∀ P : MBR, P.wfDim d = true → covers o1 P allids →
        mbr_contains P p.2 = true)) →
    build_frame o1 oR node_id ∧
    (∃ nk, (oR.get_node node_id).payload = (o1.get_node node_id).payload ++ nk ∧
      (∀ c ∈ nk, childPack d o1 oR allids (level2 + 1) c) ∧
      (∀ x, (∃ c ∈ nk, x ∈ collect_data oR (level2 + 1) c) ↔
        (∃ p ∈ groups, x ∈ p.1)) ∧
      (groups ≠ [] → o1.nodes.length + (level2 + 1) ≤ oR.nodes.length)) := by
  intro groups
  induction groups with
  | nil =>
    intro o1 oR node_id hrun h1 hn1 gfr
    rw [build_groups] at hrun
    simp only [Option.some.injEq] at hrun
    subst hrun
    refine ⟨build_frame_refl o1 node_id, [], by simp, ?_, ?_, ?_⟩
    · intro c hc
      simp at hc
    · intro x
      simp
    · intro h
      exact absurd rfl h
  | cons pm rest ihg =>
    obtain ⟨grp, m⟩ := pm
    intro o1 oR node_id hrun h1 hn1 gfr
    rw [build_groups] at hrun
    obtain ⟨A1, A2, A3, A4, A5, A6, A7, A8, A9, A10, A11, A12, A13, A14⟩ :=
      attach_child_spec o1 node_id kind m hn1
    obtain ⟨gf1, gf2, gf3, gf4, gf5⟩ := gfr (grp, m) (List.mem_cons_self _ _)
    have hformE : ((o1.make_node_with_mbr kind m).2
          = RecordId.internal o1.nodes.length ∧ kind = RecordIdKind.internal ∧ 0 < level2)
        ∨ ((o1.make_node_with_mbr kind m).2
          = RecordId.leaf o1.nodes.length ∧ kind = RecordIdKind.leaf ∧ level2 = 0) := by
      cases level2 with
      | zero =>
        right
        have hkl : kind = RecordIdKind.leaf := by
          rw [hkind]
          rfl
        exact ⟨by rw [hkl]; rfl, hkl, rfl⟩
      | succ l2 =>
        left
        have hki : kind = RecordIdKind.internal := by
          rw [hkind, if_neg (by omega)]
        exact ⟨by rw [hki]; rfl, hki, by omega⟩
    cases hbn : build_node (((o1.make_node_with_mbr kind m).1.add_child_raw node_id
        (o1.make_node_with_mbr kind m).2).set_parent_info
        (o1.make_node_with_mbr kind m).2 node_id) g
        (o1.make_node_with_mbr kind m).2 level2 grp with
    | none =>
      rw [hbn] at hrun
      exact absurd hrun (by simp)
    | some o3 =>
      rw [hbn] at hrun
      dsimp only at hrun
      obtain ⟨B1, B2, B3, B4, B5⟩ := hBN _ _ _ _ hbn (A3.trans h1)
        (by rw [A1, A2]; omega) A13
        (by
          intro h0
          rcases hformE with ⟨hf, hkk, hl⟩ | ⟨hf, hkk, hl⟩
          · omega
          · exact ⟨o1.nodes.length, hf⟩)
        (by
          intro h0
          rcases hformE with ⟨hf, hkk, hl⟩ | ⟨hf, hkk, hl⟩
          · exact ⟨⟨o1.nodes.length, hf⟩, gf1⟩
          · omega)
        (by
          intro x hx
          obtain ⟨j, rfl, hj, hw⟩ := gf4 x hx
          refine ⟨j, rfl, by rw [A7]; exact hj, ?_⟩
          show ((((o1.make_node_with_mbr kind m).1.add_child_raw node_id
            (o1.make_node_with_mbr kind m).2).set_parent_info
            (o1.make_node_with_mbr kind m).2 node_id).get_data j).mbr.wfDim d = true
          rw [A9 j]
          exact hw)
      obtain ⟨F1, F2, F3, F4, F5, F6, F7, F8, F9, F10⟩ := B1
      have hnode3 : o3.get_node node_id
          = (((o1.make_node_with_mbr kind m).1.add_child_raw node_id
            (o1.make_node_with_mbr kind m).2).set_parent_info
            (o1.make_node_with_mbr kind m).2 node_id).get_node node_id := by
        refine F9 node_id (by rw [A2]; omega) ?_
        rw [A1]
        omega
      have hpay3 : (o3.get_node node_id).payload
          = (o1.get_node node_id).payload ++ [(o1.make_node_with_mbr kind m).2] := by
        rw [hnode3, A11]
      have hmbr3new : (o3.get_node (o1.make_node_with_mbr kind m).2).mbr = m := by
        rw [F10, A14]
      have hlen13 : o1.nodes.length + 1 ≤ o3.nodes.length := by
        have := F5
        rw [A2] at this
        omega
      have hcovB : covers (((o1.make_node_with_mbr kind m).1.add_child_raw node_id
          (o1.make_node_with_mbr kind m).2).set_parent_info
          (o1.make_node_with_mbr kind m).2 node_id) m grp :=
        (covers_congr _ o1 m grp
          (fun x hx => (gf4 x hx).imp (fun j hj => hj.1)) (fun j => A9 j)).mpr gf3
      have hwfnew : wf_node o3 (level2 + 1) (o1.make_node_with_mbr kind m).2 = true := by
        rcases hformE with ⟨hf, hkk, hl⟩ | ⟨hf, hkk, hl⟩
        · rw [hf]
          cases level2 with
          | zero => exact absurd hl (by omega)
          | succ l2 =>
            refine wf_assemble_internal o3 o1.nodes.length d (l2 + 1)
              (F1.trans (A3.trans h1)) (by omega) ?_
            intro c hc
            rw [show RecordId.internal o1.nodes.length
              = (o1.make_node_with_mbr kind m).2 from hf.symm] at hc
            obtain ⟨⟨hk1, hk2⟩, cb1, cb2, cwd, cwf, crange, cP⟩ := B4 (by omega) c hc
            refine ⟨?_, cwd, ?_, cwf⟩
            · by_cases hl2 : l2 = 0
              · subst hl2
                exact Or.inr (hk1 rfl)
              · exact Or.inl (hk2 (by omega))
            · have hm3 : o3.get_mbr (RecordId.internal o1.nodes.length) = m := by
                show (o3.get_node (RecordId.internal o1.nodes.length)).mbr = m
                rw [show RecordId.internal o1.nodes.length
                  = (o1.make_node_with_mbr kind m).2 from hf.symm]
                exact hmbr3new
              rw [hm3]
              exact cP m gf2 hcovB
        · rw [hf]
          have hpl := B3 hl
          subst hl
          refine wf_assemble_leaf o3 o1.nodes.length d 0
            (F1.trans (A3.trans h1)) (by omega) ?_
          intro c hc
          rw [show RecordId.leaf o1.nodes.length
            = (o1.make_node_with_mbr kind m).2 from hf.symm, hpl] at hc
          obtain ⟨j, rfl, hj, hw⟩ := gf4 c hc
          refine ⟨j, rfl, by rw [F6, A7]; exact hj, ?_, ?_⟩
          · show ((o3.get_data j).mbr).wfDim d = true
            rw [F8 j, A9 j]
            exact hw
          · have hm3 : o3.get_mbr (RecordId.leaf o1.nodes.length) = m := by
              show (o3.get_node (RecordId.leaf o1.nodes.length)).mbr = m
              rw [show RecordId.leaf o1.nodes.length
                = (o1.make_node_with_mbr kind m).2 from hf.symm]
              exact hmbr3new
            rw [hm3]
            show mbr_contains m ((o3.get_data j).mbr) = true
            rw [F8 j, A9 j]
            exact gf3 _ hc
      have hrangenew : nodes_range o3 o1.nodes.length o3.nodes.length (level2 + 1)
          (o1.make_node_with_mbr kind m).2 = true := by
        refine range_assemble o3 _ o1.nodes.length o3.nodes.length level2 ?_
          (by omega) (by omega) ?_
        · rcases hformE with ⟨hf, hkk, hl⟩ | ⟨hf, hkk, hl⟩
          · exact Or.inl ⟨o1.nodes.length, hf⟩
          · exact Or.inr ⟨o1.nodes.length, hf⟩
        · intro c hc
          rcases hformE with ⟨hf, hkk, hl⟩ | ⟨hf, hkk, hl⟩
          · obtain ⟨⟨hk1, hk2⟩, cb1, cb2, cwd, cwf, crange, cP⟩ := B4 hl c hc
            refine Or.inr (nodes_range_widen o3 _ _ o1.nodes.length o3.nodes.length
              (by rw [A2]; omega) le_rfl _ _ crange)
          · have hpl := B3 hl
            rw [hpl] at hc
            obtain ⟨j, rfl, hj, hw⟩ := gf4 c hc
            exact Or.inl ⟨j, rfl⟩
      obtain ⟨G1, nk2, hpayR, hcpR, hcolR, hdepR⟩ := ihg o3 oR node_id hrun
        (F1.trans (A3.trans h1)) (by omega)
        (by
          intro p hp
          obtain ⟨q1, q2, q3, q4, q5⟩ := gfr p (List.mem_cons_of_mem _ hp)
          have hdata : ∀ x ∈ p.1, ∃ j, x = RecordId.data j :=
            fun x hx => (q4 x hx).imp (fun j hj => hj.1)
          refine ⟨q1, q2, ?_, ?_, ?_⟩
          · exact (covers_congr o3 o1 p.2 p.1 hdata
              (fun j => (F8 j).trans (A9 j))).mpr q3
          · intro x hx
            obtain ⟨j, rfl, hj, hw⟩ := q4 x hx
            refine ⟨j, rfl, by rw [F6, A7]; exact hj, ?_⟩
            show ((o3.get_data j).mbr).wfDim d = true
            rw [F8 j, A9 j]
            exact hw
          · intro P hP hc
            refine q5 P hP ?_
            exact (covers_congr o1 o3 P allids hallids
              (fun j => ((F8 j).trans (A9 j)).symm)).mpr hc)
      obtain ⟨H1, H2, H3, H4, H5, H6, H7, H8, H9, H10⟩ := G1
      have hfr13 : build_frame o1 o3 node_id := by
        refine ⟨F1.trans A3, F2.trans A4, F3.trans A5, F4.trans A6, by omega,
          F6.trans A7, F7.trans A8, fun j => (F8 j).trans (A9 j), ?_, ?_⟩
        · intro q hq hqn
          rw [F9 q (by rw [A2]; omega) (by rw [A1]; omega), A10 q hq hqn]
        · rw [hnode3, A12]
      have hag : ∀ q : RecordId, o1.nodes.length ≤ q.as_node_id →
          q.as_node_id < o3.nodes.length → oR.get_node q = o3.get_node q := by
        intro q hq1 hq2
        exact H9 q hq2 (by omega)
      have hnodenewR : oR.get_node (o1.make_node_with_mbr kind m).2
          = o3.get_node (o1.make_node_with_mbr kind m).2 :=
        H9 _ (by omega) (by omega)
      have hwfnewR : wf_node oR (level2 + 1) (o1.make_node_with_mbr kind m).2 = true :=
        wf_node_stable o3 oR o1.nodes.length o3.nodes.length H5 H6 H1 H8 hag _ _
          hwfnew hrangenew
      have hrangeR2 : nodes_range oR o1.nodes.length oR.nodes.length (level2 + 1)
          (o1.make_node_with_mbr kind m).2 = true :=
        nodes_range_widen oR o1.nodes.length o3.nodes.length o1.nodes.length
          oR.nodes.length le_rfl H5 _ _
          (nodes_range_stable o3 oR _ _ hag _ _ hrangenew)
      have hcolnewR : collect_data oR (level2 + 1) (o1.make_node_with_mbr kind m).2
          = collect_data o3 (level2 + 1) (o1.make_node_with_mbr kind m).2 :=
        collect_data_stable o3 oR o1.nodes.length o3.nodes.length hag _ _
          hwfnew hrangenew
      have hmR : oR.get_mbr (o1.make_node_with_mbr kind m).2 = m := by
        rcases hformE with ⟨hf, hkk, hl⟩ | ⟨hf, hkk, hl⟩
        · rw [hf]
          show (oR.get_node (RecordId.internal o1.nodes.length)).mbr = m
          rw [show RecordId.internal o1.nodes.length
            = (o1.make_node_with_mbr kind m).2 from hf.symm, hnodenewR]
          exact hmbr3new
        · rw [hf]
          show (oR.get_node (RecordId.leaf o1.nodes.length)).mbr = m
          rw [show RecordId.leaf o1.nodes.length
            = (o1.make_node_with_mbr kind m).2 from hf.symm, hnodenewR]
          exact hmbr3new
      have hcpnew : childPack d o1 oR allids (level2 + 1)
          (o1.make_node_with_mbr kind m).2 := by
        refine ⟨⟨?_, ?_⟩, by omega, by omega, ?_, hwfnewR, hrangeR2, ?_⟩
        · intro h1e
          rcases hformE with ⟨hf, hkk, hl⟩ | ⟨hf, hkk, hl⟩
          · omega
          · exact ⟨o1.nodes.length, hf⟩
        · intro hgt
          rcases hformE with ⟨hf, hkk, hl⟩ | ⟨hf, hkk, hl⟩
          · exact ⟨o1.nodes.length, hf⟩
          · omega
        · rw [hmR]
          exact gf2
        · intro P hP hc
          rw [hmR]
          exact gf5 P hP hc
      refine ⟨build_frame_trans o1 o3 oR node_id hfr13
          ⟨H1, H2, H3, H4, H5, H6, H7, H8, H9, H10⟩,
        (o1.make_node_with_mbr kind m).2 :: nk2, ?_, ?_, ?_, ?_⟩
      · rw [hpayR, hpay3, List.append_assoc]
        rfl
      · intro c hc
        rcases List.mem_cons.mp hc with rfl | hc
        · exact hcpnew
        · obtain ⟨ck, cb1, cb2, cwd, cwf, crange, cP⟩ := hcpR c hc
          refine ⟨ck, by omega, cb2, cwd, cwf,
            nodes_range_widen oR o3.nodes.length oR.nodes.length o1.nodes.length
              oR.nodes.length (by omega) le_rfl _ _ crange, ?_⟩
          intro P hP hc2
          refine cP P hP ?_
          exact (covers_congr o3 o1 P allids hallids
            (fun j => (F8 j).trans (A9 j))).mpr hc2
      · intro x
        constructor
        · rintro ⟨c, hc, hx⟩
          rcases List.mem_cons.mp hc with rfl | hc
          · rw [hcolnewR] at hx
            exact ⟨(grp, m), List.mem_cons_self _ _, (B2 x).mp hx⟩
          · obtain ⟨p, hp, hpx⟩ := (hcolR x).mp ⟨c, hc, hx⟩
            exact ⟨p, List.mem_cons_of_mem _ hp, hpx⟩
        · rintro ⟨p, hp, hx⟩
          rcases List.mem_cons.mp hp with rfl | hp
          · refine ⟨(o1.make_node_with_mbr kind m).2, List.mem_cons_self _ _, ?_⟩
            rw [hcolnewR]
            exact (B2 x).mpr hx
          · obtain ⟨c, hc, hcx⟩ := (hcolR x).mpr ⟨p, hp, hx⟩
            exact ⟨c, List.mem_cons_of_mem _ hc, hcx⟩
      · intro h
        omega

theorem build_node_spec (g : BuildGhost) (d : Nat) (hd : 0 < d)
    (hsort : ∀ l, (g.sorter l).Perm l)
    (hquant : ∀ n, (g.quantf n).1 + (g.quantf n).2 ≤ n) :
    ∀ (level : Nat) (o : ObjSpace) (node_id : RecordId) (ids : List RecordId)
      (o2 : ObjSpace),
    build_node o g node_id level ids = some o2 →
    o.dimension = d →
    node_id.as_node_id < o.nodes.length →
    (o.get_node node_id).payload = ([] : List RecordId) →
    (level = 0 → ∃ k, node_id = RecordId.leaf k) →
    (0 < level → (∃ k, node_id = RecordId.internal k) ∧ ids ≠ []) →
    (∀ x ∈ ids, ∃ j, x = RecordId.data j ∧ j < o.data_nodes.items.length ∧
      (o.get_mbr x).wfDim d = true) →
    build_frame o o2 node_id ∧
    (∀ x, x ∈ collect_data o2 (level + 1) node_id ↔ x ∈ ids) ∧
    (level = 0 → (o2.get_node node_id).payload = ids) ∧
    (0 < level → ∀ c ∈ (o2.get_node node_id).payload, childPack d o o2 ids level c) ∧
    o.nodes.length + level ≤ o2.nodes.length := by
  intro level
  induction level using Nat.strong_induction_on with
  | _ level ih =>
    intro o node_id ids o2 hrun hdim hnid hpay hsh0 hshp hmem
    cases level with
    | zero =>
      rw [build_node] at hrun
      simp only [Option.some.injEq] at hrun
      subst hrun
      obtain ⟨k, rfl⟩ := hsh0 rfl
      obtain ⟨D1, D2, D3, D4, D5, D6, D7, D8, D9, D10, D11⟩ :=
        bind_data_level0_spec o (RecordId.leaf k) ids hnid
          (fun x hx => (hmem x hx).imp (fun j hj => hj.1))
      refine ⟨⟨D2, D3, D4, D5, by omega, D6, D7, D8,
        fun q hq hqn => D9 q hqn, D11⟩, ?_, ?_, ?_, by omega⟩
      · intro x
        show x ∈ ((bind_data_level0 o (RecordId.leaf k) ids).get_node
          (RecordId.leaf k)).payload ↔ x ∈ ids
        rw [D10, hpay]
        exact Iff.rfl
      · intro _
        rw [D10, hpay]
        rfl
      · intro h0
        exact absurd h0 (by omega)
    | succ level2 =>
      rw [build_node] at hrun
      cases hsg : split_groups o g (g.ncf ids.length (level2 + 1)) (level2 + 1) ids with
      | none =>
        rw [hsg] at hrun
        exact absurd hrun (by simp)
      | some groups =>
        rw [hsg] at hrun
        dsimp only at hrun
        obtain ⟨hk, hne⟩ := hshp (by omega)
        obtain ⟨sg1, sg2⟩ := split_groups_spec o g d hd hsort hquant
          (g.ncf ids.length (level2 + 1)) (level2 + 1) ids groups
          (fun id hid => by
            obtain ⟨j, rfl, hj, hw⟩ := hmem id hid
            exact hw) hne hsg
        obtain ⟨BF, nk, hpayR, hcp, hcol, hdep⟩ := build_groups_spec g d hd level2
          (if level2 = 0 then RecordIdKind.leaf else RecordIdKind.internal) rfl
          (ih level2 (by omega)) ids
          (fun x hx => (hmem x hx).imp (fun j hj => hj.1))
          groups o o2 node_id hrun hdim hnid
          (fun p hp => by
            obtain ⟨q1, q2, q3, q4, q5⟩ := sg2 p hp
            refine ⟨q1, q2, q3, ?_, q5⟩
            intro x hx
            exact hmem x (q4 x hx))
        obtain ⟨k0, hk0⟩ := hk
        refine ⟨BF, ?_, ?_, ?_, ?_⟩
        · intro x
          subst hk0
          show x ∈ ((o2.get_node (RecordId.internal k0)).payload.flatMap
            (fun c => collect_data o2 (level2 + 1) c)) ↔ x ∈ ids
          rw [hpayR, hpay]
          constructor
          · intro hx
            obtain ⟨c, hc, hxc⟩ := List.mem_flatMap.mp hx
            exact (sg1 x).mp ((hcol x).mp ⟨c, by simpa using hc, hxc⟩)
          · intro hx
            obtain ⟨c, hc, hxc⟩ := (hcol x).mpr ((sg1 x).mpr hx)
            exact List.mem_flatMap.mpr ⟨c, by simpa using hc, hxc⟩
        · intro h0
          exact absurd h0 (by omega)
        · intro _ c hc
          rw [hpayR, hpay] at hc
          exact hcp c (by simpa using hc)
        · obtain ⟨x0, hx0⟩ := List.exists_mem_of_ne_nil ids hne
          obtain ⟨p, hp, -⟩ := (sg1 x0).mpr hx0
          have hgne : groups ≠ [] := by
            intro h
            rw [h] at hp
            cases hp
          have := hdep hgne
          omega

theorem fold_common_props (d : Nat) (hd : 0 < d) :
    ∀ (ms : List MBR), (∀ mm ∈ ms, mm.wfDim d = true) → ms ≠ [] →
    (common_mbr_from_iter ms).wfDim d = true ∧
    (∀ mm ∈ ms, mbr_contains (common_mbr_from_iter ms) mm = true) := by
  intro ms
  induction ms using List.reverseRecOn with
  | nil => intro _ h; exact absurd rfl h
  | append_singleton ms x ih =>
    intro hall _
    rw [fold_common_snoc]
    have hx : x.wfDim d = true := hall x (List.mem_append_right _ (List.mem_singleton_self x))
    by_cases hms : ms = []
    · subst hms
      rw [show common_mbr_from_iter ([] : List MBR) = MBR.undefined from rfl,
        (common_undefined_id x d hd hx).2]
      refine ⟨hx, ?_⟩
      intro mm hmm
      rcases List.mem_singleton.mp (by simpa using hmm) with rfl
      exact mbr_contains_refl _
    · obtain ⟨hw, hc⟩ := ih (fun mm hmm => hall mm (List.mem_append_left _ hmm)) hms
      obtain ⟨hca, hcb⟩ := common_mbr_contains (common_mbr_from_iter ms) x d hw hx
      refine ⟨common_mbr_wfDim _ _ d hw hx, ?_⟩
      intro mm hmm
      rcases List.mem_append.mp hmm with hmm | hmm
      · exact mbr_contains_trans _ _ _ hca (hc mm hmm)
      · rcases List.mem_singleton.mp hmm with rfl
        exact hcb

theorem collect_payload_congr (oA oB : ObjSpace)
    (h : ∀ q : RecordId, (oA.get_node q).payload = (oB.get_node q).payload) :
    ∀ (fuel : Nat) (rid : RecordId), collect_data oA fuel rid = collect_data oB fuel rid := by
  intro fuel
  induction fuel with
  | zero => intro rid; rfl
  | succ fuel ih =>
    intro rid
    match rid with
    | .leaf i => exact h (RecordId.leaf i)
    | .root =>
      show (oA.get_node RecordId.root).payload.flatMap _
        = (oB.get_node RecordId.root).payload.flatMap _
      rw [h RecordId.root]
      exact List.flatMap_congr (fun c _ => ih c)
    | .internal i =>
      show (oA.get_node (RecordId.internal i)).payload.flatMap _
        = (oB.get_node (RecordId.internal i)).payload.flatMap _
      rw [h (RecordId.internal i)]
      exact List.flatMap_congr (fun c _ => ih c)
    | .data i =>
      show (oA.get_node (RecordId.data i)).payload.flatMap _
        = (oB.get_node (RecordId.data i)).payload.flatMap _
      rw [h (RecordId.data i)]
      exact List.flatMap_congr (fun c _ => ih c)

theorem live_iff_iter (o : ObjSpace) (j : Nat) :
    RecordId.data j ∈ o.iter_data_ids ↔ o.data_nodes.is_live j = true := by
  unfold ObjSpace.iter_data_ids ShrinkableStorage.iter_ids ShrinkableStorage.is_live
  rw [List.mem_map]
  constructor
  · rintro ⟨i, hi, he⟩
    cases he
    rw [List.mem_filter, List.mem_range] at hi
    simp only [Bool.and_eq_true, decide_eq_true_eq]
    exact ⟨hi.1, hi.2⟩
  · intro h
    simp only [Bool.and_eq_true, decide_eq_true_eq] at h
    exact ⟨j, by rw [List.mem_filter, List.mem_range]; exact h, rfl⟩

theorem volume_pos_iter_ne_nil (o : ObjSpace) (h : 0 < o.data_num) :
    o.iter_data_ids ≠ [] := by
  unfold ObjSpace.data_num ShrinkableStorage.volume at h
  unfold ObjSpace.iter_data_ids ShrinkableStorage.iter_ids
  rw [List.countP_eq_length_filter] at h
  intro he
  rw [List.map_eq_nil_iff] at he
  rw [he] at h
  simp at h

theorem volume_pos_not_empty (o : ObjSpace) (h : 0 < o.data_num) :
    o.is_empty = false := by
  unfold ObjSpace.data_num ShrinkableStorage.volume at h
  unfold ObjSpace.is_empty ShrinkableStorage.isEmpty
  cases hi : o.data_nodes.items with
  | nil =>
    rw [hi] at h
    simp at h
  | cons a as => rfl

theorem search_mem_iff (o : ObjSpace) (area : MBR)
    (hwf : wf_node o (o.nodes.length + 1) o.root_id = true)
    (hne : o.is_empty = false) (j : Nat) :
    j ∈ search o area ↔
      (RecordId.data j ∈ collect_data o (o.nodes.length + 1) o.root_id ∧
        intersects (o.get_mbr (RecordId.data j)) area = true) := by
  unfold search
  rw [List.mem_map]
  constructor
  · rintro ⟨r, hr, he⟩
    have hs := (search_helper_spec o area (o.nodes.length + 1) o.root_id hwf hne r).mp hr
    obtain ⟨⟨j2, rfl, hj2⟩, -, -⟩ := collect_data_spec o (o.nodes.length + 1) o.root_id
      hwf r hs.1
    cases he
    exact hs
  · intro h
    exact ⟨RecordId.data j,
      (search_helper_spec o area (o.nodes.length + 1) o.root_id hwf hne _).mpr h, rfl⟩

theorem mem_iter_data_ids (o : ObjSpace) (x : RecordId) (hx : x ∈ o.iter_data_ids) :
    ∃ j, x = RecordId.data j ∧ o.data_nodes.is_live j = true := by
  unfold ObjSpace.iter_data_ids ShrinkableStorage.iter_ids at hx
  rw [List.mem_map] at hx
  obtain ⟨i, hi, rfl⟩ := hx
  rw [List.mem_filter, List.mem_range] at hi
  refine ⟨i, rfl, ?_⟩
  unfold ShrinkableStorage.is_live
  simp only [Bool.and_eq_true, decide_eq_true_eq]
  exact ⟨hi.1, hi.2⟩

/-- C4: rebuild/search equivalence.  For every populated tree (at least
one live data record) satisfying the tree invariant (the root subtree is
well-formed and every live data id is bound in it), every rebuild level
`>= 1` and every ghost whose sorter permutes and whose quantile split
stays within the slice (true of every `alpha` in `[0, 0.5]`), a
successful `rebuild` yields a tree on which `search` returns, on every
query area, exactly the same ids as on the pre-rebuild tree modulo
soft-deleted ids: the result sets agree once both are restricted to live
ids. -/
theorem claim_C4_rebuild_search_equiv (o : ObjSpace) (g : BuildGhost) (level : Nat)
    (hsort : ∀ l, (g.sorter l).Perm l)
    (hquant : ∀ n, (g.quantf n).1 + (g.quantf n).2 ≤ n)
    (hlevel : 1 ≤ level)
    (hd : 0 < o.dimension)
    (hpop : 0 < o.data_num)
    (hwf : wf_node o (o.nodes.length + 1) o.root_id = true)
    (hbound : ∀ j : Nat, o.data_nodes.is_live j = true →
      RecordId.data j ∈ collect_data o (o.nodes.length + 1) o.root_id)
    (o2 : ObjSpace) (hrun : rebuild o g level = some o2) :
    ∀ (area : MBR) (j : Nat),
      (j ∈ search o2 area ∧ o2.data_nodes.is_live j = true) ↔
      (j ∈ search o area ∧ o.data_nodes.is_live j = true) := by
  have hne : o.is_empty = false := volume_pos_not_empty o hpop
  unfold rebuild at hrun
  rw [hne] at hrun
  simp only [Bool.false_eq_true, if_false] at hrun
  have hidsne : o.iter_data_ids ≠ [] := volume_pos_iter_ne_nil o hpop
  have hdatafacts : ∀ x ∈ o.iter_data_ids, ∃ jj, x = RecordId.data jj ∧
      o.data_nodes.is_live jj = true ∧ jj < o.data_nodes.items.length ∧
      (o.get_mbr (RecordId.data jj)).wfDim o.dimension = true := by
    intro x hx
    obtain ⟨jj, rfl, hl⟩ := mem_iter_data_ids o x hx
    have hc := hbound jj hl
    obtain ⟨⟨j2, he2, hj2⟩, hw2, -⟩ :=
      collect_data_spec o (o.nodes.length + 1) o.root_id hwf _ hc
    injection he2 with he2
    subst he2
    exact ⟨jj, rfl, hl, hj2, hw2⟩
  suffices K : (wf_node o2 (o2.nodes.length + 1) o2.root_id = true) ∧
      (∀ x, x ∈ collect_data o2 (o2.nodes.length + 1) o2.root_id ↔ x ∈ o.iter_data_ids) ∧
      (∀ jj, o2.get_mbr (RecordId.data jj) = o.get_mbr (RecordId.data jj)) ∧
      (∀ jj, o2.data_nodes.is_live jj = o.data_nodes.is_live jj) ∧
      o2.is_empty = false by
    obtain ⟨K1, K2, K3, K4, K5⟩ := K
    intro area jj
    constructor
    · rintro ⟨hs, hl⟩
      have hl2 : o.data_nodes.is_live jj = true := by rw [← K4 jj]; exact hl
      obtain ⟨hc2, hint⟩ := (search_mem_iff o2 area K1 K5 jj).mp hs
      refine ⟨(search_mem_iff o area hwf hne jj).mpr ⟨hbound jj hl2, ?_⟩, hl2⟩
      rw [← K3 jj]
      exact hint
    · rintro ⟨hs, hl⟩
      have hl2 : o2.data_nodes.is_live jj = true := by rw [K4 jj]; exact hl
      obtain ⟨hc, hint⟩ := (search_mem_iff o area hwf hne jj).mp hs
      refine ⟨(search_mem_iff o2 area K1 K5 jj).mpr
        ⟨(K2 _).mpr ((live_iff_iter o jj).mpr hl), ?_⟩, hl2⟩
      rw [K3 jj]
      exact hint
  cases level with
  | zero => omega
  | succ lv =>
  by_cases hlv : lv = 0
  · subst hlv
    simp only [show o.clear_tree_structure.root_id.as_node_id = 0 from rfl,
      Nat.add_sub_cancel, Nat.zero_add, if_pos (rfl : (1:Nat) = 1), if_true,
      RecordId.from_node_id] at hrun
    split at hrun
    · exact absurd hrun (by simp)
    next om heq =>
    injection hrun with hom
    have HS := build_node_spec g o.dimension hd hsort hquant 0 _ _ _ _ heq
    obtain ⟨⟨B1, B2, B3, B4, B5, B6, B7, B8, B9, B10⟩, HIF, HP0, HCP, HDEP⟩ :=
      HS rfl (by show (0:Nat) < 1; decide) rfl (fun _ => ⟨0, rfl⟩) (fun h => absurd h (by omega))
        (fun x hx => by
          obtain ⟨jj, rfl, hl, hjlt, hwfd⟩ := hdatafacts x hx
          exact ⟨jj, rfl, hjlt, hwfd⟩)
    have hpay : (om.get_node (RecordId.leaf 0)).payload = o.iter_data_ids := HP0 rfl
    have h1le : 1 ≤ om.nodes.length := B5
    obtain ⟨S1, S2, S3, S4, S5, S6, S7, S8, S9⟩ :=
      set_mbr_frame om (RecordId.leaf 0)
        (common_mbr_from_iter (List.map om.get_mbr (om.get_node (RecordId.leaf 0)).payload)) 0
        (Or.inr (Or.inl rfl))
    rw [hom] at S1 S2 S3 S4 S5 S6 S7 S8 S9
    have hdim2 : o2.dimension = o.dimension := S3.trans B1
    have hlen2 : o2.nodes.length = om.nodes.length := S1
    have hitems : o2.data_nodes.items.length = o.data_nodes.items.length := by
      rw [S2]
      exact B6
    have K3 : ∀ jj, o2.get_mbr (RecordId.data jj) = o.get_mbr (RecordId.data jj) := by
      intro jj
      show (o2.get_data jj).mbr = (o.get_data jj).mbr
      have hgd : o2.get_data jj = om.get_data jj := by
        unfold ObjSpace.get_data
        rw [S2]
      rw [hgd]
      exact B8 jj
    have K4 : ∀ jj, o2.data_nodes.is_live jj = o.data_nodes.is_live jj := by
      intro jj
      unfold ShrinkableStorage.is_live
      rw [S2, B6, B7]
      rfl
    have hmemfacts : ∀ c ∈ (om.get_node (RecordId.leaf 0)).payload, ∃ jj, c = RecordId.data jj ∧
        o.data_nodes.is_live jj = true ∧ jj < o.data_nodes.items.length ∧
        (o.get_mbr (RecordId.data jj)).wfDim o.dimension = true ∧
        om.get_mbr (RecordId.data jj) = o.get_mbr (RecordId.data jj) := by
      intro c hc
      rw [hpay] at hc
      obtain ⟨jj, rfl, hl, hjlt, hwfd⟩ := hdatafacts c hc
      refine ⟨jj, rfl, hl, hjlt, hwfd, ?_⟩
      show (om.get_data jj).mbr = (o.get_data jj).mbr
      exact B8 jj
    have hLw : ∀ mm ∈ List.map om.get_mbr (om.get_node (RecordId.leaf 0)).payload,
        mm.wfDim o.dimension = true := by
      intro mm hmm
      rw [List.mem_map] at hmm
      obtain ⟨c, hc, rfl⟩ := hmm
      obtain ⟨jj, rfl, hl, hjlt, hwfd, hmbreq⟩ := hmemfacts c hc
      rw [hmbreq]
      exact hwfd
    have hLne : List.map om.get_mbr (om.get_node (RecordId.leaf 0)).payload ≠ [] := by
      simp only [ne_eq, List.map_eq_nil_iff]
      rw [hpay]
      exact hidsne
    obtain ⟨hMw, hMc⟩ := fold_common_props o.dimension hd _ hLw hLne
    have hroot2 : o2.root_id = RecordId.leaf 0 := S6.trans B4
    have h0lt : (RecordId.leaf 0).as_node_id < om.nodes.length := h1le
    have hmbrroot : o2.get_mbr (RecordId.leaf 0)
        = common_mbr_from_iter (List.map om.get_mbr (om.get_node (RecordId.leaf 0)).payload) := by
      show (o2.get_node (RecordId.leaf 0)).mbr = _
      rw [S8 h0lt]
    have hpay2 : (o2.get_node (RecordId.leaf 0)).payload
        = (om.get_node (RecordId.leaf 0)).payload := S9 (RecordId.leaf 0)
    refine ⟨?_, ?_, K3, K4, ?_⟩
    · rw [hroot2]
      apply wf_assemble_leaf o2 0 o.dimension o2.nodes.length hdim2 (by omega)
      intro c hc
      rw [hpay2] at hc
      obtain ⟨jj, rfl, hl, hjlt, hwfd, hmbreq⟩ := hmemfacts _ hc
      refine ⟨jj, rfl, by omega, ?_, ?_⟩
      · rw [K3 jj]
        exact hwfd
      · rw [hmbrroot, K3 jj]
        have hin := hMc (om.get_mbr (RecordId.data jj)) (List.mem_map_of_mem _ hc)
        rw [hmbreq] at hin
        exact hin
    · intro x
      rw [hroot2]
      show x ∈ (o2.get_node (RecordId.leaf 0)).payload ↔ x ∈ o.iter_data_ids
      rw [hpay2, hpay]
    · have hop : o.data_nodes.items ≠ [] := by
        intro hnil
        unfold ObjSpace.is_empty ShrinkableStorage.isEmpty at hne
        rw [hnil] at hne
        simp at hne
      show o2.data_nodes.items.isEmpty = false
      cases hi : o2.data_nodes.items with
      | nil =>
        rw [hi] at hitems
        exact absurd (List.length_eq_zero.mp hitems.symm) hop
      | cons a as => rfl
  · simp only [show o.clear_tree_structure.root_id.as_node_id = 0 from rfl,
      Nat.add_sub_cancel, if_neg (show ¬(lv + 1 = 1) by omega),
      RecordId.from_node_id] at hrun
    split at hrun
    · exact absurd hrun (by simp)
    next om heq =>
    injection hrun with hom
    have HS := build_node_spec g o.dimension hd hsort hquant lv _ _ _ _ heq
    obtain ⟨⟨B1, B2, B3, B4, B5, B6, B7, B8, B9, B10⟩, HIF, HP0, HCP, HDEP⟩ :=
      HS rfl (by show (0:Nat) < 1; decide) rfl (fun h => absurd h hlv)
        (fun _ => ⟨⟨0, rfl⟩, hidsne⟩)
        (fun x hx => by
          obtain ⟨jj, rfl, hl, hjlt, hwfd⟩ := hdatafacts x hx
          exact ⟨jj, rfl, hjlt, hwfd⟩)
    have HCP1 := HCP (Nat.pos_of_ne_zero hlv)
    have h1lv : 1 + lv ≤ om.nodes.length := HDEP
    obtain ⟨S1, S2, S3, S4, S5, S6, S7, S8, S9⟩ :=
      set_mbr_frame om (RecordId.internal 0)
        (common_mbr_from_iter
          (List.map om.get_mbr (om.get_node (RecordId.internal 0)).payload)) 0
        (Or.inl rfl)
    rw [hom] at S1 S2 S3 S4 S5 S6 S7 S8 S9
    have hdim2 : o2.dimension = o.dimension := S3.trans B1
    have hlen2 : o2.nodes.length = om.nodes.length := S1
    have hitems : o2.data_nodes.items.length = o.data_nodes.items.length := by
      rw [S2]
      exact B6
    have K3 : ∀ jj, o2.get_mbr (RecordId.data jj) = o.get_mbr (RecordId.data jj) := by
      intro jj
      show (o2.get_data jj).mbr = (o.get_data jj).mbr
      have hgd : o2.get_data jj = om.get_data jj := by
        unfold ObjSpace.get_data
        rw [S2]
      rw [hgd]
      exact B8 jj
    have K4 : ∀ jj, o2.data_nodes.is_live jj = o.data_nodes.is_live jj := by
      intro jj
      unfold ShrinkableStorage.is_live
      rw [S2, B6, B7]
      rfl
    have hroot2 : o2.root_id = RecordId.internal 0 := S6.trans B4
    have h0lt : (RecordId.internal 0).as_node_id < om.nodes.length := by
      show 0 < om.nodes.length
      omega
    have hmbrroot : o2.get_mbr (RecordId.internal 0)
        = common_mbr_from_iter
          (List.map om.get_mbr (om.get_node (RecordId.internal 0)).payload) := by
      show (o2.get_node (RecordId.internal 0)).mbr = _
      rw [S8 h0lt]
    have hpay2 : (o2.get_node (RecordId.internal 0)).payload
        = (om.get_node (RecordId.internal 0)).payload := S9 (RecordId.internal 0)
    have hag : ∀ q : RecordId, 1 ≤ q.as_node_id → q.as_node_id < om.nodes.length →
        o2.get_node q = om.get_node q := by
      intro q h1 _
      refine S7 q ?_
      show q.as_node_id ≠ 0
      omega
    have hnl : om.nodes.length ≤ o2.nodes.length := le_of_eq hlen2.symm
    have hdl : o2.data_nodes.items.length = om.data_nodes.items.length := by rw [S2]
    have hdm : ∀ j, (o2.get_data j).mbr = (om.get_data j).mbr := by
      intro j
      unfold ObjSpace.get_data
      rw [S2]
    have hchild : ∀ c ∈ (om.get_node (RecordId.internal 0)).payload,
        ((∃ k, c = RecordId.internal k) ∨ (∃ k, c = RecordId.leaf k)) ∧
        (om.get_mbr c).wfDim o.dimension = true ∧
        o2.get_mbr c = om.get_mbr c ∧
        wf_node o2 lv c = true ∧
        collect_data o2 lv c = collect_data om lv c := by
      intro c hc
      obtain ⟨⟨hk1, hk2⟩, hlo, hhi, hwfd, hwfc, hrange, hmin⟩ := HCP1 c hc
      have hlo1 : 1 ≤ c.as_node_id := hlo
      have hshape : (∃ k, c = RecordId.internal k) ∨ (∃ k, c = RecordId.leaf k) := by
        rcases Nat.lt_or_ge 1 lv with h | h
        · exact Or.inl (hk2 h)
        · have hlv1 : lv = 1 := by omega
          exact Or.inr (hk1 hlv1)
      have hcnode : o2.get_node c = om.get_node c := hag c hlo1 hhi
      have hcmbr : o2.get_mbr c = om.get_mbr c := by
        rcases hshape with ⟨k, rfl⟩ | ⟨k, rfl⟩
        · show (o2.get_node (RecordId.internal k)).mbr
            = (om.get_node (RecordId.internal k)).mbr
          rw [hcnode]
        · show (o2.get_node (RecordId.leaf k)).mbr = (om.get_node (RecordId.leaf k)).mbr
          rw [hcnode]
      refine ⟨hshape, hwfd, hcmbr, ?_, ?_⟩
      · exact wf_node_stable om o2 1 om.nodes.length hnl hdl S3 hdm hag lv c hwfc hrange
      · exact collect_data_stable om o2 1 om.nodes.length hag lv c hwfc hrange
    have hpayne : (om.get_node (RecordId.internal 0)).payload ≠ [] := by
      obtain ⟨x, hx⟩ := List.exists_mem_of_ne_nil _ hidsne
      have hxc : x ∈ collect_data om (lv + 1) (RecordId.internal 0) := (HIF x).mpr hx
      intro hnil
      rw [show collect_data om (lv + 1) (RecordId.internal 0)
        = (om.get_node (RecordId.internal 0)).payload.flatMap (fun c => collect_data om lv c)
        from rfl, hnil] at hxc
      simp at hxc
    have hLw : ∀ mm ∈ List.map om.get_mbr (om.get_node (RecordId.internal 0)).payload,
        mm.wfDim o.dimension = true := by
      intro mm hmm
      rw [List.mem_map] at hmm
      obtain ⟨c, hc, rfl⟩ := hmm
      exact (hchild c hc).2.1
    have hLne : List.map om.get_mbr (om.get_node (RecordId.internal 0)).payload ≠ [] := by
      simp only [ne_eq, List.map_eq_nil_iff]
      exact hpayne
    obtain ⟨hMw, hMc⟩ := fold_common_props o.dimension hd _ hLw hLne
    refine ⟨?_, ?_, K3, K4, ?_⟩
    · rw [hroot2]
      apply wf_assemble_internal o2 0 o.dimension o2.nodes.length hdim2 (by omega)
      intro c hc
      rw [hpay2] at hc
      obtain ⟨hshape, hwfd, hcmbr, hwf2, hcol⟩ := hchild c hc
      refine ⟨hshape, ?_, ?_, ?_⟩
      · rw [hcmbr]
        exact hwfd
      · rw [hmbrroot, hcmbr]
        exact hMc _ (List.mem_map_of_mem _ hc)
      · exact wf_node_le o2 lv o2.nodes.length (by omega) c hwf2
    · intro x
      rw [hroot2]
      have hcol2 : collect_data o2 (o2.nodes.length + 1) (RecordId.internal 0)
          = (o2.get_node (RecordId.internal 0)).payload.flatMap
            (fun c => collect_data o2 o2.nodes.length c) := rfl
      rw [hcol2, hpay2]
      have hflat : ∀ c ∈ (om.get_node (RecordId.internal 0)).payload,
          collect_data o2 o2.nodes.length c = collect_data om lv c := by
        intro c hc
        obtain ⟨hshape, hwfd, hcmbr, hwf2, hcol⟩ := hchild c hc
        rw [collect_data_fuel_le o2 lv o2.nodes.length (by omega) c hwf2]
        exact hcol
      rw [List.flatMap_congr hflat]
      exact HIF x
    · have hop : o.data_nodes.items ≠ [] := by
        intro hnil
        unfold ObjSpace.is_empty ShrinkableStorage.isEmpty at hne
        rw [hnil] at hne
        simp at hne
      show o2.data_nodes.items.isEmpty = false
      cases hi : o2.data_nodes.items with
      | nil =>
        rw [hi] at hitems
        exact absurd (List.length_eq_zero.mp hitems.symm) hop
      | cons a as => rfl



/-- Witness state for C4: one-dimensional tree, a single live data
record `X = [0; 1]` bound in the root leaf. -/
def c4state : ObjSpace :=
  { nodes := [⟨RecordId.root, ⟨[⟨0, 1⟩]⟩, [RecordId.data 0]⟩],
    data_nodes := ⟨[⟨RecordId.leaf 0, ⟨[⟨0, 1⟩]⟩, 0⟩], []⟩,
    dimension := 1, min_records := 2, max_records := 4,
    root_id := RecordId.leaf 0 }

/-- Ghost for the C4 witness: identity sort, zero quantiles. -/
def c4ghost : BuildGhost :=
  ⟨fun _ _ => 0, fun l => l, fun _ => (0, 0)⟩

/-- The C4 witness tree after `rebuild` at level 1 (here the rebuild
reproduces the input state). -/
def c4rebuilt : ObjSpace :=
  { nodes := [⟨RecordId.root, ⟨[⟨0, 1⟩]⟩, [RecordId.data 0]⟩],
    data_nodes := ⟨[⟨RecordId.leaf 0, ⟨[⟨0, 1⟩]⟩, 0⟩], []⟩,
    dimension := 1, min_records := 2, max_records := 4,
    root_id := RecordId.leaf 0 }

theorem build_node_zero (o : ObjSpace) (g : BuildGhost) (node_id : RecordId)
    (ids : List RecordId) :
    build_node o g node_id 0 ids = some (bind_data_level0 o node_id ids) := by
  rw [build_node]

theorem c4_rebuild_run : rebuild c4state c4ghost 1 = some c4rebuilt := by
  unfold rebuild
  simp only [show c4state.is_empty = false from rfl, Bool.false_eq_true, if_false,
    show (1 : Nat) - 1 = 0 from rfl, build_node_zero]
  rfl

/-- Witness for C4: on the one-record tree, rebuild at level 1 succeeds
and the search results at area `X = [0; 1]` agree with the pre-rebuild
tree on live ids. -/
theorem claim_C4_witness :
    (1 ≤ 1 ∧ 0 < c4state.dimension ∧ 0 < c4state.data_num ∧
      wf_node c4state (c4state.nodes.length + 1) c4state.root_id = true ∧
      rebuild c4state c4ghost 1 = some c4rebuilt) ∧
    ((0 ∈ search c4rebuilt ⟨[⟨0, 1⟩]⟩ ∧ c4rebuilt.data_nodes.is_live 0 = true) ↔
      (0 ∈ search c4state ⟨[⟨0, 1⟩]⟩ ∧ c4state.data_nodes.is_live 0 = true)) :=
  ⟨⟨by decide, by decide, by decide, by decide, c4_rebuild_run⟩,
    claim_C4_rebuild_search_equiv c4state c4ghost 1
      (fun l => List.Perm.refl l) (fun n => Nat.zero_le n)
      (by decide) (by decide) (by decide) (by decide)
      (by
        intro j hj
        have hlen : c4state.data_nodes.items.length = 1 := rfl
        unfold ShrinkableStorage.is_live at hj
        simp only [Bool.and_eq_true, decide_eq_true_eq] at hj
        obtain ⟨hj1, -⟩ := hj
        have hj0 : j = 0 := by omega
        subst hj0
        decide)
      c4rebuilt c4_rebuild_run ⟨[⟨0, 1⟩]⟩ 0⟩

end LCRR
